import Mathlib

/-!
Verification of the timer-set (gw/timers.c) and connection (gwlib/conn.c)
cores of the kannel gateway, against their natural-language specification.

The C code is shallowly embedded: every operation becomes a pure Lean
function on an explicit state record.  External effects (the `read`/`write`
system calls, `gwthread_pollfd`) are passed in as explicit outcome values,
and memory management (`wap_event_destroy`) is recorded in a `destroyed`
log so that destruction claims are observable.  Machine `long` arithmetic
is modelled with `Int`/`Nat` as appropriate; none of the code relies on
overflow.
-/

set_option maxHeartbeats 1000000

namespace Kannel

/-! ### Connection state (struct Connection, src/gwlib/conn.c lines 30-68)

Octet strings are byte lists; the fd and the mutexes are not part of the
pure state.  The `listening_*` fields shadow the poll interest exactly as
in the source. -/

structure Connection where
  outbuf : List Nat
  outbufpos : Nat
  output_buffering : Nat
  inbuf : List Nat
  inbufpos : Nat
  read_eof : Bool
  read_error : Bool
  registered : Bool
  listening_pollin : Bool
  listening_pollout : Bool
deriving Repr, DecidableEq

/-- Outcome of one `read(fd, buf, 4096)` system call: an error (with
`intr` covering EINTR/EAGAIN/EWOULDBLOCK), end of file (0 bytes), or a
non-empty chunk of data. -/
inductive ReadEvent where
  | rerror (intr : Bool)
  | reof
  | rdata (bs : List Nat)
deriving Repr, DecidableEq

/-- Outcome of one `octstr_write_data` call: the number of bytes the
kernel accepted, or an error. -/
inductive WriteOutcome where
  | wrote (n : Nat)
  | werror
deriving Repr, DecidableEq

def unlocked_outbuf_len (c : Connection) : Int :=
  (c.outbuf.length : Int) - (c.outbufpos : Int)

def unlocked_inbuf_len (c : Connection) : Int :=
  (c.inbuf.length : Int) - (c.inbufpos : Int)

/-- Unread part of the input buffer (the bytes from `inbufpos` on). -/
def unread (c : Connection) : List Nat := c.inbuf.drop c.inbufpos

/-- The bytes a read event appends (nothing for error or eof). -/
def readBytes : ReadEvent → List Nat
  | .rdata bs => bs
  | _ => []

/-- conn.c lines 218-230: update the POLLIN shadow (the `fdset_listen`
call is external; the shadow ends up equal to `onoff` in either case). -/
def unlocked_register_pollin (c : Connection) (onoff : Bool) : Connection :=
  if onoff && !c.listening_pollin then { c with listening_pollin := true }
  else if !onoff && c.listening_pollin then { c with listening_pollin := false }
  else c

/-- conn.c lines 237-249: update the POLLOUT shadow. -/
def unlocked_register_pollout (c : Connection) (onoff : Bool) : Connection :=
  if onoff && !c.listening_pollout then { c with listening_pollout := true }
  else if !onoff && c.listening_pollout then { c with listening_pollout := false }
  else c

/-- conn.c lines 129-151, `unlocked_write`: write as much as possible,
advance `outbufpos`, compact when more than half the buffer is consumed,
refresh POLLOUT interest when registered. -/
def unlocked_write (c : Connection) (w : WriteOutcome) : Connection × Int :=
  match w with
  | .werror => (c, -1)
  | .wrote n =>
      let c1 : Connection := { c with outbufpos := c.outbufpos + n }
      let c2 : Connection :=
        if c1.outbuf.length / 2 < c1.outbufpos then
          { c1 with outbuf := c1.outbuf.drop c1.outbufpos, outbufpos := 0 }
        else c1
      let c3 : Connection :=
        if c2.registered then
          unlocked_register_pollout c2 (decide (0 < unlocked_outbuf_len c2))
        else c2
      (c3, (n : Int))

/-- conn.c lines 155-172, `unlocked_try_write`. -/
def unlocked_try_write (c : Connection) (w : WriteOutcome) : Connection × Int :=
  let len := unlocked_outbuf_len c
  if len = 0 then (c, 0)
  else if len < (c.output_buffering : Int) then (c, 1)
  else
    let r := unlocked_write c w
    if r.2 < 0 then (r.1, -1)
    else if 0 < unlocked_outbuf_len r.1 then (r.1, 1)
    else (r.1, 0)

/-- conn.c lines 175-200, `unlocked_read`: drop the consumed prefix, then
apply the outcome of one `read` call. -/
def unlocked_read (c : Connection) (ev : ReadEvent) : Connection :=
  let c1 : Connection :=
    if 0 < c.inbufpos then { c with inbuf := c.inbuf.drop c.inbufpos, inbufpos := 0 }
    else c
  match ev with
  | .rerror intr =>
      if intr then c1
      else
        let c2 : Connection := { c1 with read_error := true }
        if c2.registered then unlocked_register_pollin c2 false else c2
  | .reof =>
      let c2 : Connection := { c1 with read_eof := true }
      if c2.registered then unlocked_register_pollin c2 false else c2
  | .rdata bs => { c1 with inbuf := c1.inbuf ++ bs }

/-- conn.c lines 203-211, `unlocked_get`: cut `length` octets from the
input buffer. -/
def unlocked_get (c : Connection) (length : Nat) : Connection × List Nat :=
  ({ c with inbufpos := c.inbufpos + length }, (c.inbuf.drop c.inbufpos).take length)

/-- octstr_search_char: position of `ch` in `buf` at or after `pos`, or -1. -/
def octstr_search_char (buf : List Nat) (ch : Nat) (pos : Nat) : Int :=
  match (buf.drop pos).findIdx? (fun b => b == ch) with
  | some i => ((pos + i : Nat) : Int)
  | none => -1

/-- Modelled from the spec: `decode_network_long` lives in gwlib/utils.c,
which is not under src/.  Per the spec it decodes a network-order (big
endian) 32-bit value, and a value with the high bit set is read as a
negative number (two's complement), matching "a negative decoded length
(i.e., high bit set)". -/
def decode_network_long (bs : List Nat) : Int :=
  let v := bs.getD 0 0 * 16777216 + bs.getD 1 0 * 65536 + bs.getD 2 0 * 256 + bs.getD 3 0
  if v < 2147483648 then (v : Int) else (v : Int) - 4294967296

/-- Modelled from the spec: `encode_network_long` (gwlib/utils.c, not under
src/) stores a 32-bit value in network byte order. -/
def encode_network_long (n : Nat) : List Nat :=
  [n / 16777216 % 256, n / 65536 % 256, n / 256 % 256, n % 256]

/-- conn.c lines 677-694, `conn_read_fixed`. -/
def conn_read_fixed (c : Connection) (length : Int) (ev : ReadEvent) :
    Connection × Option (List Nat) :=
  if unlocked_inbuf_len c < length then
    let c1 := unlocked_read c ev
    if unlocked_inbuf_len c1 < length then (c1, none)
    else
      let r := unlocked_get c1 length.toNat
      (r.1, some r.2)
  else
    let r := unlocked_get c length.toNat
    (r.1, some r.2)

/-- conn.c lines 659-675, `conn_read_everything`. -/
def conn_read_everything (c : Connection) (ev : ReadEvent) :
    Connection × Option (List Nat) :=
  if unlocked_inbuf_len c = 0 then
    let c1 := unlocked_read c ev
    if unlocked_inbuf_len c1 = 0 then (c1, none)
    else
      let r := unlocked_get c1 (unlocked_inbuf_len c1).toNat
      (r.1, some r.2)
  else
    let r := unlocked_get c (unlocked_inbuf_len c).toNat
    (r.1, some r.2)

/-- conn.c lines 715-727: extract the found line, skip the LF, trim a CR. -/
def read_line_tail (c : Connection) (pos : Int) : Connection × Option (List Nat) :=
  let r := unlocked_get c (pos - (c.inbufpos : Int)).toNat
  let c1 : Connection := { r.1 with inbufpos := r.1.inbufpos + 1 }
  let line := if 0 < r.2.length ∧ r.2.getLast? = some 13 then r.2.dropLast else r.2
  (c1, some line)

/-- conn.c lines 696-728, `conn_read_line`. -/
def conn_read_line (c : Connection) (ev : ReadEvent) : Connection × Option (List Nat) :=
  let pos := octstr_search_char c.inbuf 10 c.inbufpos
  if pos < 0 then
    let c1 := unlocked_read c ev
    let pos1 := octstr_search_char c1.inbuf 10 c1.inbufpos
    if pos1 < 0 then (c1, none) else read_line_tail c1 pos1
  else read_line_tail c pos

/-- conn.c lines 742-764: the body of one `try` of `conn_read_withlen`,
including the `retry` loop that skips negative length prefixes. -/
def read_withlen_core (c : Connection) : Connection × Option (List Nat) :=
  if unlocked_inbuf_len c < 4 then (c, none)
  else
    let length := decode_network_long ((c.inbuf.drop c.inbufpos).take 4)
    if length < 0 then read_withlen_core { c with inbufpos := c.inbufpos + 4 }
    else if unlocked_inbuf_len c - 4 < length then (c, none)
    else
      let c1 : Connection := { c with inbufpos := c.inbufpos + 4 }
      let r := unlocked_get c1 length.toNat
      (r.1, some r.2)
termination_by c.inbuf.length - c.inbufpos
decreasing_by
  simp only [unlocked_inbuf_len, not_lt] at *
  omega

/-- conn.c lines 730-769, `conn_read_withlen`: two tries, with one
`unlocked_read` before the second. -/
def conn_read_withlen (c : Connection) (ev : ReadEvent) : Connection × Option (List Nat) :=
  match read_withlen_core c with
  | (c1, some r) => (c1, some r)
  | (c1, none) => read_withlen_core (unlocked_read c1 ev)

/-- conn.c lines 782-799: the body of one `try` of `conn_read_packet`. -/
def read_packet_core (c : Connection) (startmark endmark : Nat) :
    Connection × Option (List Nat) :=
  let startpos := octstr_search_char c.inbuf startmark c.inbufpos
  if startpos < 0 then ({ c with inbufpos := c.inbuf.length }, none)
  else
    let c1 : Connection := { c with inbufpos := startpos.toNat }
    let endpos := octstr_search_char c1.inbuf endmark c1.inbufpos
    if endpos < 0 then (c1, none)
    else
      let r := unlocked_get c1 (endpos - startpos + 1).toNat
      (r.1, some r.2)

/-- conn.c lines 771-804, `conn_read_packet`. -/
def conn_read_packet (c : Connection) (startmark endmark : Nat) (ev : ReadEvent) :
    Connection × Option (List Nat) :=
  match read_packet_core c startmark endmark with
  | (c1, some r) => (c1, some r)
  | (c1, none) => read_packet_core (unlocked_read c1 ev) startmark endmark

/-- conn.c lines 623-632, `conn_write`. -/
def conn_write (c : Connection) (data : List Nat) (w : WriteOutcome) : Connection × Int :=
  unlocked_try_write { c with outbuf := c.outbuf ++ data } w

/-- conn.c lines 645-657, `conn_write_withlen`. -/
def conn_write_withlen (c : Connection) (data : List Nat) (w : WriteOutcome) :
    Connection × Int :=
  unlocked_try_write
    { c with outbuf := c.outbuf ++ encode_network_long data.length ++ data } w

/-- conn.c lines 371-377, `conn_set_output_buffering`. -/
def conn_set_output_buffering (c : Connection) (size : Nat) (w : WriteOutcome) : Connection :=
  (unlocked_try_write { c with output_buffering := size } w).1

/-- Revents bits reported by `gwthread_pollfd`. -/
structure Revents where
  pollin : Bool
  pollout : Bool
  pollerr : Bool
  pollhup : Bool
  pollnval : Bool
deriving Repr, DecidableEq

/-- Outcome of one `gwthread_pollfd` call. -/
inductive PollResult where
  | perr (intr : Bool)
  | ptimeout
  | pready (r : Revents)
deriving Repr, DecidableEq

/-- conn.c lines 379-410, `poll_callback` (state part; the user callback
is external). -/
def poll_callback (c : Connection) (rv : Revents) (w : WriteOutcome) (ev : ReadEvent) :
    Connection :=
  let c1 := if rv.pollout then (unlocked_write c w).1 else c
  if rv.pollin then unlocked_read c1 ev else c1

/-- The event mask conn_wait builds for the poll call (conn.c lines
510-519): POLLOUT iff unsent bytes remain, POLLIN iff neither eof nor
error is set, or anyway if there is nothing to write.  Returned as
(pollout, pollin). -/
def conn_wait_mask (c : Connection) : Bool × Bool :=
  let pollout := decide (0 < unlocked_outbuf_len c)
  (pollout, (!c.read_eof && !c.read_error) || !pollout)

/-- conn.c lines 480-568, `conn_wait`. -/
def conn_wait (c : Connection) (w1 : WriteOutcome) (pr : PollResult)
    (w2 : WriteOutcome) (ev : ReadEvent) : Connection × Int :=
  let r1 := unlocked_write c w1
  if r1.2 < 0 then (r1.1, -1)
  else if 0 < r1.2 then (r1.1, 0)
  else
    let c1 := r1.1
    match pr with
    | .perr intr => if intr then (c1, 0) else (c1, -1)
    | .ptimeout => (c1, 1)
    | .pready rv =>
        if rv.pollnval then (c1, -1)
        else if rv.pollerr || rv.pollhup then (unlocked_read c1 ev, -1)
        else
          let c2 := if rv.pollout then (unlocked_write c1 w2).1 else c1
          let c3 := if rv.pollin then unlocked_read c2 ev else c2
          (c3, 0)

/-! ### Lock traces

To state the claims about locks never being held across a poll or a sleep,
and wakeups being issued after the mutex is released, each function with
such a claim also has a trace, mirroring the exact order of lock, unlock,
poll, sleep and wakeup calls in the source. -/

inductive LockEv where
  | lockOut | unlockOut | lockIn | unlockIn | lockSet | unlockSet
  | pollCall (pollout pollin : Bool)
  | sleepCall
  | wakeCall
deriving Repr, DecidableEq

def LockEv.isPause : LockEv → Bool
  | .pollCall _ _ => true
  | .sleepCall => true
  | .wakeCall => true
  | _ => false

/-- At every pause point of the trace (a poll, sleep or wakeup call), every
lock acquired so far has been released. -/
def pausesUnlocked (tr : List LockEv) : Bool :=
  (List.range tr.length).all fun k =>
    if (tr.getD k .lockOut).isPause then
      ((tr.take k).count .lockOut == (tr.take k).count .unlockOut)
      && ((tr.take k).count .lockIn == (tr.take k).count .unlockIn)
      && ((tr.take k).count .lockSet == (tr.take k).count .unlockSet)
    else true

/-- Lock/poll trace of conn_wait, following conn.c lines 480-568: the
out lock is taken around the initial write and the POLLOUT mask
computation, the in lock around the POLLIN mask computation, the poll runs
with no lock held, and the revents handling relocks each side. -/
def conn_wait_trace (c : Connection) (w1 : WriteOutcome) (pr : PollResult) :
    List LockEv :=
  let r1 := unlocked_write c w1
  if r1.2 < 0 then [.lockOut, .unlockOut]
  else if 0 < r1.2 then [.lockOut, .unlockOut]
  else
    let m := conn_wait_mask r1.1
    [.lockOut, .unlockOut, .lockIn, .unlockIn, .pollCall m.1 m.2] ++
    match pr with
    | .perr _ => []
    | .ptimeout => []
    | .pready rv =>
        if rv.pollnval then []
        else if rv.pollerr || rv.pollhup then [.lockIn, .unlockIn]
        else
          (if rv.pollout then [.lockOut, .unlockOut] else []) ++
          (if rv.pollin then [.lockIn, .unlockIn] else [])

/-! ### Basic lemmas on the connection operations -/

theorem register_pollout_spec (c : Connection) (b : Bool) :
    unlocked_register_pollout c b = { c with listening_pollout := b } := by
  unfold unlocked_register_pollout
  cases b <;> cases h : c.listening_pollout <;> simp [h] <;> cases c <;> simp_all

theorem register_pollin_spec (c : Connection) (b : Bool) :
    unlocked_register_pollin c b = { c with listening_pollin := b } := by
  unfold unlocked_register_pollin
  cases b <;> cases h : c.listening_pollin <;> simp [h] <;> cases c <;> simp_all

theorem unread_unlocked_read (c : Connection) (ev : ReadEvent) :
    unread (unlocked_read c ev) = unread c ++ readBytes ev := by
  unfold unlocked_read unread readBytes
  rcases ev with intr | _ | bs <;>
    first
    | (cases intr <;> by_cases hr : c.registered <;> by_cases h : 0 < c.inbufpos <;>
        simp [h, hr, register_pollin_spec] <;>
        simp [show c.inbufpos = 0 by omega])
    | (by_cases hr : c.registered <;> by_cases h : 0 < c.inbufpos <;>
        simp [h, hr, register_pollin_spec] <;>
        simp [show c.inbufpos = 0 by omega])

theorem unlocked_read_wf (c : Connection) (ev : ReadEvent)
    (h : c.inbufpos ≤ c.inbuf.length) :
    (unlocked_read c ev).inbufpos ≤ (unlocked_read c ev).inbuf.length := by
  unfold unlocked_read
  rcases ev with intr | _ | bs <;>
    first
    | (cases intr <;> by_cases hr : c.registered <;> by_cases h0 : 0 < c.inbufpos <;>
        simp [h0, hr, register_pollin_spec] <;> omega)
    | (by_cases hr : c.registered <;> by_cases h0 : 0 < c.inbufpos <;>
        simp [h0, hr, register_pollin_spec] <;> omega)

theorem inbuf_len_eq_unread_length (c : Connection) (h : c.inbufpos ≤ c.inbuf.length) :
    unlocked_inbuf_len c = ((unread c).length : Int) := by
  simp [unlocked_inbuf_len, unread]
  omega

theorem unlocked_write_wrote (c : Connection) (n : Nat)
    (hlen : c.outbufpos + n ≤ c.outbuf.length) :
    (unlocked_write c (.wrote n)).2 = (n : Int)
    ∧ (unlocked_write c (.wrote n)).1.outbuf =
        (if c.outbuf.length / 2 < c.outbufpos + n then c.outbuf.drop (c.outbufpos + n)
         else c.outbuf)
    ∧ (unlocked_write c (.wrote n)).1.outbufpos =
        (if c.outbuf.length / 2 < c.outbufpos + n then 0 else c.outbufpos + n)
    ∧ (unlocked_write c (.wrote n)).1.registered = c.registered
    ∧ (unlocked_write c (.wrote n)).1.listening_pollout =
        (if c.registered then decide ((c.outbufpos : Int) + n < c.outbuf.length)
         else c.listening_pollout)
    ∧ unlocked_outbuf_len (unlocked_write c (.wrote n)).1 = unlocked_outbuf_len c - n
    ∧ (unlocked_write c (.wrote n)).1.inbuf = c.inbuf
    ∧ (unlocked_write c (.wrote n)).1.inbufpos = c.inbufpos
    ∧ (unlocked_write c (.wrote n)).1.read_eof = c.read_eof := by
  unfold unlocked_write
  refine ⟨?_, ?_, ?_, ?_, ?_, ?_, ?_, ?_, ?_⟩ <;>
    by_cases hc : c.outbuf.length / 2 < c.outbufpos + n <;>
      by_cases hr : c.registered <;>
        simp [hc, hr, register_pollout_spec, unlocked_outbuf_len, decide_eq_decide] <;>
          omega

/-! ### C6: the non-blocking write path -/

/-- C6: for every Connection, with `pending = len(outbuf) - outbufpos`,
`unlocked_try_write` returns 0 when pending is zero; returns 1 without
writing when `0 < pending < output_buffering`; otherwise performs the
underlying write, advances `outbufpos` by the bytes written, compacts the
buffer (dropping the written prefix and resetting `outbufpos` to 0)
exactly when `outbufpos > len(outbuf)/2`, and, if the connection is
registered, updates POLLOUT interest to `pending > 0` at exit. -/
theorem unlocked_try_write_spec (c : Connection) (w : WriteOutcome)
    (hwf : c.outbufpos ≤ c.outbuf.length)
    (hn : ∀ n, w = .wrote n → (n : Int) ≤ unlocked_outbuf_len c) :
    (unlocked_outbuf_len c = 0 → unlocked_try_write c w = (c, 0))
    ∧ (0 < unlocked_outbuf_len c → unlocked_outbuf_len c < (c.output_buffering : Int) →
        unlocked_try_write c w = (c, 1))
    ∧ (∀ n, w = .wrote n → (c.output_buffering : Int) ≤ unlocked_outbuf_len c →
        0 < unlocked_outbuf_len c →
        ((unlocked_try_write c w).1.outbuf =
          if c.outbuf.length / 2 < c.outbufpos + n then c.outbuf.drop (c.outbufpos + n)
          else c.outbuf)
        ∧ ((unlocked_try_write c w).1.outbufpos =
          if c.outbuf.length / 2 < c.outbufpos + n then 0 else c.outbufpos + n)
        ∧ unlocked_outbuf_len (unlocked_try_write c w).1 = unlocked_outbuf_len c - n
        ∧ (c.registered = true →
            (unlocked_try_write c w).1.listening_pollout =
              decide ((n : Int) < unlocked_outbuf_len c))) := by
  refine ⟨?_, ?_, ?_⟩
  · intro h0
    unfold unlocked_try_write
    simp [h0]
  · intro h1 h2
    unfold unlocked_try_write
    simp [show ¬ unlocked_outbuf_len c = 0 by omega, h2]
  · rintro n rfl hbuf hpos
    have hn' : (n : Int) ≤ unlocked_outbuf_len c := hn n rfl
    have hlen : c.outbufpos + n ≤ c.outbuf.length := by
      simp [unlocked_outbuf_len] at hn'; omega
    have hw := unlocked_write_wrote c n hlen
    unfold unlocked_try_write
    simp only [show ¬ unlocked_outbuf_len c = 0 by omega, if_false,
      show ¬ unlocked_outbuf_len c < (c.output_buffering : Int) by omega, if_false]
    have hret : ¬ (unlocked_write c (.wrote n)).2 < 0 := by rw [hw.1]; omega
    simp only [hret, if_false]
    have houtlen : unlocked_outbuf_len (unlocked_write c (.wrote n)).1 =
        unlocked_outbuf_len c - n := hw.2.2.2.2.2.1
    refine ?_
    have hgoal :
        ((unlocked_write c (.wrote n)).1.outbuf =
          if c.outbuf.length / 2 < c.outbufpos + n then c.outbuf.drop (c.outbufpos + n)
          else c.outbuf)
        ∧ ((unlocked_write c (.wrote n)).1.outbufpos =
          if c.outbuf.length / 2 < c.outbufpos + n then 0 else c.outbufpos + n)
        ∧ unlocked_outbuf_len (unlocked_write c (.wrote n)).1 = unlocked_outbuf_len c - n
        ∧ (c.registered = true →
            (unlocked_write c (.wrote n)).1.listening_pollout =
              decide ((n : Int) < unlocked_outbuf_len c)) := by
      refine ⟨hw.2.1, hw.2.2.1, houtlen, ?_⟩
      intro hr
      rw [hw.2.2.2.2.1, hr, if_pos rfl]
      have : ((c.outbufpos : Int) + n < c.outbuf.length) ↔
          ((n : Int) < unlocked_outbuf_len c) := by
        simp [unlocked_outbuf_len]; omega
      simp [this]
    by_cases hrem : 0 < unlocked_outbuf_len (unlocked_write c (.wrote n)).1 <;>
      simpa [hrem] using hgoal


/-- Witness for C6 at a concrete connection: 5 pending bytes, 3 written,
compaction triggered (3 > 5/2), POLLOUT interest kept on. -/
theorem unlocked_try_write_spec_witness :
    (unlocked_try_write
      ⟨[1, 2, 3, 4, 5], 0, 0, [], 0, false, false, true, false, false⟩
      (.wrote 3)).1.outbuf = [4, 5]
    ∧ (unlocked_try_write
      ⟨[1, 2, 3, 4, 5], 0, 0, [], 0, false, false, true, false, false⟩
      (.wrote 3)).1.listening_pollout = true := by
  have h := unlocked_try_write_spec
    ⟨[1, 2, 3, 4, 5], 0, 0, [], 0, false, false, true, false, false⟩
    (.wrote 3) (by decide) (by rintro n hn; cases hn; decide)
  have h3 := h.2.2 3 rfl (by decide) (by decide)
  exact ⟨by simpa using h3.1, by simpa using h3.2.2.2 rfl⟩

/-! ### C10: a failed fixed-length read consumes nothing -/

/-- C10: when `conn_read_fixed(conn, n)` returns null because fewer than
`n` bytes are available after its single read attempt, no input is
consumed: the unread contents of the input buffer are exactly the
previously unread bytes plus anything the read attempt appended, and a
later call with the same `n` (here: after one more read attempt that
completes the data) still returns those bytes. -/
theorem conn_read_fixed_spec (c : Connection) (n : Int) (ev : ReadEvent)
    (hwf : c.inbufpos ≤ c.inbuf.length)
    (hnone : (conn_read_fixed c n ev).2 = none) :
    unread (conn_read_fixed c n ev).1 = unread c ++ readBytes ev
    ∧ ∀ ev2, n ≤ (((unread c ++ readBytes ev) ++ readBytes ev2).length : Int) →
        (conn_read_fixed (conn_read_fixed c n ev).1 n ev2).2 =
          some (((unread c ++ readBytes ev) ++ readBytes ev2).take n.toNat) := by
  by_cases h1 : unlocked_inbuf_len c < n
  · by_cases h2 : unlocked_inbuf_len (unlocked_read c ev) < n
    · have hres : conn_read_fixed c n ev = (unlocked_read c ev, none) := by
        unfold conn_read_fixed
        simp [h1, h2]
      rw [hres]
      refine ⟨unread_unlocked_read c ev, ?_⟩
      intro ev2 hlen2
      have hwf1 : (unlocked_read c ev).inbufpos ≤ (unlocked_read c ev).inbuf.length :=
        unlocked_read_wf c ev hwf
      have hu1 : unread (unlocked_read c ev) = unread c ++ readBytes ev :=
        unread_unlocked_read c ev
      have hu2 : unread (unlocked_read (unlocked_read c ev) ev2) =
          (unread c ++ readBytes ev) ++ readBytes ev2 := by
        rw [unread_unlocked_read, hu1]
      have hwf2 : (unlocked_read (unlocked_read c ev) ev2).inbufpos ≤
          (unlocked_read (unlocked_read c ev) ev2).inbuf.length :=
        unlocked_read_wf _ ev2 hwf1
      have hlen2' : ¬ unlocked_inbuf_len (unlocked_read (unlocked_read c ev) ev2) < n := by
        rw [inbuf_len_eq_unread_length _ hwf2, hu2]
        omega
      unfold conn_read_fixed
      simp only [h2, if_true, hlen2', if_false]
      simp only [unlocked_get, unread] at hu2 ⊢
      simp [hu2]
    · exfalso
      unfold conn_read_fixed at hnone
      simp [h1, h2] at hnone
  · exfalso
    unfold conn_read_fixed at hnone
    simp [h1] at hnone

/-- Witness for C10: two unread bytes plus one appended by the failing
read attempt; a later call that receives three more bytes returns the
preserved prefix. -/
theorem conn_read_fixed_spec_witness :
    unread (conn_read_fixed
        ⟨[], 0, 0, [1, 2], 0, false, false, false, false, false⟩ 5 (.rdata [3])).1
      = [1, 2, 3]
    ∧ (conn_read_fixed
        (conn_read_fixed
          ⟨[], 0, 0, [1, 2], 0, false, false, false, false, false⟩ 5 (.rdata [3])).1
        5 (.rdata [4, 5, 6])).2 = some [1, 2, 3, 4, 5] := by
  have h := conn_read_fixed_spec
    ⟨[], 0, 0, [1, 2], 0, false, false, false, false, false⟩ 5 (.rdata [3])
    (by decide) (by decide)
  refine ⟨by simpa using h.1, ?_⟩
  have h2 := h.2 (.rdata [4, 5, 6]) (by decide)
  simpa using h2

/-! ### C7: length-prefixed frames -/

/-- Modelled from the spec: the value read off a length-prefixed stream.
Skip any leading frames whose decoded 32-bit length is negative; then, if
a complete frame with a non-negative length prefix is present, return its
payload, else nothing.  This is the specification-side view that
`conn_read_withlen` is proved to refine. -/
def specExtract : List Nat → Option (List Nat)
  | b0 :: b1 :: b2 :: b3 :: rest =>
      let len := decode_network_long [b0, b1, b2, b3]
      if len < 0 then specExtract rest
      else if (rest.length : Int) < len then none
      else some (rest.take len.toNat)
  | _ => none

/-- Leading negative-length frames of a stream, dropped. -/
def dropNeg : List Nat → List Nat
  | b0 :: b1 :: b2 :: b3 :: rest =>
      if decode_network_long [b0, b1, b2, b3] < 0 then dropNeg rest
      else b0 :: b1 :: b2 :: b3 :: rest
  | bs => bs

theorem specExtract_short (bs : List Nat) (h : bs.length < 4) : specExtract bs = none := by
  match bs with
  | [] => rfl
  | [_] => rfl
  | [_, _] => rfl
  | [_, _, _] => rfl
  | _ :: _ :: _ :: _ :: _ => simp at h; omega

theorem dropNeg_short (bs : List Nat) (h : bs.length < 4) : dropNeg bs = bs := by
  match bs with
  | [] => rfl
  | [_] => rfl
  | [_, _] => rfl
  | [_, _, _] => rfl
  | _ :: _ :: _ :: _ :: _ => simp at h; omega

theorem specExtract_dropNeg_append (u v : List Nat) :
    specExtract (dropNeg u ++ v) = specExtract (u ++ v) := by
  generalize hn : u.length = n
  induction n using Nat.strong_induction_on generalizing u with
  | _ n ih =>
    match u with
    | [] => rfl
    | [_] => rfl
    | [_, _] => rfl
    | [_, _, _] => rfl
    | b0 :: b1 :: b2 :: b3 :: rest =>
        by_cases hneg : decode_network_long [b0, b1, b2, b3] < 0
        · have hr := ih rest.length (by simp at hn; omega) rest rfl
          simp only [dropNeg, hneg, if_true]
          rw [hr]
          simp [specExtract, hneg]
        · simp [dropNeg, hneg]

theorem read_withlen_core_spec : ∀ (k : Nat) (c : Connection),
    c.inbuf.length - c.inbufpos ≤ k → c.inbufpos ≤ c.inbuf.length →
    (read_withlen_core c).2 = specExtract (unread c)
    ∧ ((read_withlen_core c).2 = none →
        unread (read_withlen_core c).1 = dropNeg (unread c)
        ∧ (read_withlen_core c).1.inbufpos ≤ (read_withlen_core c).1.inbuf.length) := by
  intro k
  induction k with
  | zero =>
    intro c hk hwf
    have hlen : unlocked_inbuf_len c < 4 := by
      simp [unlocked_inbuf_len]; omega
    have hsh : (unread c).length < 4 := by
      simp [unread]; omega
    rw [read_withlen_core]
    simp only [hlen, if_true]
    exact ⟨(specExtract_short _ hsh).symm, fun _ => ⟨(dropNeg_short _ hsh).symm, hwf⟩⟩
  | succ k ih =>
    intro c hk hwf
    have hur : (unread c).length = c.inbuf.length - c.inbufpos := by simp [unread]
    by_cases hlen : unlocked_inbuf_len c < 4
    · have hsh : (unread c).length < 4 := by
        simp [unlocked_inbuf_len] at hlen; omega
      rw [read_withlen_core]
      simp only [hlen, if_true]
      exact ⟨(specExtract_short _ hsh).symm, fun _ => ⟨(dropNeg_short _ hsh).symm, hwf⟩⟩
    · have hge : 4 ≤ (unread c).length := by
        simp [unlocked_inbuf_len] at hlen; omega
      obtain ⟨b0, b1, b2, b3, rest, h4⟩ :
          ∃ b0 b1 b2 b3 rest, unread c = b0 :: b1 :: b2 :: b3 :: rest := by
        match hu : unread c with
        | [] => rw [hu] at hge; simp at hge
        | [_] => rw [hu] at hge; simp at hge
        | [_, _] => rw [hu] at hge; simp at hge
        | [_, _, _] => rw [hu] at hge; simp at hge
        | x0 :: x1 :: x2 :: x3 :: xr => exact ⟨x0, x1, x2, x3, xr, rfl⟩
      have htake : (c.inbuf.drop c.inbufpos).take 4 = [b0, b1, b2, b3] := by
        have : unread c = b0 :: b1 :: b2 :: b3 :: rest := h4
        simp [unread] at this
        rw [this]
        rfl
      by_cases hneg : decode_network_long ((c.inbuf.drop c.inbufpos).take 4) < 0
      · -- negative prefix: skip four bytes and retry
        have hrec := ih { c with inbufpos := c.inbufpos + 4 }
          (by show c.inbuf.length - (c.inbufpos + 4) ≤ k; omega)
          (by show c.inbufpos + 4 ≤ c.inbuf.length; omega)
        have hun' : unread { c with inbufpos := c.inbufpos + 4 } = rest := by
          have hstep : unread { c with inbufpos := c.inbufpos + 4 } = (unread c).drop 4 := by
            show c.inbuf.drop (c.inbufpos + 4) = (c.inbuf.drop c.inbufpos).drop 4
            rw [List.drop_drop]
          rw [hstep, h4]
          rfl
        rw [read_withlen_core]
        simp only [hlen, if_false, hneg, if_true]
        rw [hun'] at hrec
        have hspec : specExtract (unread c) = specExtract rest := by
          rw [h4]
          rw [htake] at hneg
          simp [specExtract, hneg]
        have hdrop : dropNeg (unread c) = dropNeg rest := by
          rw [h4]
          rw [htake] at hneg
          simp [dropNeg, hneg]
        rw [hspec, hdrop]
        exact hrec
      · rw [htake] at hneg
        have hrl : (rest.length : Int) = unlocked_inbuf_len c - 4 := by
          have hlr : (unread c).length = rest.length + 4 := by rw [h4]; simp
          simp only [unlocked_inbuf_len]
          omega
        by_cases hinc : unlocked_inbuf_len c - 4 < decode_network_long ((c.inbuf.drop c.inbufpos).take 4)
        · -- incomplete frame
          rw [read_withlen_core]
          rw [htake] at hinc ⊢
          have hincR : (rest.length : Int) < decode_network_long [b0, b1, b2, b3] := by
            rw [hrl]
            exact hinc
          simp only [hlen, if_false, hneg, if_false, hinc, if_true]
          constructor
          · rw [h4]
            simp [specExtract, hneg, hincR]
          · intro _
            refine ⟨?_, hwf⟩
            simp [h4, dropNeg, hneg]
        · -- complete frame: extract it
          rw [read_withlen_core]
          rw [htake] at hinc ⊢
          have hincR : ¬ (rest.length : Int) < decode_network_long [b0, b1, b2, b3] := by
            rw [hrl]
            exact hinc
          simp only [hlen, if_false, hneg, if_false, hinc, if_true]
          have hres : ((unlocked_get
              { c with inbufpos := c.inbufpos + 4 }
              (decode_network_long [b0, b1, b2, b3]).toNat).2 : List Nat) =
              rest.take (decode_network_long [b0, b1, b2, b3]).toNat := by
            simp only [unlocked_get]
            have hrest : (c.inbuf.drop (c.inbufpos + 4)) = rest := by
              have hd : c.inbuf.drop (c.inbufpos + 4) = (unread c).drop 4 := by
                show c.inbuf.drop (c.inbufpos + 4) = (c.inbuf.drop c.inbufpos).drop 4
                rw [List.drop_drop]
              rw [hd, h4]
              rfl
            rw [hrest]
          constructor
          · rw [hres, h4]
            simp only [specExtract, hneg, if_false]
            rw [if_neg hincR]
          · intro hcon
            simp [unlocked_get] at hcon

/-- C7: `conn_read_withlen` refines the specification-side frame reader:
it returns the payload of the first complete frame after skipping
negative-length prefixes, consulting the extra read attempt's bytes only
when the buffered data does not already contain a frame (so a negative
prefix followed by a complete valid frame yields that frame in the same
invocation, and at most one extra read attempt is made). -/
theorem conn_read_withlen_spec (c : Connection) (ev : ReadEvent)
    (hwf : c.inbufpos ≤ c.inbuf.length) :
    (conn_read_withlen c ev).2 =
      match specExtract (unread c) with
      | some p => some p
      | none => specExtract (unread c ++ readBytes ev) := by
  have h1 := read_withlen_core_spec (c.inbuf.length - c.inbufpos) c le_rfl hwf
  unfold conn_read_withlen
  cases hres : (read_withlen_core c).2 with
  | some p =>
    rw [hres] at h1
    have hpair : read_withlen_core c = ((read_withlen_core c).1, some p) := by
      rw [← hres]
    rw [hpair, ← h1.1]
  | none =>
    rw [hres] at h1
    obtain ⟨hu1, hwf1⟩ := h1.2 rfl
    have hpair : read_withlen_core c = ((read_withlen_core c).1, none) := by
      rw [← hres]
    rw [hpair, ← h1.1]
    show (read_withlen_core (unlocked_read (read_withlen_core c).1 ev)).2 =
      specExtract (unread c ++ readBytes ev)
    have h2 := read_withlen_core_spec
      ((unlocked_read (read_withlen_core c).1 ev).inbuf.length -
        (unlocked_read (read_withlen_core c).1 ev).inbufpos)
      (unlocked_read (read_withlen_core c).1 ev) le_rfl
      (unlocked_read_wf (read_withlen_core c).1 ev hwf1)
    rw [h2.1, unread_unlocked_read, hu1, specExtract_dropNeg_append]

/-- Witness for C7: the spec scenario.  The peer wrote 0xFFFFFFFF
(negative), then 0x00000002, then "ok"; the call skips 4 bytes and
returns "ok" (bytes 111, 107) in the same invocation, with no read
needed. -/
theorem conn_read_withlen_spec_witness :
    (conn_read_withlen
      ⟨[], 0, 0, [255, 255, 255, 255, 0, 0, 0, 2, 111, 107], 0,
        false, false, false, false, false⟩ (.rerror true)).2 = some [111, 107] := by
  have h := conn_read_withlen_spec
    ⟨[], 0, 0, [255, 255, 255, 255, 0, 0, 0, 2, 111, 107], 0,
      false, false, false, false, false⟩ (.rerror true) (by decide)
  rw [h]
  decide

/-- Traces of the shape lock-unlock-lock-unlock-poll followed by a
pause-free tail never pause while holding a lock. -/
theorem pausesUnlocked_wait_shape (b1 b2 : Bool) (tl : List LockEv)
    (htl : tl.all (fun e => !e.isPause) = true) :
    pausesUnlocked
      ([.lockOut, .unlockOut, .lockIn, .unlockIn, .pollCall b1 b2] ++ tl) = true := by
  simp only [pausesUnlocked, List.all_eq_true, List.mem_range]
  intro k hk
  match k with
  | 0 => rfl
  | 1 => rfl
  | 2 => rfl
  | 3 => rfl
  | 4 => rfl
  | n + 5 =>
    have hget : ([LockEv.lockOut, .unlockOut, .lockIn, .unlockIn,
        .pollCall b1 b2] ++ tl).getD (n + 5) .lockOut = tl.getD n .lockOut := rfl
    rw [hget]
    by_cases hn : n < tl.length
    · have hmem : tl.getD n .lockOut ∈ tl := by
        rw [List.getD_eq_getElem _ _ hn]
        exact List.getElem_mem hn
      rw [List.all_eq_true] at htl
      have hp := htl _ hmem
      simp only [Bool.not_eq_true'] at hp
      have hp' : ¬ ((tl.getD n LockEv.lockOut).isPause = true) := by rw [hp]; simp
      rw [if_neg hp']
    · rw [List.getD_eq_default _ _ (by omega)]
      rfl

/-! ### C8: the conn_wait state machine -/

/-- C8: `conn_wait` first attempts a non-blocking write under outlock and
returns 0 without polling if it made progress; otherwise it polls with a
mask containing POLLOUT iff unsent bytes remain and POLLIN iff neither
eof nor error is set (POLLIN is included anyway when there is nothing to
write); it returns 1 on timeout, 0 on EINTR, -1 on POLLNVAL, and -1
after performing a read (recording `read_error`) on POLLERR or POLLHUP;
otherwise it applies the POLLOUT write and POLLIN read handling (the same
as the callback path, `poll_callback`) and returns 0.  No lock is held
across the poll call (last conjunct, over the lock trace). -/
theorem conn_wait_spec (c : Connection) (w1 : WriteOutcome) (pr : PollResult)
    (w2 : WriteOutcome) (ev : ReadEvent) :
    (0 < (unlocked_write c w1).2 →
      conn_wait c w1 pr w2 ev = ((unlocked_write c w1).1, 0)
      ∧ (conn_wait_trace c w1 pr).all (fun e => !e.isPause) = true)
    ∧ ((unlocked_write c w1).2 = 0 →
        ((conn_wait_trace c w1 pr).contains
            (.pollCall (decide (0 < unlocked_outbuf_len (unlocked_write c w1).1))
              ((!(unlocked_write c w1).1.read_eof && !(unlocked_write c w1).1.read_error)
                || !(decide (0 < unlocked_outbuf_len (unlocked_write c w1).1)))) = true)
        ∧ (pr = .ptimeout → conn_wait c w1 pr w2 ev = ((unlocked_write c w1).1, 1))
        ∧ (∀ b, pr = .perr b →
            conn_wait c w1 pr w2 ev = ((unlocked_write c w1).1, if b then 0 else -1))
        ∧ (∀ rv, pr = .pready rv → rv.pollnval = true →
            conn_wait c w1 pr w2 ev = ((unlocked_write c w1).1, -1))
        ∧ (∀ rv, pr = .pready rv → rv.pollnval = false → (rv.pollerr || rv.pollhup) = true →
            conn_wait c w1 pr w2 ev = (unlocked_read (unlocked_write c w1).1 ev, -1))
        ∧ (∀ rv, pr = .pready rv → rv.pollnval = false → rv.pollerr = false →
            rv.pollhup = false →
            conn_wait c w1 pr w2 ev = (poll_callback (unlocked_write c w1).1 rv w2 ev, 0)))
    ∧ pausesUnlocked (conn_wait_trace c w1 pr) = true := by
  refine ⟨?_, ?_, ?_⟩
  · intro hpos
    have hneg : ¬ (unlocked_write c w1).2 < 0 := by omega
    constructor
    · unfold conn_wait
      simp [hneg, hpos]
    · unfold conn_wait_trace
      simp only [hneg, if_false, hpos, if_true]
      decide
  · intro hzero
    have hneg : ¬ (unlocked_write c w1).2 < 0 := by omega
    have hnpos : ¬ 0 < (unlocked_write c w1).2 := by omega
    refine ⟨?_, ?_, ?_, ?_, ?_, ?_⟩
    · unfold conn_wait_trace
      simp only [hneg, if_false, hnpos, if_true]
      simp [conn_wait_mask]
    · rintro rfl
      unfold conn_wait
      simp [hneg, hnpos]
    · rintro b rfl
      unfold conn_wait
      cases b <;> simp [hneg, hnpos]
    · rintro rv rfl hnval
      unfold conn_wait
      simp [hneg, hnpos, hnval]
    · rintro rv rfl hnval herr
      unfold conn_wait
      simp [hneg, hnpos, hnval, herr]
    · rintro rv rfl hnval herr hhup
      unfold conn_wait poll_callback
      simp [hneg, hnpos, hnval, herr, hhup]
  · unfold conn_wait_trace
    by_cases hneg : (unlocked_write c w1).2 < 0
    · simp only [hneg, if_true]
      decide
    · by_cases hpos : 0 < (unlocked_write c w1).2
      · simp only [hneg, if_false, hpos, if_true]
        decide
      · simp only [hneg, if_false, hpos, if_false]
        apply pausesUnlocked_wait_shape
        rcases pr with b | _ | rv
        · rfl
        · rfl
        · by_cases hnval : rv.pollnval
          · simp [hnval]
          · by_cases herr : rv.pollerr || rv.pollhup
            · simp [hnval, herr, LockEv.isPause]
            · cases hpo : rv.pollout <;> cases hpi : rv.pollin <;>
                simp [hnval, herr, hpo, hpi, LockEv.isPause]

/-- Witness for C8: an empty-buffer connection, a write of 0 bytes (no
progress), a poll reporting POLLIN; the wait returns 0 and the lock trace
never pauses while holding a lock. -/
theorem conn_wait_spec_witness :
    (conn_wait ⟨[], 0, 0, [], 0, false, false, false, false, false⟩
      (.wrote 0) (.pready ⟨true, false, false, false, false⟩) (.wrote 0)
      (.rdata [7])).2 = 0
    ∧ pausesUnlocked (conn_wait_trace
        ⟨[], 0, 0, [], 0, false, false, false, false, false⟩
        (.wrote 0) (.pready ⟨true, false, false, false, false⟩)) = true := by
  have h := conn_wait_spec ⟨[], 0, 0, [], 0, false, false, false, false, false⟩
    (.wrote 0) (.pready ⟨true, false, false, false, false⟩) (.wrote 0) (.rdata [7])
  refine ⟨?_, h.2.2⟩
  have h6 := (h.2.1 (by decide)).2.2.2.2.2
    ⟨true, false, false, false, false⟩ rfl (by decide) (by decide) (by decide)
  rw [h6]

/-! ### C9: after eof, nothing is ever appended to the input buffer

The fd is modelled by the sequence of read outcomes the kernel delivers;
`FdSticky` is the socket guarantee that once a read returned 0 (eof), no
later read delivers data.  An operation trace applies the public
operations of conn.c in order. -/

inductive ConnOp where
  | opWrite (data : List Nat) (w : WriteOutcome)
  | opWriteWithlen (data : List Nat) (w : WriteOutcome)
  | opSetBuffering (size : Nat) (w : WriteOutcome)
  | opReadEverything (ev : ReadEvent)
  | opReadFixed (length : Int) (ev : ReadEvent)
  | opReadLine (ev : ReadEvent)
  | opReadWithlen (ev : ReadEvent)
  | opReadPacket (startmark endmark : Nat) (ev : ReadEvent)
  | opWait (w1 : WriteOutcome) (pr : PollResult) (w2 : WriteOutcome) (ev : ReadEvent)
  | opCallback (rv : Revents) (w : WriteOutcome) (ev : ReadEvent)

def connStep (c : Connection) : ConnOp → Connection
  | .opWrite data w => (conn_write c data w).1
  | .opWriteWithlen data w => (conn_write_withlen c data w).1
  | .opSetBuffering size w => conn_set_output_buffering c size w
  | .opReadEverything ev => (conn_read_everything c ev).1
  | .opReadFixed length ev => (conn_read_fixed c length ev).1
  | .opReadLine ev => (conn_read_line c ev).1
  | .opReadWithlen ev => (conn_read_withlen c ev).1
  | .opReadPacket sm em ev => (conn_read_packet c sm em ev).1
  | .opWait w1 pr w2 ev => (conn_wait c w1 pr w2 ev).1
  | .opCallback rv w ev => poll_callback c rv w ev

/-- The read outcomes an operation consumes from the fd. -/
def opEvents : ConnOp → List ReadEvent
  | .opReadEverything ev => [ev]
  | .opReadFixed _ ev => [ev]
  | .opReadLine ev => [ev]
  | .opReadWithlen ev => [ev]
  | .opReadPacket _ _ ev => [ev]
  | .opWait _ _ _ ev => [ev]
  | .opCallback _ _ ev => [ev]
  | _ => []

def opsEvents : List ConnOp → List ReadEvent
  | [] => []
  | op :: ops => opEvents op ++ opsEvents ops

def connRun (c : Connection) (ops : List ConnOp) : Connection := ops.foldl connStep c

/-- Socket guarantee: after a read returned eof, no later read returns data. -/
def FdSticky (evs : List ReadEvent) : Prop :=
  ∀ l r, evs = l ++ r → ReadEvent.reof ∈ l → ∀ e ∈ r, ∀ bs, e ≠ .rdata bs

/-- The unread input of `c'` is a drop of the unread input of `c`: nothing
was appended, some prefix may have been consumed. -/
def shrinks (c c' : Connection) : Prop := ∃ k, unread c' = (unread c).drop k

theorem shrinks_refl (c : Connection) : shrinks c c := ⟨0, rfl⟩

theorem shrinks_trans {a b c : Connection} (h1 : shrinks a b) (h2 : shrinks b c) :
    shrinks a c := by
  obtain ⟨k1, hk1⟩ := h1
  obtain ⟨k2, hk2⟩ := h2
  exact ⟨k1 + k2, by rw [hk2, hk1, List.drop_drop]⟩

theorem shrinks_of_inbuf_eq {c c' : Connection} (hb : c'.inbuf = c.inbuf)
    (hp : c.inbufpos ≤ c'.inbufpos ∨ c.inbuf.length ≤ c'.inbufpos) :
    shrinks c c' := by
  rcases hp with hp | hp
  · refine ⟨c'.inbufpos - c.inbufpos, ?_⟩
    show c'.inbuf.drop c'.inbufpos = (c.inbuf.drop c.inbufpos).drop _
    rw [hb, List.drop_drop]
    congr 1
    omega
  · refine ⟨(unread c).length, ?_⟩
    rw [List.drop_length]
    show c'.inbuf.drop c'.inbufpos = []
    rw [hb]
    exact List.drop_of_length_le hp

theorem shrinks_get (c : Connection) (n : Nat) : shrinks c (unlocked_get c n).1 :=
  shrinks_of_inbuf_eq rfl (Or.inl (by show c.inbufpos ≤ c.inbufpos + n; omega))

/-- A read event that carries no data. -/
def nodata (ev : ReadEvent) : Prop := ∀ bs, ev ≠ .rdata bs

theorem shrinks_read_nodata (c : Connection) (ev : ReadEvent) (h : nodata ev) :
    shrinks c (unlocked_read c ev) := by
  refine ⟨0, ?_⟩
  rw [List.drop_zero, unread_unlocked_read]
  have : readBytes ev = [] := by
    cases ev with
    | rdata bs => exact absurd rfl (h bs)
    | rerror intr => rfl
    | reof => rfl
  rw [this, List.append_nil]

theorem unlocked_write_inbuf (c : Connection) (w : WriteOutcome) :
    (unlocked_write c w).1.inbuf = c.inbuf
    ∧ (unlocked_write c w).1.inbufpos = c.inbufpos
    ∧ (unlocked_write c w).1.read_eof = c.read_eof := by
  cases w with
  | werror => exact ⟨rfl, rfl, rfl⟩
  | wrote n =>
    unfold unlocked_write
    by_cases hc : c.outbuf.length / 2 < c.outbufpos + n <;>
      by_cases hr : c.registered <;>
        simp [hc, hr, register_pollout_spec]

theorem unlocked_try_write_inbuf (c : Connection) (w : WriteOutcome) :
    (unlocked_try_write c w).1.inbuf = c.inbuf
    ∧ (unlocked_try_write c w).1.inbufpos = c.inbufpos
    ∧ (unlocked_try_write c w).1.read_eof = c.read_eof := by
  unfold unlocked_try_write
  by_cases h0 : unlocked_outbuf_len c = 0
  · simp [h0]
  · by_cases h1 : unlocked_outbuf_len c < (c.output_buffering : Int)
    · simp [h0, h1]
    · have hw := unlocked_write_inbuf c w
      by_cases h2 : (unlocked_write c w).2 < 0 <;>
        by_cases h3 : 0 < unlocked_outbuf_len (unlocked_write c w).1 <;>
          simp [h0, h1, h2, h3, hw.1, hw.2.1, hw.2.2]

theorem unlocked_read_eof (c : Connection) (ev : ReadEvent) :
    (unlocked_read c ev).read_eof = (c.read_eof || decide (ev = .reof)) := by
  unfold unlocked_read
  rcases ev with intr | _ | bs <;>
    first
    | (cases intr <;> by_cases hr : c.registered <;> by_cases h0 : 0 < c.inbufpos <;>
        simp [h0, hr, register_pollin_spec])
    | (by_cases hr : c.registered <;> by_cases h0 : 0 < c.inbufpos <;>
        simp [h0, hr, register_pollin_spec])

theorem read_withlen_core_state : ∀ (k : Nat) (c : Connection),
    c.inbuf.length - c.inbufpos ≤ k →
    (read_withlen_core c).1.read_eof = c.read_eof
    ∧ (read_withlen_core c).1.inbuf = c.inbuf
    ∧ c.inbufpos ≤ (read_withlen_core c).1.inbufpos := by
  intro k
  induction k with
  | zero =>
    intro c hk
    have h4 : unlocked_inbuf_len c < 4 := by simp [unlocked_inbuf_len]; omega
    rw [read_withlen_core]
    simp [h4]
  | succ k ih =>
    intro c hk
    by_cases h4 : unlocked_inbuf_len c < 4
    · rw [read_withlen_core]
      simp [h4]
    · have h4' : c.inbufpos + 4 ≤ c.inbuf.length := by
        simp [unlocked_inbuf_len] at h4
        omega
      by_cases hneg : decode_network_long ((c.inbuf.drop c.inbufpos).take 4) < 0
      · have hrec := ih { c with inbufpos := c.inbufpos + 4 }
          (by show c.inbuf.length - (c.inbufpos + 4) ≤ k; omega)
        rw [read_withlen_core]
        simp only [h4, if_false, hneg, if_true]
        have hle : c.inbufpos ≤ c.inbufpos + 4 := by omega
        exact ⟨hrec.1, hrec.2.1, le_trans hle hrec.2.2⟩
      · by_cases hinc :
          unlocked_inbuf_len c - 4 < decode_network_long ((c.inbuf.drop c.inbufpos).take 4)
        · rw [read_withlen_core]
          simp [h4, hneg, hinc]
        · rw [read_withlen_core]
          simp only [h4, if_false, hneg, if_false, hinc, if_true]
          refine ⟨rfl, rfl, ?_⟩
          show c.inbufpos ≤ c.inbufpos + 4 + _
          omega

theorem read_line_tail_state (c : Connection) (p : Int) :
    (read_line_tail c p).1.inbuf = c.inbuf
    ∧ c.inbufpos ≤ (read_line_tail c p).1.inbufpos
    ∧ (read_line_tail c p).1.read_eof = c.read_eof := by
  refine ⟨rfl, ?_, rfl⟩
  show c.inbufpos ≤ c.inbufpos + _ + 1
  omega

theorem octstr_search_char_ge (buf : List Nat) (ch pos : Nat)
    (h : ¬ octstr_search_char buf ch pos < 0) :
    pos ≤ (octstr_search_char buf ch pos).toNat := by
  unfold octstr_search_char at *
  cases hf : (buf.drop pos).findIdx? (fun b => b == ch) with
  | none => rw [hf] at h; norm_num at h
  | some i => simp only []; omega

theorem read_packet_core_state (c : Connection) (sm em : Nat) :
    (read_packet_core c sm em).1.inbuf = c.inbuf
    ∧ (read_packet_core c sm em).1.read_eof = c.read_eof
    ∧ shrinks c (read_packet_core c sm em).1 := by
  unfold read_packet_core
  dsimp only
  split
  · exact ⟨rfl, rfl, shrinks_of_inbuf_eq rfl (Or.inr le_rfl)⟩
  · next hs =>
    have hspos : c.inbufpos ≤ (octstr_search_char c.inbuf sm c.inbufpos).toNat :=
      octstr_search_char_ge _ _ _ hs
    split
    · refine ⟨rfl, rfl, shrinks_of_inbuf_eq rfl (Or.inl ?_)⟩
      exact hspos
    · refine ⟨rfl, rfl, ?_⟩
      have hg := shrinks_get
        { c with inbufpos := (octstr_search_char c.inbuf sm c.inbufpos).toNat }
        (octstr_search_char c.inbuf em (octstr_search_char c.inbuf sm c.inbufpos).toNat -
          octstr_search_char c.inbuf sm c.inbufpos + 1).toNat
      have hsh : shrinks c
          ({ c with inbufpos := (octstr_search_char c.inbuf sm c.inbufpos).toNat } :
            Connection) :=
        shrinks_of_inbuf_eq rfl (Or.inl hspos)
      exact shrinks_trans hsh hg

theorem origin_of_cases {c : Connection} {ev : ReadEvent} {b : Bool}
    (hb : b = c.read_eof ∨ b = (c.read_eof || decide (ev = .reof)))
    (h : b = true) : c.read_eof = true ∨ ReadEvent.reof ∈ [ev] := by
  rcases hb with hb | hb
  · left; rw [← hb]; exact h
  · rw [hb] at h
    simp only [Bool.or_eq_true, decide_eq_true_eq] at h
    rcases h with h | h
    · exact Or.inl h
    · right; simp [h]

/-- Each public operation: its eof flag can only come from the previous
state or from an eof event it consumed, and when its events carry no data
the unread input only loses a prefix. -/
theorem connStep_props (c : Connection) (op : ConnOp) :
    ((connStep c op).read_eof = true → c.read_eof = true ∨ .reof ∈ opEvents op)
    ∧ ((∀ e ∈ opEvents op, ∀ bs, e ≠ .rdata bs) → shrinks c (connStep c op)) := by
  rcases op with ⟨data, w⟩ | ⟨data, w⟩ | ⟨size, w⟩ | ev | ⟨n, ev⟩ | ev | ev |
    ⟨sm, em, ev⟩ | ⟨w1, pr, w2, ev⟩ | ⟨rv, w, ev⟩
  · -- conn_write
    have h := unlocked_try_write_inbuf { c with outbuf := c.outbuf ++ data } w
    exact ⟨fun he => Or.inl (by rw [← h.2.2]; exact he),
      fun _ => shrinks_of_inbuf_eq h.1 (Or.inl (le_of_eq h.2.1.symm))⟩
  · -- conn_write_withlen
    have h := unlocked_try_write_inbuf
      { c with outbuf := c.outbuf ++ encode_network_long data.length ++ data } w
    exact ⟨fun he => Or.inl (by rw [← h.2.2]; exact he),
      fun _ => shrinks_of_inbuf_eq h.1 (Or.inl (le_of_eq h.2.1.symm))⟩
  · -- conn_set_output_buffering
    have h := unlocked_try_write_inbuf { c with output_buffering := size } w
    exact ⟨fun he => Or.inl (by rw [← h.2.2]; exact he),
      fun _ => shrinks_of_inbuf_eq h.1 (Or.inl (le_of_eq h.2.1.symm))⟩
  · -- conn_read_everything
    simp only [connStep]
    unfold conn_read_everything
    by_cases h1 : unlocked_inbuf_len c = 0
    · by_cases h2 : unlocked_inbuf_len (unlocked_read c ev) = 0 <;>
        simp only [h1, if_true, h2, if_false]
      · refine ⟨origin_of_cases (Or.inr (unlocked_read_eof c ev)),
          fun hnd => shrinks_read_nodata c ev (hnd ev (by simp [opEvents]))⟩
      · refine ⟨origin_of_cases (Or.inr (unlocked_read_eof c ev)), fun hnd => ?_⟩
        exact shrinks_trans (shrinks_read_nodata c ev (hnd ev (by simp [opEvents])))
          (shrinks_get (unlocked_read c ev) _)
    · simp only [h1, if_false]
      exact ⟨origin_of_cases (Or.inl rfl), fun _ => shrinks_get c _⟩
  · -- conn_read_fixed
    simp only [connStep]
    unfold conn_read_fixed
    by_cases h1 : unlocked_inbuf_len c < n
    · by_cases h2 : unlocked_inbuf_len (unlocked_read c ev) < n <;>
        simp only [h1, if_true, h2, if_false]
      · refine ⟨origin_of_cases (Or.inr (unlocked_read_eof c ev)),
          fun hnd => shrinks_read_nodata c ev (hnd ev (by simp [opEvents]))⟩
      · refine ⟨origin_of_cases (Or.inr (unlocked_read_eof c ev)), fun hnd => ?_⟩
        exact shrinks_trans (shrinks_read_nodata c ev (hnd ev (by simp [opEvents])))
          (shrinks_get (unlocked_read c ev) _)
    · simp only [h1, if_false]
      exact ⟨origin_of_cases (Or.inl rfl), fun _ => shrinks_get c _⟩
  · -- conn_read_line
    simp only [connStep]
    unfold conn_read_line
    by_cases h1 : octstr_search_char c.inbuf 10 c.inbufpos < 0
    · by_cases h2 : octstr_search_char (unlocked_read c ev).inbuf 10
          (unlocked_read c ev).inbufpos < 0 <;>
        simp only [h1, if_true, h2, if_false]
      · refine ⟨origin_of_cases (Or.inr (unlocked_read_eof c ev)),
          fun hnd => shrinks_read_nodata c ev (hnd ev (by simp [opEvents]))⟩
      · have ht := read_line_tail_state (unlocked_read c ev)
          (octstr_search_char (unlocked_read c ev).inbuf 10 (unlocked_read c ev).inbufpos)
        refine ⟨origin_of_cases (Or.inr (by rw [ht.2.2, unlocked_read_eof])), fun hnd => ?_⟩
        exact shrinks_trans (shrinks_read_nodata c ev (hnd ev (by simp [opEvents])))
          (shrinks_of_inbuf_eq ht.1 (Or.inl ht.2.1))
    · simp only [h1, if_false]
      have ht := read_line_tail_state c (octstr_search_char c.inbuf 10 c.inbufpos)
      exact ⟨origin_of_cases (Or.inl ht.2.2),
        fun _ => shrinks_of_inbuf_eq ht.1 (Or.inl ht.2.1)⟩
  · -- conn_read_withlen
    simp only [connStep]
    have hc1 := read_withlen_core_state (c.inbuf.length - c.inbufpos) c le_rfl
    unfold conn_read_withlen
    cases hres : read_withlen_core c with
    | mk c1 r =>
      rw [hres] at hc1
      simp only at hc1
      cases r with
      | some p =>
        exact ⟨origin_of_cases (Or.inl hc1.1),
          fun _ => shrinks_of_inbuf_eq hc1.2.1 (Or.inl hc1.2.2)⟩
      | none =>
        have hc2 := read_withlen_core_state
          ((unlocked_read c1 ev).inbuf.length - (unlocked_read c1 ev).inbufpos)
          (unlocked_read c1 ev) le_rfl
        refine ⟨origin_of_cases (Or.inr (by rw [hc2.1, unlocked_read_eof, hc1.1])),
          fun hnd => ?_⟩
        refine shrinks_trans (shrinks_of_inbuf_eq hc1.2.1 (Or.inl hc1.2.2)) ?_
        exact shrinks_trans (shrinks_read_nodata c1 ev (hnd ev (by simp [opEvents])))
          (shrinks_of_inbuf_eq hc2.2.1 (Or.inl hc2.2.2))
  · -- conn_read_packet
    simp only [connStep]
    have hp1 := read_packet_core_state c sm em
    unfold conn_read_packet
    cases hres : read_packet_core c sm em with
    | mk c1 r =>
      rw [hres] at hp1
      simp only at hp1
      cases r with
      | some p =>
        exact ⟨origin_of_cases (Or.inl hp1.2.1), fun _ => hp1.2.2⟩
      | none =>
        have hp2 := read_packet_core_state (unlocked_read c1 ev) sm em
        refine ⟨origin_of_cases (Or.inr (by rw [hp2.2.1, unlocked_read_eof, hp1.2.1])),
          fun hnd => ?_⟩
        refine shrinks_trans hp1.2.2 ?_
        exact shrinks_trans (shrinks_read_nodata c1 ev (hnd ev (by simp [opEvents])))
          hp2.2.2
  · -- conn_wait
    simp only [connStep]
    have hw1 := unlocked_write_inbuf c w1
    have hs1 : shrinks c (unlocked_write c w1).1 :=
      shrinks_of_inbuf_eq hw1.1 (Or.inl (le_of_eq hw1.2.1.symm))
    unfold conn_wait
    by_cases hn : (unlocked_write c w1).2 < 0
    · simp only [hn, if_true]
      exact ⟨origin_of_cases (Or.inl hw1.2.2), fun _ => hs1⟩
    · by_cases hp : 0 < (unlocked_write c w1).2 <;> simp only [hn, if_false, hp, if_true]
      · exact ⟨origin_of_cases (Or.inl hw1.2.2), fun _ => hs1⟩
      · rcases pr with b | _ | rv
        · simp only
          cases b <;>
            exact ⟨origin_of_cases (Or.inl hw1.2.2), fun _ => hs1⟩
        · exact ⟨origin_of_cases (Or.inl hw1.2.2), fun _ => hs1⟩
        · by_cases hnv : rv.pollnval
          · simp only [hnv, if_true]
            exact ⟨origin_of_cases (Or.inl hw1.2.2), fun _ => hs1⟩
          · by_cases herr : rv.pollerr || rv.pollhup <;>
              simp only [hnv, if_false, herr, if_true, Bool.false_eq_true]
            · refine ⟨origin_of_cases
                (Or.inr (by rw [unlocked_read_eof, hw1.2.2])), fun hnd => ?_⟩
              exact shrinks_trans hs1
                (shrinks_read_nodata _ ev (hnd ev (by simp [opEvents])))
            · have hw2 := unlocked_write_inbuf (unlocked_write c w1).1 w2
              by_cases hpo : rv.pollout <;> by_cases hpi : rv.pollin <;>
                simp only [hpo, hpi, if_true, if_false, Bool.false_eq_true]
              · refine ⟨origin_of_cases
                  (Or.inr (by rw [unlocked_read_eof, hw2.2.2, hw1.2.2])), fun hnd => ?_⟩
                refine shrinks_trans hs1 (shrinks_trans
                  (shrinks_of_inbuf_eq hw2.1 (Or.inl (le_of_eq hw2.2.1.symm))) ?_)
                exact shrinks_read_nodata _ ev (hnd ev (by simp [opEvents]))
              · exact ⟨origin_of_cases (Or.inl (by rw [hw2.2.2, hw1.2.2])),
                  fun _ => shrinks_trans hs1
                    (shrinks_of_inbuf_eq hw2.1 (Or.inl (le_of_eq hw2.2.1.symm)))⟩
              · refine ⟨origin_of_cases
                  (Or.inr (by rw [unlocked_read_eof, hw1.2.2])), fun hnd => ?_⟩
                exact shrinks_trans hs1
                  (shrinks_read_nodata _ ev (hnd ev (by simp [opEvents])))
              · exact ⟨origin_of_cases (Or.inl hw1.2.2), fun _ => hs1⟩
  · -- poll_callback
    simp only [connStep]
    have hw := unlocked_write_inbuf c w
    unfold poll_callback
    by_cases hpo : rv.pollout <;> by_cases hpi : rv.pollin <;>
      simp only [hpo, hpi, if_true, if_false, Bool.false_eq_true]
    · refine ⟨origin_of_cases (Or.inr (by rw [unlocked_read_eof, hw.2.2])), fun hnd => ?_⟩
      refine shrinks_trans (shrinks_of_inbuf_eq hw.1 (Or.inl (le_of_eq hw.2.1.symm))) ?_
      exact shrinks_read_nodata _ ev (hnd ev (by simp [opEvents]))
    · exact ⟨origin_of_cases (Or.inl hw.2.2),
        fun _ => shrinks_of_inbuf_eq hw.1 (Or.inl (le_of_eq hw.2.1.symm))⟩
    · refine ⟨origin_of_cases (Or.inr (unlocked_read_eof c ev)), fun hnd => ?_⟩
      exact shrinks_read_nodata c ev (hnd ev (by simp [opEvents]))
    · exact ⟨origin_of_cases (Or.inl rfl), fun _ => shrinks_refl c⟩

theorem opsEvents_append (l1 l2 : List ConnOp) :
    opsEvents (l1 ++ l2) = opsEvents l1 ++ opsEvents l2 := by
  induction l1 with
  | nil => rfl
  | cons op l ih => simp [opsEvents, ih]

theorem FdSticky_of_nodata (evs : List ReadEvent)
    (h : ∀ e ∈ evs, ∀ bs, e ≠ .rdata bs) : FdSticky evs := by
  intro l r heq _ e he bs
  exact h e (by rw [heq]; exact List.mem_append_right _ he) bs

theorem connRun_eof_origin : ∀ (ops : List ConnOp) (c : Connection),
    (connRun c ops).read_eof = true →
    c.read_eof = true ∨ ReadEvent.reof ∈ opsEvents ops := by
  intro ops
  induction ops with
  | nil => exact fun c h => Or.inl h
  | cons op ops ih =>
    intro c h
    rcases ih (connStep c op) h with h1 | h1
    · rcases (connStep_props c op).1 h1 with h2 | h2
      · exact Or.inl h2
      · right
        show _ ∈ opEvents op ++ opsEvents ops
        exact List.mem_append_left _ h2
    · right
      show _ ∈ opEvents op ++ opsEvents ops
      exact List.mem_append_right _ h1

/-- C9: once `read_eof` has been set, no subsequent operation ever appends
bytes to the input buffer: over any operation trace whose fd events
satisfy the socket eof guarantee (`FdSticky`), every operation after the
state shows `read_eof` leaves the unread input a suffix of what it was
(bytes can be consumed from the front, never appended). -/
theorem conn_eof_no_append (c : Connection) (pre : List ConnOp) (op : ConnOp)
    (suf : List ConnOp)
    (hsticky : FdSticky (opsEvents (pre ++ op :: suf)))
    (h0 : c.read_eof = false)
    (heof : (connRun c pre).read_eof = true) :
    unread (connStep (connRun c pre) op) <:+ unread (connRun c pre) := by
  rcases connRun_eof_origin pre c heof with h | h
  · rw [h0] at h
    cases h
  · have hsplit : opsEvents (pre ++ op :: suf) =
        opsEvents pre ++ (opEvents op ++ opsEvents suf) := by
      rw [opsEvents_append]
      rfl
    have hnd : ∀ e ∈ opEvents op, ∀ bs, e ≠ .rdata bs := fun e he bs =>
      hsticky (opsEvents pre) (opEvents op ++ opsEvents suf) hsplit h e
        (List.mem_append_left _ he) bs
    obtain ⟨k, hk⟩ := (connStep_props (connRun c pre) op).2 hnd
    rw [hk]
    exact List.drop_suffix k _

/-- Witness for C9: a first `conn_read_fixed` hits eof; a later
`conn_read_fixed` (its read attempt returning EAGAIN, as the sticky fd
guarantees no more data) appends nothing. -/
theorem conn_eof_no_append_witness :
    unread (connStep
        (connRun ⟨[], 0, 0, [], 0, false, false, false, false, false⟩
          [ConnOp.opReadFixed 5 .reof])
        (ConnOp.opReadFixed 5 (.rerror true)))
      <:+ unread (connRun ⟨[], 0, 0, [], 0, false, false, false, false, false⟩
          [ConnOp.opReadFixed 5 .reof]) :=
  conn_eof_no_append ⟨[], 0, 0, [], 0, false, false, false, false, false⟩
    [.opReadFixed 5 .reof] (.opReadFixed 5 (.rerror true)) []
    (FdSticky_of_nodata _ (by intro e he bs; fin_cases he <;> simp))
    (by decide) (by decide)

/-! ## Timer sets (src/gw/timers.c)

Timers are identified by `TimerId` (the pointer identity of the C
`Timer`), WAP events by `EventId` (pointer identity; `wap_event_duplicate`
yields a fresh id drawn from `nextEvent`).  A `Timerset` carries the heap
(a list of timer ids), the output queue, the timer records, and a log of
destroyed events (`wap_event_destroy` calls), so that destruction claims
are observable. -/

abbrev TimerId := Nat
abbrev EventId := Nat

structure Timer where
  elapses : Int
  event : Option EventId
  elapsed_event : Option EventId
  index : Int
deriving Repr, DecidableEq

structure Timerset where
  heap : List TimerId
  output : List EventId
  timers : TimerId → Timer
  nextEvent : EventId
  destroyed : List EventId

/-- Pointwise update of the timer map. -/
def upd (f : TimerId → Timer) (k : TimerId) (v : Timer) : TimerId → Timer :=
  fun x => if x = k then v else f x

def key (s : Timerset) (tid : TimerId) : Int := (s.timers tid).elapses

/-- Element of the heap list at a position (positions are always in range
where this is used; the C `list_get` would crash otherwise). -/
def nth (l : List TimerId) (i : Nat) : TimerId := l.getD i 0

def keyAt (s : Timerset) (i : Nat) : Int := key s (nth s.heap i)

def setIdx (s : Timerset) (tid : TimerId) (n : Int) : Timerset :=
  { s with timers := upd s.timers tid { s.timers tid with index := n } }

def setElapses (s : Timerset) (tid : TimerId) (v : Int) : Timerset :=
  { s with timers := upd s.timers tid { s.timers tid with elapses := v } }

def setEvent (s : Timerset) (tid : TimerId) (e : Option EventId) : Timerset :=
  { s with timers := upd s.timers tid { s.timers tid with event := e } }

def setElapsedEvent (s : Timerset) (tid : TimerId) (e : Option EventId) : Timerset :=
  { s with timers := upd s.timers tid { s.timers tid with elapsed_event := e } }

/-- wap_event_destroy: record the destruction (destroying NULL is a no-op). -/
def wap_event_destroy (s : Timerset) (e : Option EventId) : Timerset :=
  match e with
  | none => s
  | some x => { s with destroyed := s.destroyed ++ [x] }

/-- timers.c lines 277-285, `heap_swap`: swap two heap slots and update
the index fields of the two timers now at those slots. -/
def heap_swap (s : Timerset) (i j : Nat) : Timerset :=
  let h2 := (s.heap.set i (nth s.heap j)).set j (nth s.heap i)
  let s1 : Timerset := { s with heap := h2 }
  setIdx (setIdx s1 (nth h2 i) i) (nth h2 j) j

theorem heap_swap_heap_length (s : Timerset) (i j : Nat) :
    (heap_swap s i j).heap.length = s.heap.length := by
  simp [heap_swap, setIdx]

/-- timers.c lines 313-326: the sift-up loop of `heap_adjust`.  Returns
the state and the final position of the moved timer. -/
def sift_up (s : Timerset) (i : Nat) : Timerset × Nat :=
  if h : key s (nth s.heap i) < key s (nth s.heap (i / 2)) then
    sift_up (heap_swap s i (i / 2)) (i / 2)
  else (s, i)
termination_by i
decreasing_by
  have hi : i ≠ 0 := by
    intro h0
    rw [h0] at h
    exact absurd h (lt_irrefl _)
  omega

/-- timers.c lines 328-356: the sift-down loop of `heap_adjust`. -/
def sift_down (s : Timerset) (i : Nat) : Timerset :=
  let ci := i * 2
  if s.heap.length ≤ ci then s
  else
    let t := nth s.heap i
    let child := nth s.heap ci
    if ci = s.heap.length - 1 then
      if key s child < key s t then heap_swap s i ci else s
    else
      let child2 := nth s.heap (ci + 1)
      if key s child2 < key s child then
        if key s child2 < key s t then sift_down (heap_swap s i (ci + 1)) (ci + 1)
        else s
      else
        if key s child < key s t then sift_down (heap_swap s i ci) ci
        else s
termination_by s.heap.length - i
decreasing_by
  · rw [heap_swap_heap_length]
    omega
  · rw [heap_swap_heap_length]
    have hi : i ≠ 0 := by
      intro h0
      subst h0
      simp at *
    omega

/-- timers.c lines 294-357, `heap_adjust`: restore the partial order
around `index`; report whether the top of the heap changed (moved earlier). -/
def heap_adjust (s : Timerset) (i : Nat) : Timerset × Bool :=
  if key s (nth s.heap i) < key s (nth s.heap (i / 2)) then
    let r := sift_up s i
    (r.1, decide (r.2 = 0))
  else (sift_down s i, false)

/-- timers.c lines 267-271, `heap_insert`. -/
def heap_insert (s : Timerset) (tid : TimerId) : Timerset :=
  let s1 : Timerset := { s with heap := s.heap ++ [tid] }
  let s2 := setIdx s1 tid ((s1.heap.length : Int) - 1)
  (heap_adjust s2 (s2.heap.length - 1)).1

/-- timers.c lines 247-261, `heap_delete`: swap with the last slot, drop
it, re-adjust, and mark the removed timer as out of the heap. -/
def heap_delete (s : Timerset) (i : Nat) : Timerset :=
  let t := nth s.heap i
  let last := s.heap.length - 1
  let s2 : Timerset :=
    if i = last then { s with heap := s.heap.take last }
    else
      let s1 := heap_swap s i last
      (heap_adjust { s1 with heap := s1.heap.take last } i).1
  setIdx s2 t (-1)

/-- timers.c lines 230-240, `abort_elapsed`: retract a queued elapse
event; destroy it iff the queue still held it. -/
def abort_elapsed (s : Timerset) (tid : TimerId) : Timerset :=
  match (s.timers tid).elapsed_event with
  | none => s
  | some e =>
      let count := s.output.count e
      let s1 : Timerset := { s with output := s.output.filter (fun x => x != e) }
      let s2 := if 0 < count then wap_event_destroy s1 (some e) else s1
      setElapsedEvent s2 tid none

/-- timers.c lines 129-140, `timer_create` (fresh allocation: `tid` is a
pointer no live timer uses). -/
def timer_create (s : Timerset) (tid : TimerId) : Timerset :=
  let t : Timer := { elapses := -1, event := none, elapsed_event := none, index := -1 }
  { s with timers := upd s.timers tid t }

/-- timers.c lines 151-193, `timer_start`: returns the new state and
whether `gwthread_wakeup` is called (after the unlock). -/
def timer_start (s : Timerset) (tid : TimerId) (now iv : Int) (ev : Option EventId) :
    Timerset × Bool :=
  let interval := iv + now
  if 0 < (s.timers tid).elapses then
    let wake0 : Bool :=
      decide (interval < (s.timers tid).elapses) && decide ((s.timers tid).index = 0)
    let s1 := setElapses s tid interval
    let r := heap_adjust s1 (s.timers tid).index.toNat
    let s2 :=
      match ev with
      | none => r.1
      | some e => setEvent (wap_event_destroy r.1 ((r.1.timers tid).event)) tid (some e)
    (s2, wake0 || r.2)
  else
    let s1 := abort_elapsed s tid
    let s2 := setElapses s1 tid interval
    let s3 := heap_insert s2 tid
    (s3, decide ((s3.timers tid).index = 0))

/-- timers.c lines 195-212, `timer_stop`. -/
def timer_stop (s : Timerset) (tid : TimerId) : Timerset :=
  let s1 :=
    if 0 < (s.timers tid).elapses then
      let sA := setElapses s tid (-1)
      heap_delete sA (sA.timers tid).index.toNat
    else s
  abort_elapsed s1 tid

/-- wap_event_duplicate: a fresh event id (NULL duplicates to NULL). -/
def wap_event_duplicate (s : Timerset) (e : Option EventId) : Timerset × Option EventId :=
  match e with
  | none => (s, none)
  | some _ => ({ s with nextEvent := s.nextEvent + 1 }, some s.nextEvent)

/-- list_produce on the output queue (producing NULL never happens for a
started timer; modelled as a no-op). -/
def list_produce (s : Timerset) (e : Option EventId) : Timerset :=
  match e with
  | none => s
  | some x => { s with output := s.output ++ [x] }

/-- timers.c lines 363-373, `elapse_timer`. -/
def elapse_timer (s : Timerset) (tid : TimerId) : Timerset :=
  let r := wap_event_duplicate s ((s.timers tid).event)
  let s1 := setElapsedEvent r.1 tid r.2
  let s2 := list_produce s1 ((s1.timers tid).elapsed_event)
  setElapses s2 tid (-1)

inductive WatchAction where
  | elapsed (tid : TimerId)
  | sleepLong
  | sleepFor (d : Int)
deriving Repr, DecidableEq

/-- timers.c lines 386-410: one iteration of the watcher loop, with the
action it takes after the mutex is released. -/
def watch_iteration (s : Timerset) (now : Int) : Timerset × WatchAction :=
  if s.heap.length = 0 then (s, .sleepLong)
  else
    let top := nth s.heap 0
    let top_time := (s.timers top).elapses
    if top_time ≤ now then
      let s1 := heap_delete s 0
      (elapse_timer s1 top, .elapsed top)
    else (s, .sleepFor (top_time - now))

/-- Lock/sleep trace of one watcher iteration (timers.c lines 386-410):
the set mutex is released before either sleep. -/
def watch_trace (s : Timerset) (now : Int) : List LockEv :=
  if s.heap.length = 0 then [.lockSet, .unlockSet, .sleepCall]
  else if (s.timers (nth s.heap 0)).elapses ≤ now then [.lockSet, .unlockSet]
  else [.lockSet, .unlockSet, .sleepCall]

/-- Lock/wakeup trace of `timer_start` (timers.c lines 157-192): the
wakeup, when issued, follows the unlock. -/
def timer_start_trace (s : Timerset) (tid : TimerId) (now iv : Int)
    (ev : Option EventId) : List LockEv :=
  [.lockSet, .unlockSet] ++
    (if (timer_start s tid now iv ev).2 then [.wakeCall] else [])

/-- timers.c lines 94-106, `timerset_create` (modulo spawning the watcher
thread, which is modelled by `watch_iteration`). -/
def timerset_create (outputlist : List EventId) : Timerset :=
  { heap := [], output := outputlist, timers := fun _ => ⟨-1, none, none, -1⟩,
    nextEvent := 0, destroyed := [] }

/-! ### C1: the shape of the heap invariant

The claim asserts the standard 0-based binary-heap layout (children of
`i` at `2i+1` and `2i+2`).  The code, however, uses `parent = i / 2` and
`children = 2i, 2i+1` directly on 0-based indices (timers.c lines 315,
330, and the comment at lines 40-47), so node 0's only child is node 1.
`claimedMinHeap` is the claim's invariant verbatim; the counterexample
below reaches, through `timer_create`/`timer_start` alone, a state where
it fails while the code's own invariant holds. -/

def claimedMinHeap (s : Timerset) : Prop :=
  (∀ i, i < s.heap.length →
    (2 * i + 1 < s.heap.length → keyAt s i ≤ keyAt s (2 * i + 1))
    ∧ (2 * i + 2 < s.heap.length → keyAt s i ≤ keyAt s (2 * i + 2)))
  ∧ (∀ tid ∈ s.heap, 0 ≤ (s.timers tid).index
      ∧ nth s.heap (s.timers tid).index.toNat = tid)

/-- One create-and-start step used to build the counterexample state. -/
def cexStart (s : Timerset) (p : TimerId × Int) : Timerset :=
  (timer_start (timer_create s p.1) p.1 0 p.2 (some p.1)).1

/-- Six timers with elapse times 1, 11, 21, 6, 31, 31: the heap is
[0, 3, 2, 1, 4, 5] with keys [1, 6, 21, 11, 31, 31]. -/
def cexS6 : Timerset :=
  [((0 : TimerId), (1 : Int)), (1, 11), (2, 21), (3, 6), (4, 31), (5, 31)].foldl
    cexStart (timerset_create [])

/-- Starting a seventh timer with elapse time 7 sifts it up to slot 3,
leaving keys [1, 6, 21, 7, 31, 31, 11]: slot 2 (key 21) now exceeds its
claimed child 2*2+2 = 6 (key 11). -/
def cexS7 : Timerset := (timer_start (timer_create cexS6 6) 6 0 7 (some 6)).1

/-- C1 counterexample: the claimed `2i+1`/`2i+2` min-heap invariant holds
after six starts and is violated by the seventh, so it is not the
invariant the heap operations preserve. -/
theorem C1_counterexample : claimedMinHeap cexS6 ∧ ¬ claimedMinHeap cexS7 := by
  have hlen6 : cexS6.heap.length = 6 := by
    simp [cexS6, cexStart, timerset_create, timer_create, timer_start, heap_insert,
      heap_adjust, sift_up, sift_down, heap_swap, setIdx, setElapses, setEvent,
      setElapsedEvent, abort_elapsed, wap_event_destroy, upd, nth, key, keyAt]
  have hheap6 : cexS6.heap = [0, 3, 2, 1, 4, 5] := by
    simp [cexS6, cexStart, timerset_create, timer_create, timer_start, heap_insert,
      heap_adjust, sift_up, sift_down, heap_swap, setIdx, setElapses, setEvent,
      setElapsedEvent, abort_elapsed, wap_event_destroy, upd, nth, key, keyAt]
  constructor
  · constructor
    · intro i hi
      rw [hlen6] at hi
      refine ⟨fun hc => ?_, fun hc => ?_⟩ <;> rw [hlen6] at hc <;>
        interval_cases i <;> (try omega) <;>
        simp [cexS6, cexStart, timerset_create, timer_create, timer_start, heap_insert,
          heap_adjust, sift_up, sift_down, heap_swap, setIdx, setElapses, setEvent,
          setElapsedEvent, abort_elapsed, wap_event_destroy, upd, nth, key, keyAt]
    · intro tid htid
      rw [hheap6] at htid
      fin_cases htid <;>
        simp [cexS6, cexStart, timerset_create, timer_create, timer_start, heap_insert,
          heap_adjust, sift_up, sift_down, heap_swap, setIdx, setElapses, setEvent,
          setElapsedEvent, abort_elapsed, wap_event_destroy, upd, nth, key, keyAt]
  · intro h
    have hlen7 : cexS7.heap.length = 7 := by
      simp [cexS7, cexS6, cexStart, timerset_create, timer_create, timer_start,
        heap_insert, heap_adjust, sift_up, sift_down, heap_swap, setIdx, setElapses,
        setEvent, setElapsedEvent, abort_elapsed, wap_event_destroy, upd, nth, key, keyAt]
    have hx := (h.1 2 (by rw [hlen7]; omega)).2 (by rw [hlen7]; omega)
    simp [cexS7, cexS6, cexStart, timerset_create, timer_create, timer_start,
      heap_insert, heap_adjust, sift_up, sift_down, heap_swap, setIdx, setElapses,
      setEvent, setElapsedEvent, abort_elapsed, wap_event_destroy, upd, nth, key,
      keyAt] at hx

/-! ### Positional lemmas about `nth` -/

theorem nth_eq_getElem (l : List TimerId) {i : Nat} (h : i < l.length) :
    nth l i = l[i] :=
  List.getD_eq_getElem l 0 h

theorem nth_set_eq (l : List TimerId) (i : Nat) (a : TimerId) (h : i < l.length) :
    nth (l.set i a) i = a := by
  simp [nth, List.getElem?_set_self (by simpa using h)]

theorem nth_set_ne (l : List TimerId) (i k : Nat) (a : TimerId) (h : k ≠ i) :
    nth (l.set i a) k = nth l k := by
  simp [nth, List.getElem?_set_ne (Ne.symm h)]

theorem nth_mem (l : List TimerId) {i : Nat} (h : i < l.length) : nth l i ∈ l := by
  rw [nth_eq_getElem l h]
  exact List.getElem_mem h

theorem mem_iff_nth (l : List TimerId) (x : TimerId) :
    x ∈ l ↔ ∃ i, i < l.length ∧ nth l i = x := by
  constructor
  · intro hx
    obtain ⟨i, hi, he⟩ := List.mem_iff_getElem.mp hx
    exact ⟨i, hi, by rw [nth_eq_getElem l hi]; exact he⟩
  · rintro ⟨i, hi, rfl⟩
    exact nth_mem l hi

theorem nth_inj {l : List TimerId} (hnd : l.Nodup) {i j : Nat}
    (hi : i < l.length) (hj : j < l.length) (h : nth l i = nth l j) : i = j := by
  rw [nth_eq_getElem l hi, nth_eq_getElem l hj] at h
  have h2 : (⟨i, hi⟩ : Fin l.length) = ⟨j, hj⟩ :=
    List.nodup_iff_injective_getElem.mp hnd h
  exact congrArg Fin.val h2

theorem nodup_of_nth_inj {l : List TimerId}
    (h : ∀ i j, i < l.length → j < l.length → nth l i = nth l j → i = j) :
    l.Nodup := by
  rw [List.nodup_iff_injective_getElem]
  intro a b hab
  have := h a.1 b.1 a.2 b.2
    (by rw [nth_eq_getElem l a.2, nth_eq_getElem l b.2]; exact hab)
  exact Fin.ext this

theorem nth_append_left (l m : List TimerId) {i : Nat} (h : i < l.length) :
    nth (l ++ m) i = nth l i :=
  List.getD_append l m 0 i h

theorem nth_append_last (l : List TimerId) (x : TimerId) :
    nth (l ++ [x]) l.length = x := by
  show (l ++ [x]).getD l.length 0 = x
  rw [List.getD_append_right l [x] 0 l.length le_rfl]
  simp

theorem nth_take (l : List TimerId) {n i : Nat} (h : i < n) :
    nth (l.take n) i = nth l i := by
  simp [nth, List.getElem?_take_of_lt h]

/-! ### Heap invariants -/

/-- Index bookkeeping: slots are distinct timers and each in-heap timer's
`index` field names its slot. -/
structure HeapWF (s : Timerset) : Prop where
  nodup : s.heap.Nodup
  idxOk : ∀ i, i < s.heap.length → (s.timers (nth s.heap i)).index = (i : Int)

/-- The partial order the code maintains (timers.c lines 40-47): the key
at slot `j` is at least the key at its parent slot `j / 2`. -/
def HeapOrd (s : Timerset) : Prop :=
  ∀ j, 0 < j → j < s.heap.length → keyAt s (j / 2) ≤ keyAt s j

/-- All parent edges hold except possibly those into or out of slot `i`. -/
def EdgesExcept (s : Timerset) (i : Nat) : Prop :=
  ∀ j, 0 < j → j < s.heap.length → j ≠ i → j / 2 ≠ i → keyAt s (j / 2) ≤ keyAt s j

/-- Children of a non-root slot `i` are bounded below by `i`'s parent key. -/
def ChildBound (s : Timerset) (i : Nat) : Prop :=
  ∀ j, 0 < j → j < s.heap.length → j / 2 = i → 0 < i → keyAt s (i / 2) ≤ keyAt s j

/-- Children of slot `i` are at least `i`'s own key. -/
def ChildGe (s : Timerset) (i : Nat) : Prop :=
  ∀ j, 0 < j → j < s.heap.length → j / 2 = i → keyAt s i ≤ keyAt s j

/-- Fields the heap operations never change: every timer's non-index
fields, and the set-level queues and logs. -/
def SameTimers (s s' : Timerset) : Prop :=
  (∀ tid, (s'.timers tid).elapses = (s.timers tid).elapses
    ∧ (s'.timers tid).event = (s.timers tid).event
    ∧ (s'.timers tid).elapsed_event = (s.timers tid).elapsed_event)
  ∧ s'.output = s.output ∧ s'.nextEvent = s.nextEvent ∧ s'.destroyed = s.destroyed

theorem SameTimers.refl (s : Timerset) : SameTimers s s :=
  ⟨fun _ => ⟨rfl, rfl, rfl⟩, rfl, rfl, rfl⟩

theorem SameTimers.trans {a b c : Timerset} (h1 : SameTimers a b) (h2 : SameTimers b c) :
    SameTimers a c := by
  refine ⟨fun tid => ?_, ?_, ?_, ?_⟩
  · exact ⟨((h2.1 tid).1).trans (h1.1 tid).1, ((h2.1 tid).2.1).trans (h1.1 tid).2.1,
      ((h2.1 tid).2.2).trans (h1.1 tid).2.2⟩
  · exact h2.2.1.trans h1.2.1
  · exact h2.2.2.1.trans h1.2.2.1
  · exact h2.2.2.2.trans h1.2.2.2

theorem SameTimers.key_eq {s s' : Timerset} (h : SameTimers s s') (tid : TimerId) :
    key s' tid = key s tid := (h.1 tid).1

theorem upd_apply (f : TimerId → Timer) (k : TimerId) (v : Timer) (x : TimerId) :
    upd f k v x = if x = k then v else f x := rfl

theorem setIdx_same (s : Timerset) (tid : TimerId) (n : Int) :
    SameTimers s (setIdx s tid n) := by
  refine ⟨fun x => ?_, rfl, rfl, rfl⟩
  by_cases hx : x = tid <;> simp [setIdx, upd_apply, hx]

theorem setIdx_heap (s : Timerset) (tid : TimerId) (n : Int) :
    (setIdx s tid n).heap = s.heap := rfl

theorem setIdx_index (s : Timerset) (tid : TimerId) (n : Int) (x : TimerId) :
    ((setIdx s tid n).timers x).index = if x = tid then n else (s.timers x).index := by
  by_cases hx : x = tid <;> simp [setIdx, upd_apply, hx]

/-! ### heap_swap lemmas -/

theorem heap_swap_heap (s : Timerset) (i j : Nat) :
    (heap_swap s i j).heap = (s.heap.set i (nth s.heap j)).set j (nth s.heap i) := rfl

theorem nth_heap_swap (s : Timerset) (i j k : Nat)
    (hi : i < s.heap.length) (hj : j < s.heap.length) :
    nth (heap_swap s i j).heap k =
      if k = j then nth s.heap i
      else if k = i then nth s.heap j
      else nth s.heap k := by
  rw [heap_swap_heap]
  by_cases hkj : k = j
  · subst hkj
    rw [if_pos rfl, nth_set_eq _ _ _ (by simpa using hj)]
  · rw [if_neg hkj, nth_set_ne _ _ _ _ hkj]
    by_cases hki : k = i
    · subst hki
      rw [if_pos rfl, nth_set_eq _ _ _ hi]
    · rw [if_neg hki, nth_set_ne _ _ _ _ hki]

theorem heap_swap_same (s : Timerset) (i j : Nat) :
    SameTimers s (heap_swap s i j) := by
  have h1 := setIdx_same { s with heap := (s.heap.set i (nth s.heap j)).set j (nth s.heap i) }
    (nth ((s.heap.set i (nth s.heap j)).set j (nth s.heap i)) i) i
  have h0 : SameTimers s
      { s with heap := (s.heap.set i (nth s.heap j)).set j (nth s.heap i) } :=
    ⟨fun _ => ⟨rfl, rfl, rfl⟩, rfl, rfl, rfl⟩
  exact (h0.trans h1).trans (setIdx_same _ _ _)

theorem heap_swap_key (s : Timerset) (i j : Nat) (tid : TimerId) :
    key (heap_swap s i j) tid = key s tid :=
  (heap_swap_same s i j).key_eq tid

theorem keyAt_heap_swap (s : Timerset) (i j k : Nat)
    (hi : i < s.heap.length) (hj : j < s.heap.length) :
    keyAt (heap_swap s i j) k =
      if k = j then keyAt s i
      else if k = i then keyAt s j
      else keyAt s k := by
  unfold keyAt
  rw [show key (heap_swap s i j) (nth (heap_swap s i j).heap k) =
      key s (nth (heap_swap s i j).heap k) from heap_swap_key s i j _]
  rw [nth_heap_swap s i j k hi hj]
  by_cases hkj : k = j
  · simp [hkj]
  · by_cases hki : k = i
    · have hij : i ≠ j := fun h => hkj (by rw [hki, h])
      simp [hkj, hki, hij]
    · simp [hkj, hki]

theorem heap_swap_index (s : Timerset) (i j : Nat)
    (hi : i < s.heap.length) (hj : j < s.heap.length) (hne : i ≠ j)
    (hnd : s.heap.Nodup) (x : TimerId) :
    ((heap_swap s i j).timers x).index =
      if x = nth s.heap i then (j : Int)
      else if x = nth s.heap j then (i : Int)
      else (s.timers x).index := by
  have hi' : nth ((s.heap.set i (nth s.heap j)).set j (nth s.heap i)) i = nth s.heap j := by
    rw [nth_set_ne (s.heap.set i (nth s.heap j)) j i (nth s.heap i) hne]
    exact nth_set_eq s.heap i (nth s.heap j) hi
  have hj' : nth ((s.heap.set i (nth s.heap j)).set j (nth s.heap i)) j = nth s.heap i :=
    nth_set_eq (s.heap.set i (nth s.heap j)) j (nth s.heap i) (by simpa using hj)
  show ((setIdx (setIdx _ _ i) _ j).timers x).index = _
  rw [setIdx_index, setIdx_index, hi', hj']

theorem heap_swap_mem (s : Timerset) (i j : Nat)
    (hi : i < s.heap.length) (hj : j < s.heap.length) (x : TimerId) :
    x ∈ (heap_swap s i j).heap ↔ x ∈ s.heap := by
  have hlen := heap_swap_heap_length s i j
  constructor
  · intro hx
    obtain ⟨k, hk, hkx⟩ := (mem_iff_nth _ _).mp hx
    rw [hlen] at hk
    rw [nth_heap_swap s i j k hi hj] at hkx
    by_cases hkj : k = j
    · rw [if_pos hkj] at hkx
      exact hkx ▸ nth_mem s.heap hi
    · rw [if_neg hkj] at hkx
      by_cases hki : k = i
      · rw [if_pos hki] at hkx
        exact hkx ▸ nth_mem s.heap hj
      · rw [if_neg hki] at hkx
        exact hkx ▸ nth_mem s.heap hk
  · intro hx
    obtain ⟨k, hk, hkx⟩ := (mem_iff_nth _ _).mp hx
    by_cases hki : k = i
    · refine (mem_iff_nth _ _).mpr ⟨j, by omega, ?_⟩
      rw [nth_heap_swap s i j j hi hj, if_pos rfl, ← hkx, hki]
    · by_cases hkj : k = j
      · refine (mem_iff_nth _ _).mpr ⟨i, by omega, ?_⟩
        rw [nth_heap_swap s i j i hi hj, ← hkx, hkj]
        by_cases hij : i = j
        · simp [hij]
        · rw [if_neg hij, if_pos rfl]
      · refine (mem_iff_nth _ _).mpr ⟨k, by omega, ?_⟩
        rw [nth_heap_swap s i j k hi hj, if_neg hkj, if_neg hki, hkx]

theorem heap_swap_wf (s : Timerset) (i j : Nat)
    (hi : i < s.heap.length) (hj : j < s.heap.length) (hne : i ≠ j)
    (hwf : HeapWF s) : HeapWF (heap_swap s i j) := by
  have hlen := heap_swap_heap_length s i j
  have hs : ∀ m, (if m = j then nth s.heap i else if m = i then nth s.heap j
      else nth s.heap m)
      = nth s.heap (if m = j then i else if m = i then j else m) := by
    intro m
    by_cases h1 : m = j
    · simp [h1]
    · by_cases h2 : m = i
      · have hij : i ≠ j := fun h => h1 (by rw [h2, h])
        simp [h1, h2, hij]
      · simp [h1, h2]
  constructor
  · apply nodup_of_nth_inj
    intro k k' hk hk' he
    rw [hlen] at hk hk'
    rw [nth_heap_swap s i j k hi hj, nth_heap_swap s i j k' hi hj, hs k, hs k'] at he
    have hσlt : ∀ m, m < s.heap.length →
        (if m = j then i else if m = i then j else m) < s.heap.length := by
      intro m hm
      by_cases h1 : m = j
      · simpa [h1] using hi
      · by_cases h2 : m = i
        · have hij : i ≠ j := fun h => h1 (by rw [h2, h])
          simpa [h1, h2, hij] using hj
        · simpa [h1, h2] using hm
    have heq := nth_inj hwf.nodup (hσlt k hk) (hσlt k' hk') he
    by_cases h1 : k = j <;> by_cases h2 : k' = j <;> by_cases h3 : k = i <;>
      by_cases h4 : k' = i <;> simp [h1, h2, h3, h4, hne] at heq ⊢ <;> omega
  · intro k hk
    rw [hlen] at hk
    rw [nth_heap_swap s i j k hi hj]
    by_cases h1 : k = j
    · rw [if_pos h1, heap_swap_index s i j hi hj hne hwf.nodup, if_pos rfl, h1]
    · rw [if_neg h1]
      by_cases h2 : k = i
      · rw [if_pos h2, heap_swap_index s i j hi hj hne hwf.nodup]
        have hab : nth s.heap j ≠ nth s.heap i := fun h =>
          hne (nth_inj hwf.nodup hi hj h.symm)
        rw [if_neg hab, if_pos rfl, h2]
      · rw [if_neg h2, heap_swap_index s i j hi hj hne hwf.nodup]
        have hx1 : nth s.heap k ≠ nth s.heap i := fun h =>
          h2 (nth_inj hwf.nodup hk hi h)
        have hx2 : nth s.heap k ≠ nth s.heap j := fun h =>
          h1 (nth_inj hwf.nodup hk hj h)
        rw [if_neg hx1, if_neg hx2]
        exact hwf.idxOk k hk

theorem heap_swap_index_out (s : Timerset) (i j : Nat)
    (hi : i < s.heap.length) (hj : j < s.heap.length) (tid : TimerId)
    (htid : tid ∉ s.heap) :
    ((heap_swap s i j).timers tid).index = (s.timers tid).index := by
  have hm1 : nth ((s.heap.set i (nth s.heap j)).set j (nth s.heap i)) j ∈ s.heap := by
    have h := nth_mem ((s.heap.set i (nth s.heap j)).set j (nth s.heap i))
      (show j < ((s.heap.set i (nth s.heap j)).set j (nth s.heap i)).length by
        simpa using hj)
    rw [← heap_swap_heap] at h
    exact (heap_swap_mem s i j hi hj _).mp h
  have hm2 : nth ((s.heap.set i (nth s.heap j)).set j (nth s.heap i)) i ∈ s.heap := by
    have h := nth_mem ((s.heap.set i (nth s.heap j)).set j (nth s.heap i))
      (show i < ((s.heap.set i (nth s.heap j)).set j (nth s.heap i)).length by
        simpa using hi)
    rw [← heap_swap_heap] at h
    exact (heap_swap_mem s i j hi hj _).mp h
  show ((setIdx (setIdx _ _ i) _ j).timers tid).index = _
  rw [setIdx_index, setIdx_index]
  rw [if_neg (fun h => htid (by rw [h]; exact hm1)),
    if_neg (fun h => htid (by rw [h]; exact hm2))]

theorem sift_up_ok : ∀ (i : Nat) (s : Timerset), i < s.heap.length → HeapWF s →
    EdgesExcept s i → ChildBound s i → ChildGe s i →
    HeapWF (sift_up s i).1
    ∧ HeapOrd (sift_up s i).1
    ∧ (∀ x, x ∈ (sift_up s i).1.heap ↔ x ∈ s.heap)
    ∧ SameTimers s (sift_up s i).1
    ∧ (sift_up s i).1.heap.length = s.heap.length
    ∧ (sift_up s i).2 ≤ i
    ∧ nth (sift_up s i).1.heap (sift_up s i).2 = nth s.heap i
    ∧ ((sift_up s i).2 ≠ 0 → nth (sift_up s i).1.heap 0 = nth s.heap 0)
    ∧ ((sift_up s i).2 = 0 → i = 0 ∨ key s (nth s.heap i) < keyAt s 0)
    ∧ (∀ tid, tid ∉ s.heap →
        ((sift_up s i).1.timers tid).index = (s.timers tid).index) := by
  intro i
  induction i using Nat.strong_induction_on with
  | _ i ih =>
    intro s hi hwf hE hB hG
    by_cases hcond : key s (nth s.heap i) < key s (nth s.heap (i / 2))
    case neg =>
      rw [sift_up, dif_neg hcond]
      refine ⟨hwf, ?_, fun x => Iff.rfl, SameTimers.refl s, rfl, le_rfl, rfl,
        fun _ => rfl, fun h0 => Or.inl h0, fun tid _ => rfl⟩
      intro j hj0 hjlen
      by_cases hji : j = i
      · subst hji
        exact not_lt.mp hcond
      · by_cases hpj : j / 2 = i
        · rw [hpj]
          exact hG j hj0 hjlen hpj
        · exact hE j hj0 hjlen hji hpj
    case pos =>
      have hi0 : i ≠ 0 := by
        intro h0
        rw [h0] at hcond
        simp at hcond
      have hg_lt : i / 2 < i := by omega
      have hglen : i / 2 < s.heap.length := by omega
      have hne : i ≠ i / 2 := by omega
      have hwf' : HeapWF (heap_swap s i (i / 2)) := heap_swap_wf s i (i / 2) hi hglen hne hwf
      have hlen' := heap_swap_heap_length s i (i / 2)
      have hkey : ∀ k, keyAt (heap_swap s i (i / 2)) k =
          if k = i / 2 then keyAt s i else if k = i then keyAt s (i / 2) else keyAt s k :=
        fun k => keyAt_heap_swap s i (i / 2) k hi hglen
      have hk_of : ∀ k, k ≠ i / 2 → k ≠ i →
          keyAt (heap_swap s i (i / 2)) k = keyAt s k := by
        intro k h1 h2
        rw [hkey k, if_neg h1, if_neg h2]
      have hk_i : keyAt (heap_swap s i (i / 2)) i = keyAt s (i / 2) := by
        rw [hkey i, if_neg (by omega), if_pos rfl]
      have hk_g : keyAt (heap_swap s i (i / 2)) (i / 2) = keyAt s i := by
        rw [hkey (i / 2), if_pos rfl]
      have hE' : EdgesExcept (heap_swap s i (i / 2)) (i / 2) := by
        intro j hj0 hjlen hjg hpjg
        rw [hlen'] at hjlen
        by_cases hji : j = i
        · exact absurd (by rw [hji]) hpjg
        · by_cases hpji : j / 2 = i
          · rw [hpji, hk_i, hk_of j hjg hji]
            exact hB j hj0 hjlen hpji (by omega)
          · rw [hk_of (j / 2) hpjg hpji, hk_of j hjg hji]
            exact hE j hj0 hjlen hji hpji
      have hB' : ChildBound (heap_swap s i (i / 2)) (i / 2) := by
        intro j hj0 hjlen hpj hg0
        rw [hlen'] at hjlen
        have hgg1 : i / 2 / 2 ≠ i / 2 := by omega
        have hgg2 : i / 2 / 2 ≠ i := by omega
        rw [hk_of (i / 2 / 2) hgg1 hgg2]
        by_cases hji : j = i
        · rw [hji, hk_i]
          exact hE (i / 2) hg0 hglen (by omega) hgg2
        · have hjg : j ≠ i / 2 := by omega
          rw [hk_of j hjg hji]
          have e1 : keyAt s (i / 2 / 2) ≤ keyAt s (i / 2) :=
            hE (i / 2) hg0 hglen (by omega) hgg2
          have e2 : keyAt s (j / 2) ≤ keyAt s j := hE j hj0 hjlen hji (by omega)
          rw [hpj] at e2
          exact le_trans e1 e2
      have hG' : ChildGe (heap_swap s i (i / 2)) (i / 2) := by
        intro j hj0 hjlen hpj
        rw [hlen'] at hjlen
        rw [hk_g]
        by_cases hji : j = i
        · rw [hji, hk_i]
          exact le_of_lt hcond
        · have hjg : j ≠ i / 2 := by omega
          rw [hk_of j hjg hji]
          have e2 : keyAt s (j / 2) ≤ keyAt s j := hE j hj0 hjlen hji (by omega)
          rw [hpj] at e2
          exact le_trans (le_of_lt hcond) e2
      obtain ⟨hwfR, hordR, hmemR, hsameR, hlenR, hleR, hnthR, htopR, hzeroR, houtR⟩ :=
        ih (i / 2) hg_lt (heap_swap s i (i / 2)) (by omega) hwf' hE' hB' hG'
      rw [sift_up, dif_pos hcond]
      have hnth_g : nth (heap_swap s i (i / 2)).heap (i / 2) = nth s.heap i := by
        rw [nth_heap_swap s i (i / 2) (i / 2) hi hglen, if_pos rfl]
      refine ⟨hwfR, hordR, ?_, ?_, ?_, ?_, ?_, ?_, ?_, ?_⟩
      · exact fun x => (hmemR x).trans (heap_swap_mem s i (i / 2) hi hglen x)
      · exact (heap_swap_same s i (i / 2)).trans hsameR
      · rw [hlenR, hlen']
      · omega
      · rw [hnthR, hnth_g]
      · intro hfin
        have hg0 : i / 2 ≠ 0 := by omega
        rw [htopR hfin, nth_heap_swap s i (i / 2) 0 hi hglen,
          if_neg (Ne.symm hg0), if_neg (Ne.symm hi0)]
      · intro hfin
        rcases hzeroR hfin with hg0 | hlt
        · refine Or.inr ?_
          rw [← hg0]
          exact hcond
        · by_cases hg0 : i / 2 = 0
          · refine Or.inr ?_
            rw [← hg0]
            exact hcond
          · refine Or.inr ?_
            rw [hnth_g] at hlt
            rw [heap_swap_key] at hlt
            have h0' : keyAt (heap_swap s i (i / 2)) 0 = keyAt s 0 :=
              hk_of 0 (Ne.symm hg0) (Ne.symm hi0)
            rw [h0'] at hlt
            exact hlt
      · intro tid htid
        have htid' : tid ∉ (heap_swap s i (i / 2)).heap := fun hm =>
          htid ((heap_swap_mem s i (i / 2) hi hglen tid).mp hm)
        rw [houtR tid htid', heap_swap_index_out s i (i / 2) hi hglen tid htid]

theorem sift_down_ok : ∀ (n : Nat) (s : Timerset) (i : Nat), s.heap.length ≤ i + n →
    i < s.heap.length → HeapWF s →
    EdgesExcept s i → ChildBound s i → (0 < i → keyAt s (i / 2) ≤ keyAt s i) →
    HeapWF (sift_down s i)
    ∧ HeapOrd (sift_down s i)
    ∧ (∀ x, x ∈ (sift_down s i).heap ↔ x ∈ s.heap)
    ∧ SameTimers s (sift_down s i)
    ∧ (sift_down s i).heap.length = s.heap.length
    ∧ (0 < i → nth (sift_down s i).heap 0 = nth s.heap 0)
    ∧ (i = 0 → nth (sift_down s i).heap 0 = nth s.heap 0 ∨
        (1 < s.heap.length ∧ nth (sift_down s i).heap 0 = nth s.heap 1
          ∧ keyAt s 1 < keyAt s 0))
    ∧ (∀ tid, tid ∉ s.heap →
        ((sift_down s i).timers tid).index = (s.timers tid).index) := by
  intro n
  induction n with
  | zero =>
    intro s i hn hi _ _ _ _
    exact absurd hi (by omega)
  | succ n ih =>
    intro s i hn hi hwf hE hB hP
    rw [sift_down]
    dsimp only
    by_cases h1 : s.heap.length ≤ i * 2
    · rw [if_pos h1]
      refine ⟨hwf, ?_, fun x => Iff.rfl, SameTimers.refl s, rfl, fun _ => rfl,
        fun _ => Or.inl rfl, fun tid _ => rfl⟩
      intro j hj0 hjlen
      by_cases hji : j = i
      · rw [hji]
        exact hP (hji ▸ hj0)
      · by_cases hpj : j / 2 = i
        · exact (by omega : False).elim
        · exact hE j hj0 hjlen hji hpj
    · rw [if_neg h1]
      by_cases h2 : i * 2 = s.heap.length - 1
      · rw [if_pos h2]
        by_cases hc : key s (nth s.heap (i * 2)) < key s (nth s.heap i)
        · rw [if_pos hc]
          have hi0 : 0 < i := by
            rcases Nat.eq_zero_or_pos i with h0 | h
            · rw [h0] at hc
              simp at hc
            · exact h
          have hii : i ≠ i * 2 := by omega
          have hcl : i * 2 < s.heap.length := by omega
          have hk_of : ∀ k, k ≠ i * 2 → k ≠ i →
              keyAt (heap_swap s i (i * 2)) k = keyAt s k := by
            intro k ha hb
            rw [keyAt_heap_swap s i (i * 2) k hi hcl, if_neg ha, if_neg hb]
          have hk_i : keyAt (heap_swap s i (i * 2)) i = keyAt s (i * 2) := by
            rw [keyAt_heap_swap s i (i * 2) i hi hcl, if_neg hii, if_pos rfl]
          have hk_c : keyAt (heap_swap s i (i * 2)) (i * 2) = keyAt s i := by
            rw [keyAt_heap_swap s i (i * 2) (i * 2) hi hcl, if_pos rfl]
          refine ⟨heap_swap_wf s i (i * 2) hi hcl hii hwf, ?_,
            heap_swap_mem s i (i * 2) hi hcl, heap_swap_same s i (i * 2),
            heap_swap_heap_length s i (i * 2), ?_, ?_, heap_swap_index_out s i (i * 2) hi hcl⟩
          · intro j hj0 hjlen
            rw [heap_swap_heap_length] at hjlen
            by_cases hji : j = i
            · rw [hji, hk_of (i / 2) (by omega) (by omega), hk_i]
              exact hB (i * 2) (by omega) hcl (by omega) hi0
            · by_cases hjci : j = i * 2
              · rw [hjci, show i * 2 / 2 = i from by omega, hk_i, hk_c]
                exact le_of_lt hc
              · by_cases hpi : j / 2 = i
                · exact (by omega : False).elim
                · by_cases hpci : j / 2 = i * 2
                  · exact (by omega : False).elim
                  · rw [hk_of j hjci hji, hk_of (j / 2) hpci hpi]
                    exact hE j hj0 hjlen hji hpi
          · intro _
            rw [nth_heap_swap s i (i * 2) 0 hi hcl, if_neg (by omega), if_neg (by omega)]
          · intro h0
            exact absurd h0 (by omega)
        · rw [if_neg hc]
          refine ⟨hwf, ?_, fun x => Iff.rfl, SameTimers.refl s, rfl, fun _ => rfl,
            fun _ => Or.inl rfl, fun tid _ => rfl⟩
          intro j hj0 hjlen
          by_cases hji : j = i
          · rw [hji]
            exact hP (hji ▸ hj0)
          · by_cases hpj : j / 2 = i
            · have hj2 : j = i * 2 := by omega
              rw [hpj, hj2]
              exact not_lt.mp hc
            · exact hE j hj0 hjlen hji hpj
      · rw [if_neg h2]
        have hcl : i * 2 < s.heap.length := by omega
        have hc1l : i * 2 + 1 < s.heap.length := by omega
        by_cases hcc : key s (nth s.heap (i * 2 + 1)) < key s (nth s.heap (i * 2))
        · rw [if_pos hcc]
          by_cases hct : key s (nth s.heap (i * 2 + 1)) < key s (nth s.heap i)
          · rw [if_pos hct]
            have hii : i ≠ i * 2 + 1 := by omega
            have hk_of : ∀ k, k ≠ i * 2 + 1 → k ≠ i →
                keyAt (heap_swap s i (i * 2 + 1)) k = keyAt s k := by
              intro k ha hb
              rw [keyAt_heap_swap s i (i * 2 + 1) k hi hc1l, if_neg ha, if_neg hb]
            have hk_i : keyAt (heap_swap s i (i * 2 + 1)) i = keyAt s (i * 2 + 1) := by
              rw [keyAt_heap_swap s i (i * 2 + 1) i hi hc1l, if_neg hii, if_pos rfl]
            have hk_c : keyAt (heap_swap s i (i * 2 + 1)) (i * 2 + 1) = keyAt s i := by
              rw [keyAt_heap_swap s i (i * 2 + 1) (i * 2 + 1) hi hc1l, if_pos rfl]
            have hwf' := heap_swap_wf s i (i * 2 + 1) hi hc1l hii hwf
            have hE' : EdgesExcept (heap_swap s i (i * 2 + 1)) (i * 2 + 1) := by
              intro j hj0 hjlen hjc hpjc
              rw [heap_swap_heap_length] at hjlen
              by_cases hji : j = i
              · rw [hji, hk_of (i / 2) (by omega) (by omega), hk_i]
                exact hB (i * 2 + 1) (by omega) hc1l (by omega) (by omega)
              · by_cases hpji : j / 2 = i
                · have hj2 : j = i * 2 := by omega
                  have hi0 : 0 < i := by omega
                  rw [hpji, hk_i, hk_of j (by omega) hji, hj2]
                  exact le_of_lt hcc
                · rw [hk_of j hjc hji, hk_of (j / 2) hpjc hpji]
                  exact hE j hj0 hjlen hji hpji
            have hB' : ChildBound (heap_swap s i (i * 2 + 1)) (i * 2 + 1) := by
              intro j hj0 hjlen hpj _
              rw [heap_swap_heap_length] at hjlen
              rw [show (i * 2 + 1) / 2 = i from by omega, hk_i,
                hk_of j (by omega) (by omega)]
              have := hE j (by omega) hjlen (by omega) (by omega)
              rw [hpj] at this
              exact this
            have hP' : 0 < i * 2 + 1 →
                keyAt (heap_swap s i (i * 2 + 1)) ((i * 2 + 1) / 2) ≤
                  keyAt (heap_swap s i (i * 2 + 1)) (i * 2 + 1) := by
              intro _
              rw [show (i * 2 + 1) / 2 = i from by omega, hk_i, hk_c]
              exact le_of_lt hct
            obtain ⟨hwfR, hordR, hmemR, hsameR, hlenR, htopR, _, houtR⟩ :=
              ih (heap_swap s i (i * 2 + 1)) (i * 2 + 1)
                (by rw [heap_swap_heap_length]; omega)
                (by rw [heap_swap_heap_length]; omega) hwf' hE' hB' hP'
            refine ⟨hwfR, hordR, ?_, ?_, ?_, ?_, ?_, ?_⟩
            · exact fun x => (hmemR x).trans (heap_swap_mem s i (i * 2 + 1) hi hc1l x)
            · exact (heap_swap_same s i (i * 2 + 1)).trans hsameR
            · rw [hlenR, heap_swap_heap_length]
            · intro hipos
              rw [htopR (by omega), nth_heap_swap s i (i * 2 + 1) 0 hi hc1l,
                if_neg (by omega), if_neg (by omega)]
            · intro h0
              refine Or.inr ⟨by omega, ?_, ?_⟩
              · rw [htopR (by omega), nth_heap_swap s i (i * 2 + 1) 0 hi hc1l,
                  if_neg (by omega), if_pos h0.symm, show i * 2 + 1 = 1 from by omega]
              · have h' := hct
                rw [show i * 2 + 1 = 1 from by omega, h0] at h'
                exact h'
            · intro tid htid
              have htid' : tid ∉ (heap_swap s i (i * 2 + 1)).heap := fun hm =>
                htid ((heap_swap_mem s i (i * 2 + 1) hi hc1l tid).mp hm)
              rw [houtR tid htid', heap_swap_index_out s i (i * 2 + 1) hi hc1l tid htid]
          · rw [if_neg hct]
            refine ⟨hwf, ?_, fun x => Iff.rfl, SameTimers.refl s, rfl, fun _ => rfl,
              fun _ => Or.inl rfl, fun tid _ => rfl⟩
            intro j hj0 hjlen
            by_cases hji : j = i
            · rw [hji]
              exact hP (hji ▸ hj0)
            · by_cases hpj : j / 2 = i
              · by_cases hj1 : j = i * 2 + 1
                · rw [hpj, hj1]
                  exact not_lt.mp hct
                · have hj2 : j = i * 2 := by omega
                  rw [hpj, hj2]
                  exact le_trans (not_lt.mp hct) (le_of_lt hcc)
              · exact hE j hj0 hjlen hji hpj
        · rw [if_neg hcc]
          by_cases hct : key s (nth s.heap (i * 2)) < key s (nth s.heap i)
          · rw [if_pos hct]
            have hi0 : 0 < i := by
              rcases Nat.eq_zero_or_pos i with h0 | h
              · rw [h0] at hct
                simp at hct
              · exact h
            have hii : i ≠ i * 2 := by omega
            have hk_of : ∀ k, k ≠ i * 2 → k ≠ i →
                keyAt (heap_swap s i (i * 2)) k = keyAt s k := by
              intro k ha hb
              rw [keyAt_heap_swap s i (i * 2) k hi hcl, if_neg ha, if_neg hb]
            have hk_i : keyAt (heap_swap s i (i * 2)) i = keyAt s (i * 2) := by
              rw [keyAt_heap_swap s i (i * 2) i hi hcl, if_neg hii, if_pos rfl]
            have hk_c : keyAt (heap_swap s i (i * 2)) (i * 2) = keyAt s i := by
              rw [keyAt_heap_swap s i (i * 2) (i * 2) hi hcl, if_pos rfl]
            have hwf' := heap_swap_wf s i (i * 2) hi hcl hii hwf
            have hE' : EdgesExcept (heap_swap s i (i * 2)) (i * 2) := by
              intro j hj0 hjlen hjc hpjc
              rw [heap_swap_heap_length] at hjlen
              by_cases hji : j = i
              · rw [hji, hk_of (i / 2) (by omega) (by omega), hk_i]
                exact hB (i * 2) (by omega) hcl (by omega) hi0
              · by_cases hpji : j / 2 = i
                · have hj2 : j = i * 2 + 1 := by omega
                  rw [hpji, hk_i, hk_of j (by omega) hji, hj2]
                  exact not_lt.mp hcc
                · rw [hk_of j hjc hji, hk_of (j / 2) hpjc hpji]
                  exact hE j hj0 hjlen hji hpji
            have hB' : ChildBound (heap_swap s i (i * 2)) (i * 2) := by
              intro j hj0 hjlen hpj _
              rw [heap_swap_heap_length] at hjlen
              rw [show i * 2 / 2 = i from by omega, hk_i,
                hk_of j (by omega) (by omega)]
              have := hE j (by omega) hjlen (by omega) (by omega)
              rw [hpj] at this
              exact this
            have hP' : 0 < i * 2 →
                keyAt (heap_swap s i (i * 2)) (i * 2 / 2) ≤
                  keyAt (heap_swap s i (i * 2)) (i * 2) := by
              intro _
              rw [show i * 2 / 2 = i from by omega, hk_i, hk_c]
              exact le_of_lt hct
            obtain ⟨hwfR, hordR, hmemR, hsameR, hlenR, htopR, _, houtR⟩ :=
              ih (heap_swap s i (i * 2)) (i * 2)
                (by rw [heap_swap_heap_length]; omega)
                (by rw [heap_swap_heap_length]; omega) hwf' hE' hB' hP'
            refine ⟨hwfR, hordR, ?_, ?_, ?_, ?_, ?_, ?_⟩
            · exact fun x => (hmemR x).trans (heap_swap_mem s i (i * 2) hi hcl x)
            · exact (heap_swap_same s i (i * 2)).trans hsameR
            · rw [hlenR, heap_swap_heap_length]
            · intro hipos
              rw [htopR (by omega), nth_heap_swap s i (i * 2) 0 hi hcl,
                if_neg (by omega), if_neg (by omega)]
            · intro h0
              exact absurd h0 (by omega)
            · intro tid htid
              have htid' : tid ∉ (heap_swap s i (i * 2)).heap := fun hm =>
                htid ((heap_swap_mem s i (i * 2) hi hcl tid).mp hm)
              rw [houtR tid htid', heap_swap_index_out s i (i * 2) hi hcl tid htid]
          · rw [if_neg hct]
            refine ⟨hwf, ?_, fun x => Iff.rfl, SameTimers.refl s, rfl, fun _ => rfl,
              fun _ => Or.inl rfl, fun tid _ => rfl⟩
            intro j hj0 hjlen
            by_cases hji : j = i
            · rw [hji]
              exact hP (hji ▸ hj0)
            · by_cases hpj : j / 2 = i
              · by_cases hj1 : j = i * 2
                · rw [hpj, hj1]
                  exact not_lt.mp hct
                · have hj2 : j = i * 2 + 1 := by omega
                  rw [hpj, hj2]
                  exact le_trans (not_lt.mp hct) (not_lt.mp hcc)
              · exact hE j hj0 hjlen hji hpj

theorem heap_adjust_ok (s : Timerset) (i : Nat) (hi : i < s.heap.length)
    (hwf : HeapWF s) (hE : EdgesExcept s i) (hB : ChildBound s i) :
    HeapWF (heap_adjust s i).1
    ∧ HeapOrd (heap_adjust s i).1
    ∧ (∀ x, x ∈ (heap_adjust s i).1.heap ↔ x ∈ s.heap)
    ∧ SameTimers s (heap_adjust s i).1
    ∧ (heap_adjust s i).1.heap.length = s.heap.length
    ∧ ((heap_adjust s i).2 = true → keyAt (heap_adjust s i).1 0 < keyAt s 0)
    ∧ ((heap_adjust s i).2 = false → nth (heap_adjust s i).1.heap 0 = nth s.heap 0
        ∨ (i = 0 ∧ 1 < s.heap.length ∧ nth (heap_adjust s i).1.heap 0 = nth s.heap 1
            ∧ keyAt s 1 < keyAt s 0))
    ∧ (∀ tid, tid ∉ s.heap →
        ((heap_adjust s i).1.timers tid).index = (s.timers tid).index) := by
  by_cases hcond : key s (nth s.heap i) < key s (nth s.heap (i / 2))
  · have hi0 : i ≠ 0 := by
      intro h0
      rw [h0] at hcond
      simp at hcond
    have hG : ChildGe s i := by
      intro j hj0 hjlen hpj
      exact le_trans (le_of_lt hcond) (hB j hj0 hjlen hpj (by omega))
    obtain ⟨hwfR, hordR, hmemR, hsameR, hlenR, _, hnthR, htopR, hzeroR, houtR⟩ :=
      sift_up_ok i s hi hwf hE hB hG
    rw [heap_adjust, if_pos hcond]
    refine ⟨hwfR, hordR, hmemR, hsameR, hlenR, ?_, ?_, houtR⟩
    · intro ht
      have h0 : (sift_up s i).2 = 0 := of_decide_eq_true ht
      have htop : nth (sift_up s i).1.heap 0 = nth s.heap i := by
        rw [← h0]
        exact hnthR
      show key (sift_up s i).1 (nth (sift_up s i).1.heap 0) < keyAt s 0
      rw [htop, hsameR.key_eq]
      rcases hzeroR h0 with hgone | hlt
      · exact absurd hgone hi0
      · exact hlt
    · intro hf
      have h0 : (sift_up s i).2 ≠ 0 := of_decide_eq_false hf
      exact Or.inl (htopR h0)
  · obtain ⟨hwfR, hordR, hmemR, hsameR, hlenR, htopR, hzeroR, houtR⟩ :=
      sift_down_ok s.heap.length s i (by omega) hi hwf hE hB
        (fun _ => not_lt.mp hcond)
    rw [heap_adjust, if_neg hcond]
    refine ⟨hwfR, hordR, hmemR, hsameR, hlenR, ?_, ?_, houtR⟩
    · intro ht
      simp at ht
    · intro _
      by_cases h0 : i = 0
      · rcases hzeroR h0 with ha | ⟨hl1, hb, hk⟩
        · exact Or.inl ha
        · exact Or.inr ⟨h0, hl1, hb, hk⟩
      · exact Or.inl (htopR (by omega))

theorem heapOrd_min (s : Timerset) (h : HeapOrd s) :
    ∀ j, j < s.heap.length → keyAt s 0 ≤ keyAt s j := by
  intro j
  induction j using Nat.strong_induction_on with
  | _ j ih =>
    intro hj
    rcases Nat.eq_zero_or_pos j with h0 | hpos
    · rw [h0]
    · exact le_trans (ih (j / 2) (by omega) (by omega)) (h j hpos hj)

theorem keyAt_setIdx (s : Timerset) (tid : TimerId) (n : Int) (k : Nat) :
    keyAt (setIdx s tid n) k = keyAt s k :=
  (setIdx_same s tid n).key_eq (nth s.heap k)

theorem sameTimers_setHeap (s : Timerset) (h : List TimerId) :
    SameTimers s { s with heap := h } :=
  ⟨fun _ => ⟨rfl, rfl, rfl⟩, rfl, rfl, rfl⟩

theorem mem_take_last (l : List TimerId) (hnd : l.Nodup) (x : TimerId) :
    x ∈ l.take (l.length - 1) ↔ (x ∈ l ∧ x ≠ nth l (l.length - 1)) := by
  constructor
  · intro hx
    obtain ⟨k, hk, hke⟩ := (mem_iff_nth _ _).mp hx
    rw [List.length_take] at hk
    have hkl : k < l.length - 1 := by omega
    rw [nth_take l hkl] at hke
    refine ⟨hke ▸ nth_mem l (by omega), ?_⟩
    intro hxe
    rw [← hke] at hxe
    have := nth_inj hnd (by omega) (by omega) hxe
    omega
  · rintro ⟨hx, hxe⟩
    obtain ⟨q, hq, hqe⟩ := (mem_iff_nth _ _).mp hx
    have hql : q < l.length - 1 := by
      rcases Nat.lt_or_ge q (l.length - 1) with h | h
      · exact h
      · exfalso
        apply hxe
        rw [← hqe, show q = l.length - 1 from by omega]
    refine (mem_iff_nth _ _).mpr ⟨q, ?_, ?_⟩
    · rw [List.length_take]
      omega
    · rw [nth_take l hql]
      exact hqe

theorem mem_take_swap (s : Timerset) (i : Nat) (hi : i < s.heap.length)
    (hnd : s.heap.Nodup) (hil : i ≠ s.heap.length - 1) (x : TimerId) :
    x ∈ (heap_swap s i (s.heap.length - 1)).heap.take (s.heap.length - 1)
      ↔ (x ∈ s.heap ∧ x ≠ nth s.heap i) := by
  have hlast : s.heap.length - 1 < s.heap.length := by omega
  constructor
  · intro hx
    obtain ⟨k, hk, hke⟩ := (mem_iff_nth _ _).mp hx
    rw [List.length_take, heap_swap_heap_length] at hk
    have hkl : k < s.heap.length - 1 := by omega
    rw [nth_take _ hkl, nth_heap_swap s i (s.heap.length - 1) k hi hlast] at hke
    rw [if_neg (by omega)] at hke
    by_cases hki : k = i
    · rw [if_pos hki] at hke
      refine ⟨hke ▸ nth_mem s.heap hlast, ?_⟩
      intro he
      rw [← hke] at he
      have := nth_inj hnd hlast hi he
      omega
    · rw [if_neg hki] at hke
      refine ⟨hke ▸ nth_mem s.heap (by omega), ?_⟩
      intro he
      rw [← hke] at he
      have := nth_inj hnd (by omega) hi he
      omega
  · rintro ⟨hx, hxe⟩
    obtain ⟨q, hq, hqe⟩ := (mem_iff_nth _ _).mp hx
    have hqi : q ≠ i := fun h => hxe (by rw [← hqe, h])
    by_cases hqL : q = s.heap.length - 1
    · refine (mem_iff_nth _ _).mpr ⟨i, ?_, ?_⟩
      · rw [List.length_take, heap_swap_heap_length]
        omega
      · rw [nth_take _ (by omega), nth_heap_swap s i (s.heap.length - 1) i hi hlast,
          if_neg hil, if_pos rfl, ← hqL, hqe]
    · refine (mem_iff_nth _ _).mpr ⟨q, ?_, ?_⟩
      · rw [List.length_take, heap_swap_heap_length]
        omega
      · rw [nth_take _ (by omega), nth_heap_swap s i (s.heap.length - 1) q hi hlast,
          if_neg hqL, if_neg hqi, hqe]

theorem setElapses_apply (s : Timerset) (tid : TimerId) (v : Int) (x : TimerId) :
    (setElapses s tid v).timers x =
      if x = tid then { s.timers tid with elapses := v } else s.timers x := by
  by_cases hx : x = tid <;> simp [setElapses, upd_apply, hx]

theorem setEvent_apply (s : Timerset) (tid : TimerId) (e : Option EventId) (x : TimerId) :
    (setEvent s tid e).timers x =
      if x = tid then { s.timers tid with event := e } else s.timers x := by
  by_cases hx : x = tid <;> simp [setEvent, upd_apply, hx]

theorem setElapsedEvent_apply (s : Timerset) (tid : TimerId) (e : Option EventId)
    (x : TimerId) :
    (setElapsedEvent s tid e).timers x =
      if x = tid then { s.timers tid with elapsed_event := e } else s.timers x := by
  by_cases hx : x = tid <;> simp [setElapsedEvent, upd_apply, hx]

theorem wap_event_destroy_timers (s : Timerset) (e : Option EventId) :
    (wap_event_destroy s e).timers = s.timers := by
  cases e <;> rfl

theorem wap_event_destroy_heap (s : Timerset) (e : Option EventId) :
    (wap_event_destroy s e).heap = s.heap := by
  cases e <;> rfl

theorem abort_elapsed_heap (s : Timerset) (tid : TimerId) :
    (abort_elapsed s tid).heap = s.heap := by
  unfold abort_elapsed
  cases hc : (s.timers tid).elapsed_event with
  | none => rfl
  | some e =>
    by_cases h0 : 0 < s.output.count e <;>
      simp [setElapsedEvent, wap_event_destroy, h0]

theorem abort_elapsed_index (s : Timerset) (tid x : TimerId) :
    ((abort_elapsed s tid).timers x).index = (s.timers x).index := by
  unfold abort_elapsed
  cases hc : (s.timers tid).elapsed_event with
  | none => rfl
  | some e =>
    by_cases h0 : 0 < s.output.count e <;> by_cases hx : x = tid <;>
      simp [setElapsedEvent, wap_event_destroy, upd_apply, h0, hx]

theorem abort_elapsed_elapses (s : Timerset) (tid x : TimerId) :
    ((abort_elapsed s tid).timers x).elapses = (s.timers x).elapses := by
  unfold abort_elapsed
  cases hc : (s.timers tid).elapsed_event with
  | none => rfl
  | some e =>
    by_cases h0 : 0 < s.output.count e <;> by_cases hx : x = tid <;>
      simp [setElapsedEvent, wap_event_destroy, upd_apply, h0, hx]

theorem abort_elapsed_event (s : Timerset) (tid x : TimerId) :
    ((abort_elapsed s tid).timers x).event = (s.timers x).event := by
  unfold abort_elapsed
  cases hc : (s.timers tid).elapsed_event with
  | none => rfl
  | some e =>
    by_cases h0 : 0 < s.output.count e <;> by_cases hx : x = tid <;>
      simp [setElapsedEvent, wap_event_destroy, upd_apply, h0, hx]

theorem abort_elapsed_elapsed_event (s : Timerset) (tid x : TimerId) :
    ((abort_elapsed s tid).timers x).elapsed_event =
      if x = tid then none else (s.timers x).elapsed_event := by
  unfold abort_elapsed
  cases hc : (s.timers tid).elapsed_event with
  | none =>
    by_cases hx : x = tid
    · rw [if_pos hx, hx, hc]
    · rw [if_neg hx]
  | some e =>
    by_cases h0 : 0 < s.output.count e <;> by_cases hx : x = tid <;>
      simp [setElapsedEvent, wap_event_destroy, upd_apply, h0, hx]

theorem insert_adjust_ok (s s2 : Timerset) (tid : TimerId)
    (hwf : HeapWF s) (hord : HeapOrd s) (htid : tid ∉ s.heap)
    (hheap2 : s2.heap = s.heap ++ [tid])
    (hsame2 : SameTimers s s2)
    (hidx2 : ∀ x, (s2.timers x).index =
      if x = tid then (s.heap.length : Int) else (s.timers x).index) :
    HeapWF (heap_adjust s2 (s2.heap.length - 1)).1
    ∧ HeapOrd (heap_adjust s2 (s2.heap.length - 1)).1
    ∧ (∀ x, x ∈ (heap_adjust s2 (s2.heap.length - 1)).1.heap ↔ x ∈ s.heap ∨ x = tid)
    ∧ SameTimers s (heap_adjust s2 (s2.heap.length - 1)).1
    ∧ (heap_adjust s2 (s2.heap.length - 1)).1.heap.length = s.heap.length + 1
    ∧ (∀ x, x ∉ s.heap → x ≠ tid →
        ((heap_adjust s2 (s2.heap.length - 1)).1.timers x).index = (s.timers x).index)
    ∧ (s.heap = [] → nth (heap_adjust s2 (s2.heap.length - 1)).1.heap 0 = tid)
    ∧ (0 < s.heap.length →
        (nth (heap_adjust s2 (s2.heap.length - 1)).1.heap 0 = tid ↔
          key s tid < keyAt s 0)) := by
  have hlen2 : s2.heap.length = s.heap.length + 1 := by
    rw [hheap2]
    simp
  rw [show s2.heap.length - 1 = s.heap.length from by omega]
  have hnd1 : s2.heap.Nodup := by
    rw [hheap2]
    refine hwf.nodup.append (List.nodup_singleton tid) ?_
    intro a ha hb
    rw [List.mem_singleton] at hb
    rw [hb] at ha
    exact htid ha
  have hnth2 : ∀ k, k < s.heap.length → nth s2.heap k = nth s.heap k := by
    intro k hk
    rw [hheap2]
    exact nth_append_left _ _ hk
  have hnthL : nth s2.heap s.heap.length = tid := by
    rw [hheap2]
    exact nth_append_last _ _
  have hkeyAt2 : ∀ k, k < s.heap.length → keyAt s2 k = keyAt s k := by
    intro k hk
    show key s2 (nth s2.heap k) = key s (nth s.heap k)
    rw [hnth2 k hk, hsame2.key_eq]
  have hwf2 : HeapWF s2 := by
    constructor
    · exact hnd1
    · intro k hk
      rw [hlen2] at hk
      by_cases hkL : k = s.heap.length
      · rw [hkL, hnthL, hidx2, if_pos rfl]
      · have hklt : k < s.heap.length := by omega
        rw [hnth2 k hklt, hidx2, if_neg (show nth s.heap k ≠ tid from
          fun h => htid (h ▸ nth_mem s.heap hklt))]
        exact hwf.idxOk k hklt
  have hE2 : EdgesExcept s2 s.heap.length := by
    intro j hj0 hjlen hjL hpjL
    rw [hlen2] at hjlen
    rw [hkeyAt2 j (by omega), hkeyAt2 (j / 2) (by omega)]
    exact hord j hj0 (by omega)
  have hB2 : ChildBound s2 s.heap.length := by
    intro j hj0 hjlen hpj hLpos
    rw [hlen2] at hjlen
    exact (by omega : False).elim
  obtain ⟨hwfR, hordR, hmemR, hsameR, hlenR, hwkT, hwkF, houtR⟩ :=
    heap_adjust_ok s2 s.heap.length (by omega) hwf2 hE2 hB2
  have hmem : ∀ x, x ∈ (heap_adjust s2 s.heap.length).1.heap ↔ x ∈ s.heap ∨ x = tid := by
    intro x
    rw [hmemR x, hheap2]
    simp
  have hsame : SameTimers s (heap_adjust s2 s.heap.length).1 := hsame2.trans hsameR
  refine ⟨hwfR, hordR, hmem, hsame, ?_, ?_, ?_, ?_⟩
  · rw [hlenR, hlen2]
  · intro x hx hxt
    have hx2 : x ∉ s2.heap := by
      rw [hheap2]
      simp [hx, hxt]
    rw [houtR x hx2, hidx2, if_neg hxt]
  · intro hemp
    have hL0 : s.heap.length = 0 := by rw [hemp]; rfl
    have hmemt : tid ∈ (heap_adjust s2 s.heap.length).1.heap := (hmem tid).mpr (Or.inr rfl)
    obtain ⟨p, hp, hpe⟩ := (mem_iff_nth _ _).mp hmemt
    rw [hlenR, hlen2] at hp
    have hp0 : p = 0 := by omega
    rw [hp0] at hpe
    exact hpe
  · intro hLpos
    constructor
    · intro htop
      cases hb : (heap_adjust s2 s.heap.length).2 with
      | true =>
        have hlt := hwkT hb
        have h1 : keyAt (heap_adjust s2 s.heap.length).1 0 = key s tid := by
          show key (heap_adjust s2 s.heap.length).1
            (nth (heap_adjust s2 s.heap.length).1.heap 0) = key s tid
          rw [htop, hsame.key_eq]
        rw [h1, hkeyAt2 0 hLpos] at hlt
        exact hlt
      | false =>
        rcases hwkF hb with ha | ⟨hL0, _, _, _⟩
        · rw [htop, hnth2 0 hLpos] at ha
          exact absurd (ha ▸ nth_mem s.heap hLpos) htid
        · exact absurd hL0 (by omega)
    · intro hklt
      have hx : nth (heap_adjust s2 s.heap.length).1.heap 0 ∈
          (heap_adjust s2 s.heap.length).1.heap := by
        apply nth_mem
        rw [hlenR, hlen2]
        omega
      rcases (hmem _).mp hx with hold | hnew
      · exfalso
        obtain ⟨q, hq, hqe⟩ := (mem_iff_nth _ _).mp hold
        obtain ⟨p, hp, hpe⟩ := (mem_iff_nth _ _).mp ((hmem tid).mpr (Or.inr rfl))
        have h1 : keyAt (heap_adjust s2 s.heap.length).1 0 ≤ key s tid := by
          have := heapOrd_min _ hordR p hp
          rw [show keyAt (heap_adjust s2 s.heap.length).1 p = key s tid from by
            show key (heap_adjust s2 s.heap.length).1
              (nth (heap_adjust s2 s.heap.length).1.heap p) = key s tid
            rw [hpe, hsame.key_eq]] at this
          exact this
        have h2 : keyAt (heap_adjust s2 s.heap.length).1 0 =
            key s (nth s.heap q) := by
          show key (heap_adjust s2 s.heap.length).1
            (nth (heap_adjust s2 s.heap.length).1.heap 0) = key s (nth s.heap q)
          rw [hsame.key_eq, hqe]
        have h3 : keyAt s 0 ≤ keyAt s q := heapOrd_min s hord q hq
        show False
        have h4 : keyAt s q = key s (nth s.heap q) := rfl
        omega
      · exact hnew

theorem heap_insert_ok (s : Timerset) (tid : TimerId) (hwf : HeapWF s)
    (hord : HeapOrd s) (htid : tid ∉ s.heap) :
    HeapWF (heap_insert s tid)
    ∧ HeapOrd (heap_insert s tid)
    ∧ (∀ x, x ∈ (heap_insert s tid).heap ↔ x ∈ s.heap ∨ x = tid)
    ∧ SameTimers s (heap_insert s tid)
    ∧ (heap_insert s tid).heap.length = s.heap.length + 1
    ∧ (∀ x, x ∉ s.heap → x ≠ tid →
        ((heap_insert s tid).timers x).index = (s.timers x).index)
    ∧ (s.heap = [] → nth (heap_insert s tid).heap 0 = tid)
    ∧ (0 < s.heap.length →
        (nth (heap_insert s tid).heap 0 = tid ↔ key s tid < keyAt s 0)) := by
  refine insert_adjust_ok s
    (setIdx { s with heap := s.heap ++ [tid] } tid
      ((({ s with heap := s.heap ++ [tid] } : Timerset).heap.length : Int) - 1))
    tid hwf hord htid rfl ?_ ?_
  · exact (sameTimers_setHeap s (s.heap ++ [tid])).trans (setIdx_same _ _ _)
  · intro x
    rw [setIdx_index]
    by_cases hx : x = tid
    · rw [if_pos hx, if_pos hx]
      show ((s.heap ++ [tid]).length : Int) - 1 = (s.heap.length : Int)
      simp
    · rw [if_neg hx, if_neg hx]

theorem delete_adjust_ok (s s2 : Timerset) (i : Nat) (hi : i < s.heap.length)
    (hil : i ≠ s.heap.length - 1)
    (hwf : HeapWF s) (hE : EdgesExcept s i) (hB : ChildBound s i)
    (hheap2 : s2.heap =
      (heap_swap s i (s.heap.length - 1)).heap.take (s.heap.length - 1))
    (htimers2 : s2.timers = (heap_swap s i (s.heap.length - 1)).timers)
    (hsame2 : SameTimers s s2) :
    HeapWF (setIdx (heap_adjust s2 i).1 (nth s.heap i) (-1))
    ∧ HeapOrd (setIdx (heap_adjust s2 i).1 (nth s.heap i) (-1))
    ∧ (∀ x, x ∈ (setIdx (heap_adjust s2 i).1 (nth s.heap i) (-1)).heap ↔
        x ∈ s.heap ∧ x ≠ nth s.heap i)
    ∧ SameTimers s (setIdx (heap_adjust s2 i).1 (nth s.heap i) (-1))
    ∧ (setIdx (heap_adjust s2 i).1 (nth s.heap i) (-1)).heap.length = s.heap.length - 1
    ∧ ((setIdx (heap_adjust s2 i).1 (nth s.heap i) (-1)).timers (nth s.heap i)).index = -1
    ∧ (∀ x, x ∉ s.heap →
        ((setIdx (heap_adjust s2 i).1 (nth s.heap i) (-1)).timers x).index =
          (s.timers x).index) := by
  have hlast : s.heap.length - 1 < s.heap.length := by omega
  have hiL : i < s.heap.length - 1 := by omega
  have hwf1 : HeapWF (heap_swap s i (s.heap.length - 1)) :=
    heap_swap_wf s i (s.heap.length - 1) hi hlast hil hwf
  have hlen1 := heap_swap_heap_length s i (s.heap.length - 1)
  have hlen2 : s2.heap.length = s.heap.length - 1 := by
    rw [hheap2, List.length_take, hlen1]
    omega
  have hnth2 : ∀ k, k < s.heap.length - 1 →
      nth s2.heap k = nth (heap_swap s i (s.heap.length - 1)).heap k := by
    intro k hk
    rw [hheap2]
    exact nth_take _ hk
  have hnthk : ∀ k, k < s.heap.length - 1 → k ≠ i → nth s2.heap k = nth s.heap k := by
    intro k hk hki
    rw [hnth2 k hk, nth_heap_swap s i (s.heap.length - 1) k hi hlast,
      if_neg (by omega), if_neg hki]
  have hwf2 : HeapWF s2 := by
    constructor
    · rw [hheap2]
      exact hwf1.nodup.sublist (List.take_sublist _ _)
    · intro k hk
      rw [hlen2] at hk
      rw [hnth2 k hk, htimers2]
      exact hwf1.idxOk k (by rw [hlen1]; omega)
  have hkeyAt2 : ∀ k, k < s.heap.length - 1 → k ≠ i → keyAt s2 k = keyAt s k := by
    intro k hk hki
    show key s2 (nth s2.heap k) = key s (nth s.heap k)
    rw [hnthk k hk hki, hsame2.key_eq]
  have hE2 : EdgesExcept s2 i := by
    intro j hj0 hjlen hji hpji
    rw [hlen2] at hjlen
    rw [hkeyAt2 j hjlen hji, hkeyAt2 (j / 2) (by omega) hpji]
    exact hE j hj0 (by omega) hji hpji
  have hB2 : ChildBound s2 i := by
    intro j hj0 hjlen hpj hipos
    rw [hlen2] at hjlen
    rw [hkeyAt2 j hjlen (by omega), hkeyAt2 (i / 2) (by omega) (by omega)]
    exact hB j hj0 (by omega) hpj hipos
  obtain ⟨hwfR, hordR, hmemR, hsameR, hlenR, _, _, houtR⟩ :=
    heap_adjust_ok s2 i (by omega) hwf2 hE2 hB2
  have hmem : ∀ x, x ∈ (heap_adjust s2 i).1.heap ↔ (x ∈ s.heap ∧ x ≠ nth s.heap i) := by
    intro x
    rw [hmemR x, hheap2]
    exact mem_take_swap s i hi hwf.nodup hil x
  have htnot : nth s.heap i ∉ (heap_adjust s2 i).1.heap := fun hmm =>
    ((hmem _).mp hmm).2 rfl
  refine ⟨?_, ?_, ?_, ?_, ?_, ?_, ?_⟩
  · constructor
    · exact hwfR.nodup
    · intro k hk
      have hk' : k < (heap_adjust s2 i).1.heap.length := hk
      have hne : nth (heap_adjust s2 i).1.heap k ≠ nth s.heap i := by
        intro h
        apply htnot
        rw [← h]
        exact nth_mem _ hk'
      show ((setIdx (heap_adjust s2 i).1 (nth s.heap i) (-1)).timers
        (nth (heap_adjust s2 i).1.heap k)).index = (k : Int)
      rw [setIdx_index, if_neg hne]
      exact hwfR.idxOk k hk'
  · intro j hj0 hjlen
    rw [keyAt_setIdx, keyAt_setIdx]
    exact hordR j hj0 hjlen
  · intro x
    show x ∈ (heap_adjust s2 i).1.heap ↔ _
    exact hmem x
  · exact (hsame2.trans hsameR).trans (setIdx_same _ _ _)
  · show (heap_adjust s2 i).1.heap.length = s.heap.length - 1
    rw [hlenR, hlen2]
  · rw [setIdx_index, if_pos rfl]
  · intro x hx
    have hx2 : x ∉ s2.heap := by
      intro hmm
      exact hx ((hmem x).mp ((hmemR x).mpr hmm)).1
    rw [setIdx_index, if_neg (show x ≠ nth s.heap i from
      fun h => hx (by rw [h]; exact nth_mem s.heap hi))]
    rw [houtR x hx2, htimers2,
      heap_swap_index_out s i (s.heap.length - 1) hi hlast x hx]

theorem heap_delete_ok (s : Timerset) (i : Nat) (hi : i < s.heap.length)
    (hwf : HeapWF s) (hE : EdgesExcept s i) (hB : ChildBound s i) :
    HeapWF (heap_delete s i)
    ∧ HeapOrd (heap_delete s i)
    ∧ (∀ x, x ∈ (heap_delete s i).heap ↔ x ∈ s.heap ∧ x ≠ nth s.heap i)
    ∧ SameTimers s (heap_delete s i)
    ∧ (heap_delete s i).heap.length = s.heap.length - 1
    ∧ ((heap_delete s i).timers (nth s.heap i)).index = -1
    ∧ (∀ x, x ∉ s.heap →
        ((heap_delete s i).timers x).index = (s.timers x).index) := by
  unfold heap_delete
  dsimp only
  by_cases hil : i = s.heap.length - 1
  · rw [if_pos hil]
    have hmem2 : ∀ x, x ∈ s.heap.take (s.heap.length - 1) ↔
        (x ∈ s.heap ∧ x ≠ nth s.heap i) := by
      intro x
      rw [hil]
      exact mem_take_last s.heap hwf.nodup x
    refine ⟨?_, ?_, ?_, ?_, ?_, ?_, ?_⟩
    · constructor
      · exact hwf.nodup.sublist (List.take_sublist _ _)
      · intro k hk
        have hk' : k < s.heap.length - 1 := by
          simp [setIdx, List.length_take] at hk
          omega
        show ((setIdx { s with heap := s.heap.take (s.heap.length - 1) }
          (nth s.heap i) (-1)).timers (nth (s.heap.take (s.heap.length - 1)) k)).index
          = (k : Int)
        rw [nth_take s.heap hk', setIdx_index,
          if_neg (show nth s.heap k ≠ nth s.heap i from
            fun h => absurd (nth_inj hwf.nodup (by omega) hi h) (by omega))]
        exact hwf.idxOk k (by omega)
    · intro j hj0 hjlen
      have hjl : j < s.heap.length - 1 := by
        simp [setIdx, List.length_take] at hjlen
        omega
      rw [keyAt_setIdx, keyAt_setIdx]
      show key s (nth (s.heap.take (s.heap.length - 1)) (j / 2)) ≤
        key s (nth (s.heap.take (s.heap.length - 1)) j)
      rw [nth_take s.heap hjl, nth_take s.heap (by omega)]
      exact hE j hj0 (by omega) (by omega) (by omega)
    · intro x
      exact hmem2 x
    · exact (sameTimers_setHeap s _).trans (setIdx_same _ _ _)
    · show (s.heap.take (s.heap.length - 1)).length = s.heap.length - 1
      rw [List.length_take]
      omega
    · rw [setIdx_index, if_pos rfl]
    · intro x hx
      rw [setIdx_index, if_neg (show x ≠ nth s.heap i from
        fun h => hx (by rw [h]; exact nth_mem s.heap hi))]
  · rw [if_neg hil]
    exact delete_adjust_ok s
      { heap_swap s i (s.heap.length - 1) with
        heap := (heap_swap s i (s.heap.length - 1)).heap.take (s.heap.length - 1) }
      i hi hil hwf hE hB rfl rfl
      ((heap_swap_same s i (s.heap.length - 1)).trans (sameTimers_setHeap _ _))

/-- The at-rest invariant of a timer set (timers.c lines 40-58): heap slots
are distinct, in-heap timers carry their slot in `index` and a positive
`elapses` and no outstanding elapse payload, out-of-heap timers carry
`index = -1` and `elapses = -1`, and the parent partial order holds. -/
structure SetInv (s : Timerset) : Prop where
  nodup : s.heap.Nodup
  idxOk : ∀ i, i < s.heap.length → (s.timers (nth s.heap i)).index = (i : Int)
  idxNeg : ∀ tid, tid ∉ s.heap → (s.timers tid).index = -1
  elapsesPos : ∀ tid, tid ∈ s.heap → 0 < (s.timers tid).elapses
  elapsesNeg : ∀ tid, tid ∉ s.heap → (s.timers tid).elapses = -1
  elapsedNone : ∀ tid, tid ∈ s.heap → (s.timers tid).elapsed_event = none
  order : HeapOrd s

theorem SetInv.toWF {s : Timerset} (h : SetInv s) : HeapWF s := ⟨h.nodup, h.idxOk⟩

theorem SetInv.mem_iff_idx {s : Timerset} (h : SetInv s) (tid : TimerId) :
    tid ∈ s.heap ↔ 0 ≤ (s.timers tid).index := by
  constructor
  · intro hm
    obtain ⟨p, hp, hpe⟩ := (mem_iff_nth _ _).mp hm
    rw [← hpe, h.idxOk p hp]
    omega
  · intro hge
    by_contra hn
    rw [h.idxNeg tid hn] at hge
    omega

theorem SetInv.mem_iff_elapses {s : Timerset} (h : SetInv s) (tid : TimerId) :
    tid ∈ s.heap ↔ 0 ≤ (s.timers tid).elapses := by
  constructor
  · intro hm
    have := h.elapsesPos tid hm
    omega
  · intro hge
    by_contra hn
    rw [h.elapsesNeg tid hn] at hge
    omega

theorem timerset_create_inv (outputlist : List EventId) :
    SetInv (timerset_create outputlist) := by
  refine ⟨List.nodup_nil, ?_, ?_, ?_, ?_, ?_, ?_⟩
  · intro i hi
    exact absurd hi (by simp [timerset_create])
  · intro tid _
    rfl
  · intro tid htid
    exact absurd htid (by simp [timerset_create])
  · intro tid _
    rfl
  · intro tid htid
    exact absurd htid (by simp [timerset_create])
  · intro j _ hj
    exact absurd hj (by simp [timerset_create])

theorem timer_create_heap (s : Timerset) (tid : TimerId) :
    (timer_create s tid).heap = s.heap := rfl

theorem timer_create_apply (s : Timerset) (tid x : TimerId) :
    (timer_create s tid).timers x =
      if x = tid then { elapses := -1, event := none, elapsed_event := none, index := -1 }
      else s.timers x := by
  by_cases hx : x = tid <;> simp [timer_create, upd_apply, hx]

theorem timer_create_inv (s : Timerset) (tid : TimerId) (h : SetInv s)
    (htid : tid ∉ s.heap) : SetInv (timer_create s tid) := by
  have hne : ∀ x, x ∈ s.heap → x ≠ tid := fun x hx he => htid (he ▸ hx)
  refine ⟨h.nodup, ?_, ?_, ?_, ?_, ?_, ?_⟩
  · intro i hi
    rw [timer_create_heap] at hi ⊢
    rw [timer_create_apply, if_neg (hne _ (nth_mem s.heap hi))]
    exact h.idxOk i hi
  · intro x hx
    rw [timer_create_heap] at hx
    rw [timer_create_apply]
    by_cases hxt : x = tid
    · rw [if_pos hxt]
    · rw [if_neg hxt]
      exact h.idxNeg x hx
  · intro x hx
    rw [timer_create_heap] at hx
    rw [timer_create_apply, if_neg (hne x hx)]
    exact h.elapsesPos x hx
  · intro x hx
    rw [timer_create_heap] at hx
    rw [timer_create_apply]
    by_cases hxt : x = tid
    · rw [if_pos hxt]
    · rw [if_neg hxt]
      exact h.elapsesNeg x hx
  · intro x hx
    rw [timer_create_heap] at hx
    rw [timer_create_apply, if_neg (hne x hx)]
    exact h.elapsedNone x hx
  · intro j hj0 hjlen
    rw [timer_create_heap] at hjlen
    have e1 : keyAt (timer_create s tid) j = keyAt s j := by
      show ((timer_create s tid).timers (nth s.heap j)).elapses = keyAt s j
      rw [timer_create_apply, if_neg (hne _ (nth_mem s.heap hjlen))]
      rfl
    have e2 : keyAt (timer_create s tid) (j / 2) = keyAt s (j / 2) := by
      show ((timer_create s tid).timers (nth s.heap (j / 2))).elapses = keyAt s (j / 2)
      rw [timer_create_apply, if_neg (hne _ (nth_mem s.heap (by omega)))]
      rfl
    rw [e1, e2]
    exact h.order j hj0 hjlen

theorem elapse_timer_heap (s : Timerset) (tid : TimerId) :
    (elapse_timer s tid).heap = s.heap := by
  unfold elapse_timer
  cases hc : (s.timers tid).event <;>
    simp [wap_event_duplicate, setElapsedEvent, list_produce, setElapses, upd_apply]

theorem elapse_timer_index (s : Timerset) (tid x : TimerId) :
    ((elapse_timer s tid).timers x).index = (s.timers x).index := by
  unfold elapse_timer
  cases hc : (s.timers tid).event <;> by_cases hx : x = tid <;>
    simp [wap_event_duplicate, setElapsedEvent, list_produce, setElapses, upd_apply, hx]

theorem elapse_timer_elapses (s : Timerset) (tid x : TimerId) :
    ((elapse_timer s tid).timers x).elapses =
      if x = tid then -1 else (s.timers x).elapses := by
  unfold elapse_timer
  cases hc : (s.timers tid).event <;> by_cases hx : x = tid <;>
    simp [wap_event_duplicate, setElapsedEvent, list_produce, setElapses, upd_apply, hx]

theorem elapse_timer_event (s : Timerset) (tid x : TimerId) :
    ((elapse_timer s tid).timers x).event = (s.timers x).event := by
  unfold elapse_timer
  cases hc : (s.timers tid).event <;> by_cases hx : x = tid <;>
    simp [wap_event_duplicate, setElapsedEvent, list_produce, setElapses, upd_apply,
      hx, hc]

theorem elapse_timer_elapsed_event_ne (s : Timerset) (tid x : TimerId) (hx : x ≠ tid) :
    ((elapse_timer s tid).timers x).elapsed_event = (s.timers x).elapsed_event := by
  unfold elapse_timer
  cases hc : (s.timers tid).event <;>
    simp [wap_event_duplicate, setElapsedEvent, list_produce, setElapses, upd_apply, hx]

theorem setElapses_heap (s : Timerset) (tid : TimerId) (v : Int) :
    (setElapses s tid v).heap = s.heap := rfl

theorem setEvent_heap (s : Timerset) (tid : TimerId) (e : Option EventId) :
    (setEvent s tid e).heap = s.heap := rfl

theorem timer_start_props (s : Timerset) (tid : TimerId) (now iv : Int)
    (ev : Option EventId) (h : SetInv s) (hpos : 0 < iv + now) :
    SetInv (timer_start s tid now iv ev).1
    ∧ ((timer_start s tid now iv ev).1.timers tid).elapses = iv + now
    ∧ (∀ x, x ∈ (timer_start s tid now iv ev).1.heap ↔ x ∈ s.heap ∨ x = tid)
    ∧ ((timer_start s tid now iv ev).2 = true ↔
        (s.heap = [] ∨ keyAt (timer_start s tid now iv ev).1 0 < keyAt s 0))
    ∧ (0 < (s.timers tid).elapses →
        ((timer_start s tid now iv ev).1.timers tid).event =
          (match ev with | none => (s.timers tid).event | some e => some e)) := by
  unfold timer_start
  dsimp only
  by_cases hact : 0 < (s.timers tid).elapses
  · rw [if_pos hact]
    have htid : tid ∈ s.heap := (h.mem_iff_elapses tid).mpr (by omega)
    have hsne : s.heap ≠ [] := by
      intro hemp
      rw [hemp] at htid
      exact absurd htid (List.not_mem_nil tid)
    obtain ⟨p, hp, hpe⟩ := (mem_iff_nth _ _).mp htid
    have hidx : (s.timers tid).index = (p : Int) := by
      rw [← hpe]
      exact h.idxOk p hp
    have htn : (s.timers tid).index.toNat = p := by
      rw [hidx]
      simp
    rw [htn]
    have hheap1 : (setElapses s tid (iv + now)).heap = s.heap := rfl
    have hkey1 : ∀ x, key (setElapses s tid (iv + now)) x =
        if x = tid then iv + now else key s x := by
      intro x
      show ((setElapses s tid (iv + now)).timers x).elapses = _
      rw [setElapses_apply]
      by_cases hx : x = tid
      · rw [if_pos hx, if_pos hx]
      · rw [if_neg hx, if_neg hx]
        rfl
    have hidx1 : ∀ x, ((setElapses s tid (iv + now)).timers x).index =
        (s.timers x).index := by
      intro x
      rw [setElapses_apply]
      by_cases hx : x = tid
      · rw [if_pos hx, hx]
      · rw [if_neg hx]
    have hev1 : ∀ x, ((setElapses s tid (iv + now)).timers x).event =
        (s.timers x).event := by
      intro x
      rw [setElapses_apply]
      by_cases hx : x = tid
      · rw [if_pos hx, hx]
      · rw [if_neg hx]
    have hel1 : ∀ x, ((setElapses s tid (iv + now)).timers x).elapsed_event =
        (s.timers x).elapsed_event := by
      intro x
      rw [setElapses_apply]
      by_cases hx : x = tid
      · rw [if_pos hx, hx]
      · rw [if_neg hx]
    have hne : ∀ k, k < s.heap.length → k ≠ p → nth s.heap k ≠ tid := by
      intro k hk hkp he
      exact hkp (nth_inj h.nodup hk hp (he.trans hpe.symm))
    have hkeyAt1 : ∀ k, k < s.heap.length → k ≠ p →
        keyAt (setElapses s tid (iv + now)) k = keyAt s k := by
      intro k hk hkp
      show key (setElapses s tid (iv + now)) (nth s.heap k) = key s (nth s.heap k)
      rw [hkey1, if_neg (hne k hk hkp)]
    have hkeyAtp : keyAt (setElapses s tid (iv + now)) p = iv + now := by
      show key (setElapses s tid (iv + now)) (nth s.heap p) = _
      rw [hpe, hkey1, if_pos rfl]
    have hwf1 : HeapWF (setElapses s tid (iv + now)) := by
      constructor
      · exact h.nodup
      · intro k hk
        rw [hheap1] at hk
        show ((setElapses s tid (iv + now)).timers (nth s.heap k)).index = _
        rw [hidx1]
        exact h.idxOk k hk
    have hE1 : EdgesExcept (setElapses s tid (iv + now)) p := by
      intro j hj0 hjlen hjp hpjp
      rw [hheap1] at hjlen
      rw [hkeyAt1 j hjlen hjp, hkeyAt1 (j / 2) (by omega) hpjp]
      exact h.order j hj0 hjlen
    have hB1 : ChildBound (setElapses s tid (iv + now)) p := by
      intro j hj0 hjlen hpj hppos
      rw [hheap1] at hjlen
      rw [hkeyAt1 j hjlen (by omega), hkeyAt1 (p / 2) (by omega) (by omega)]
      have e1 : keyAt s (p / 2) ≤ keyAt s p := h.order p hppos hp
      have e2 : keyAt s (j / 2) ≤ keyAt s j := h.order j hj0 hjlen
      rw [hpj] at e2
      exact le_trans e1 e2
    obtain ⟨hwfR, hordR, hmemR, hsameR, hlenR, hwkT, hwkF, houtR⟩ :=
      heap_adjust_ok (setElapses s tid (iv + now)) p (by rw [hheap1]; exact hp)
        hwf1 hE1 hB1
    have hks0 : keyAt s 0 = key s (nth s.heap 0) := rfl
    have hwake :
        ((decide (iv + now < (s.timers tid).elapses)
            && decide ((s.timers tid).index = 0))
          || (heap_adjust (setElapses s tid (iv + now)) p).2) = true ↔
        (s.heap = [] ∨
          keyAt (heap_adjust (setElapses s tid (iv + now)) p).1 0 < keyAt s 0) := by
      by_cases hp0 : p = 0
      · subst hp0
        have hadj2 : (heap_adjust (setElapses s tid (iv + now)) 0).2 = false := by
          unfold heap_adjust
          rw [show ((0 : Nat) / 2) = 0 from by omega, if_neg (lt_irrefl _)]
        have hkstid : keyAt s 0 = (s.timers tid).elapses := by
          rw [hks0, hpe]
          rfl
        rcases hwkF hadj2 with htop | ⟨_, hl1, htop, hklt⟩
        · have hkr0 : keyAt (heap_adjust (setElapses s tid (iv + now)) 0).1 0 =
              iv + now := by
            show key (heap_adjust (setElapses s tid (iv + now)) 0).1
              (nth (heap_adjust (setElapses s tid (iv + now)) 0).1.heap 0) = _
            rw [htop, hsameR.key_eq]
            exact hkeyAtp
          simp only [hadj2, Bool.or_false, Bool.and_eq_true, decide_eq_true_eq,
            hidx, Nat.cast_zero, hkr0, hkstid]
          constructor
          · rintro ⟨h1, _⟩
            exact Or.inr h1
          · rintro (hemp | hlt)
            · exact absurd hemp hsne
            · exact ⟨hlt, trivial⟩
        · rw [hheap1] at hl1
          have hk1 : keyAt (setElapses s tid (iv + now)) 1 = keyAt s 1 :=
            hkeyAt1 1 hl1 (by omega)
          have hkr0 : keyAt (heap_adjust (setElapses s tid (iv + now)) 0).1 0 =
              keyAt s 1 := by
            show key (heap_adjust (setElapses s tid (iv + now)) 0).1
              (nth (heap_adjust (setElapses s tid (iv + now)) 0).1.heap 0) = _
            rw [htop, hsameR.key_eq]
            exact hk1
          have hord01 : keyAt s 0 ≤ keyAt s 1 := h.order 1 (by omega) hl1
          rw [hkeyAtp, hk1] at hklt
          simp only [hadj2, Bool.or_false, Bool.and_eq_true, decide_eq_true_eq,
            hidx, Nat.cast_zero, hkr0, hkstid]
          rw [hkstid] at hord01
          constructor
          · rintro ⟨h1, _⟩
            exact absurd h1 (by omega)
          · rintro (hemp | hlt)
            · exact absurd hemp hsne
            · exact absurd hlt (by omega)
      · have hk0 : keyAt (setElapses s tid (iv + now)) 0 = keyAt s 0 :=
          hkeyAt1 0 (by omega) (Ne.symm (by omega))
        simp only [Bool.or_eq_true, Bool.and_eq_true, decide_eq_true_eq, hidx]
        constructor
        · rintro (⟨_, hz⟩ | hr)
          · exact absurd hz (by
              intro hz'
              have : p = 0 := by omega
              exact hp0 this)
          · have := hwkT hr
            rw [hk0] at this
            exact Or.inr this
        · rintro (hemp | hlt)
          · exact absurd hemp hsne
          · right
            cases hb : (heap_adjust (setElapses s tid (iv + now)) p).2 with
            | true => rfl
            | false =>
              exfalso
              rcases hwkF hb with htop | ⟨hzero, _, _, _⟩
              · have hkr0 : keyAt (heap_adjust (setElapses s tid (iv + now)) p).1 0 =
                    keyAt s 0 := by
                  show key (heap_adjust (setElapses s tid (iv + now)) p).1
                    (nth (heap_adjust (setElapses s tid (iv + now)) p).1.heap 0) = _
                  rw [htop, hsameR.key_eq]
                  exact hk0
                rw [hkr0] at hlt
                exact absurd hlt (lt_irrefl _)
              · exact hp0 hzero
    have hSetInvR : SetInv (heap_adjust (setElapses s tid (iv + now)) p).1 := by
      refine ⟨hwfR.nodup, hwfR.idxOk, ?_, ?_, ?_, ?_, hordR⟩
      · intro x hx
        have hx1 : x ∉ s.heap := fun hm => hx ((hmemR x).mpr hm)
        rw [houtR x hx1, hidx1]
        exact h.idxNeg x hx1
      · intro x hx
        have hx1 : x ∈ s.heap := (hmemR x).mp hx
        rw [(hsameR.1 x).1, setElapses_apply]
        by_cases hxt : x = tid
        · rw [if_pos hxt]
          show 0 < iv + now
          exact hpos
        · rw [if_neg hxt]
          exact h.elapsesPos x hx1
      · intro x hx
        have hx1 : x ∉ s.heap := fun hm => hx ((hmemR x).mpr hm)
        have hxt : x ≠ tid := fun he => hx1 (he ▸ htid)
        rw [(hsameR.1 x).1, setElapses_apply, if_neg hxt]
        exact h.elapsesNeg x hx1
      · intro x hx
        have hx1 : x ∈ s.heap := (hmemR x).mp hx
        rw [(hsameR.1 x).2.2, hel1]
        exact h.elapsedNone x hx1
    have helR : ((heap_adjust (setElapses s tid (iv + now)) p).1.timers tid).elapses =
        iv + now := by
      rw [(hsameR.1 tid).1, setElapses_apply, if_pos rfl]
    have hmemR' : ∀ x, x ∈ (heap_adjust (setElapses s tid (iv + now)) p).1.heap ↔
        x ∈ s.heap ∨ x = tid := by
      intro x
      rw [hmemR x]
      constructor
      · exact Or.inl
      · rintro (hx | hx)
        · exact hx
        · exact hx ▸ htid
    cases ev with
    | none =>
      dsimp only
      refine ⟨hSetInvR, helR, hmemR', hwake, ?_⟩
      intro _
      rw [(hsameR.1 tid).2.1, hev1]
    | some e =>
      dsimp only
      have hheapEv : ∀ z : Option EventId,
          (setEvent (wap_event_destroy
            (heap_adjust (setElapses s tid (iv + now)) p).1 z) tid (some e)).heap =
          (heap_adjust (setElapses s tid (iv + now)) p).1.heap := by
        intro z
        rw [setEvent_heap, wap_event_destroy_heap]
      have htimEv : ∀ (z : Option EventId) (x : TimerId),
          ((setEvent (wap_event_destroy
            (heap_adjust (setElapses s tid (iv + now)) p).1 z) tid (some e)).timers x)
          = if x = tid
            then { (heap_adjust (setElapses s tid (iv + now)) p).1.timers tid with
              event := some e }
            else (heap_adjust (setElapses s tid (iv + now)) p).1.timers x := by
        intro z x
        rw [setEvent_apply, wap_event_destroy_timers]
      have hfieldsEv : ∀ (z : Option EventId) (x : TimerId),
          (((setEvent (wap_event_destroy
              (heap_adjust (setElapses s tid (iv + now)) p).1 z) tid
                (some e)).timers x).index =
            ((heap_adjust (setElapses s tid (iv + now)) p).1.timers x).index)
          ∧ (((setEvent (wap_event_destroy
              (heap_adjust (setElapses s tid (iv + now)) p).1 z) tid
                (some e)).timers x).elapses =
            ((heap_adjust (setElapses s tid (iv + now)) p).1.timers x).elapses)
          ∧ (((setEvent (wap_event_destroy
              (heap_adjust (setElapses s tid (iv + now)) p).1 z) tid
                (some e)).timers x).elapsed_event =
            ((heap_adjust (setElapses s tid (iv + now)) p).1.timers x).elapsed_event) := by
        intro z x
        rw [htimEv]
        by_cases hxt : x = tid
        · rw [if_pos hxt, hxt]
          exact ⟨rfl, rfl, rfl⟩
        · rw [if_neg hxt]
          exact ⟨rfl, rfl, rfl⟩
      have hkeyEv : ∀ (z : Option EventId) (k : Nat),
          keyAt (setEvent (wap_event_destroy
            (heap_adjust (setElapses s tid (iv + now)) p).1 z) tid (some e)) k =
          keyAt (heap_adjust (setElapses s tid (iv + now)) p).1 k := by
        intro z k
        unfold keyAt
        rw [hheapEv]
        show ((setEvent (wap_event_destroy
            (heap_adjust (setElapses s tid (iv + now)) p).1 z) tid (some e)).timers
          (nth (heap_adjust (setElapses s tid (iv + now)) p).1.heap k)).elapses = _
        rw [(hfieldsEv z _).2.1]
        rfl
      refine ⟨?_, ?_, ?_, ?_, ?_⟩
      · refine ⟨?_, ?_, ?_, ?_, ?_, ?_, ?_⟩
        · rw [hheapEv]
          exact hSetInvR.nodup
        · intro k hk
          rw [hheapEv] at hk
          rw [hheapEv, (hfieldsEv _ _).1]
          exact hSetInvR.idxOk k hk
        · intro x hx
          rw [hheapEv] at hx
          rw [(hfieldsEv _ x).1]
          exact hSetInvR.idxNeg x hx
        · intro x hx
          rw [hheapEv] at hx
          rw [(hfieldsEv _ x).2.1]
          exact hSetInvR.elapsesPos x hx
        · intro x hx
          rw [hheapEv] at hx
          rw [(hfieldsEv _ x).2.1]
          exact hSetInvR.elapsesNeg x hx
        · intro x hx
          rw [hheapEv] at hx
          rw [(hfieldsEv _ x).2.2]
          exact hSetInvR.elapsedNone x hx
        · intro j hj0 hjlen
          rw [hheapEv] at hjlen
          rw [hkeyEv, hkeyEv]
          exact hSetInvR.order j hj0 hjlen
      · rw [(hfieldsEv _ tid).2.1]
        exact helR
      · intro x
        rw [hheapEv]
        exact hmemR' x
      · rw [hkeyEv]
        exact hwake
      · intro _
        rw [htimEv, if_pos rfl]
  · rw [if_neg hact]
    have htid : tid ∉ s.heap := fun hm => hact (h.elapsesPos tid hm)
    have hheap2 : (setElapses (abort_elapsed s tid) tid (iv + now)).heap = s.heap :=
      abort_elapsed_heap s tid
    have hidx2 : ∀ x,
        ((setElapses (abort_elapsed s tid) tid (iv + now)).timers x).index =
        (s.timers x).index := by
      intro x
      rw [setElapses_apply]
      by_cases hx : x = tid
      · rw [if_pos hx, hx]
        exact abort_elapsed_index s tid tid
      · rw [if_neg hx]
        exact abort_elapsed_index s tid x
    have hela2 : ∀ x,
        ((setElapses (abort_elapsed s tid) tid (iv + now)).timers x).elapses =
        if x = tid then iv + now else (s.timers x).elapses := by
      intro x
      rw [setElapses_apply]
      by_cases hx : x = tid
      · rw [if_pos hx, if_pos hx]
      · rw [if_neg hx, if_neg hx]
        exact abort_elapsed_elapses s tid x
    have helev2 : ∀ x,
        ((setElapses (abort_elapsed s tid) tid (iv + now)).timers x).elapsed_event =
        if x = tid then none else (s.timers x).elapsed_event := by
      intro x
      rw [setElapses_apply]
      by_cases hx : x = tid
      · rw [if_pos hx, if_pos hx]
        show ((abort_elapsed s tid).timers tid).elapsed_event = none
        rw [abort_elapsed_elapsed_event, if_pos rfl]
      · rw [if_neg hx, if_neg hx]
        show ((abort_elapsed s tid).timers x).elapsed_event = _
        rw [abort_elapsed_elapsed_event, if_neg hx]
    have hwf2 : HeapWF (setElapses (abort_elapsed s tid) tid (iv + now)) := by
      constructor
      · rw [hheap2]
        exact h.nodup
      · intro k hk
        rw [hheap2] at hk ⊢
        rw [hidx2]
        exact h.idxOk k hk
    have hkeyAt2 : ∀ k, k < s.heap.length →
        keyAt (setElapses (abort_elapsed s tid) tid (iv + now)) k = keyAt s k := by
      intro k hk
      show key (setElapses (abort_elapsed s tid) tid (iv + now))
        (nth (setElapses (abort_elapsed s tid) tid (iv + now)).heap k) = keyAt s k
      rw [hheap2]
      show ((setElapses (abort_elapsed s tid) tid (iv + now)).timers (nth s.heap k)).elapses = _
      rw [hela2, if_neg (show nth s.heap k ≠ tid from
        fun he => htid (he ▸ nth_mem s.heap hk))]
      rfl
    have hord2 : HeapOrd (setElapses (abort_elapsed s tid) tid (iv + now)) := by
      intro j hj0 hjlen
      rw [hheap2] at hjlen
      rw [hkeyAt2 j hjlen, hkeyAt2 (j / 2) (by omega)]
      exact h.order j hj0 hjlen
    have hkey2tid : key (setElapses (abort_elapsed s tid) tid (iv + now)) tid =
        iv + now := by
      show ((setElapses (abort_elapsed s tid) tid (iv + now)).timers tid).elapses = _
      rw [hela2, if_pos rfl]
    have hkey2ne : ∀ x, x ≠ tid →
        key (setElapses (abort_elapsed s tid) tid (iv + now)) x = key s x := by
      intro x hx
      show ((setElapses (abort_elapsed s tid) tid (iv + now)).timers x).elapses = _
      rw [hela2, if_neg hx]
      rfl
    obtain ⟨hwfI, hordI, hmemI, hsameI, hlenI, houtI, hempI, hiffI⟩ :=
      heap_insert_ok (setElapses (abort_elapsed s tid) tid (iv + now)) tid hwf2 hord2
        (fun hm => htid (hheap2 ▸ hm))
    have hmemI' : ∀ x,
        x ∈ (heap_insert (setElapses (abort_elapsed s tid) tid (iv + now)) tid).heap ↔
        x ∈ s.heap ∨ x = tid := by
      intro x
      rw [hmemI x, hheap2]
    refine ⟨?_, ?_, hmemI', ?_, ?_⟩
    · refine ⟨hwfI.nodup, hwfI.idxOk, ?_, ?_, ?_, ?_, hordI⟩
      · intro x hx
        have hnor := (not_iff_not.mpr (hmemI' x)).mp hx
        have hx1 : x ∉ s.heap := fun hm => hnor (Or.inl hm)
        have hxt : x ≠ tid := fun he => hnor (Or.inr he)
        rw [houtI x (fun hm => hx1 (hheap2 ▸ hm)) hxt, hidx2]
        exact h.idxNeg x hx1
      · intro x hx
        rw [(hsameI.1 x).1, hela2]
        by_cases hxt : x = tid
        · rw [if_pos hxt]
          exact hpos
        · rw [if_neg hxt]
          rcases (hmemI' x).mp hx with hx1 | hx1
          · exact h.elapsesPos x hx1
          · exact absurd hx1 hxt
      · intro x hx
        have hnor := (not_iff_not.mpr (hmemI' x)).mp hx
        have hx1 : x ∉ s.heap := fun hm => hnor (Or.inl hm)
        have hxt : x ≠ tid := fun he => hnor (Or.inr he)
        rw [(hsameI.1 x).1, hela2, if_neg hxt]
        exact h.elapsesNeg x hx1
      · intro x hx
        rw [(hsameI.1 x).2.2, helev2]
        by_cases hxt : x = tid
        · rw [if_pos hxt]
        · rw [if_neg hxt]
          rcases (hmemI' x).mp hx with hx1 | hx1
          · exact h.elapsedNone x hx1
          · exact absurd hx1 hxt
    · rw [(hsameI.1 tid).1, hela2, if_pos rfl]
    · have hmemtid3 : tid ∈
          (heap_insert (setElapses (abort_elapsed s tid) tid (iv + now)) tid).heap :=
        (hmemI' tid).mpr (Or.inr rfl)
      obtain ⟨q, hq, hqe⟩ := (mem_iff_nth _ _).mp hmemtid3
      have hidx3 : ((heap_insert (setElapses (abort_elapsed s tid) tid
          (iv + now)) tid).timers tid).index = (q : Int) := by
        have hq' := hwfI.idxOk q hq
        rw [hqe] at hq'
        exact hq'
      have hq0iff : ((heap_insert (setElapses (abort_elapsed s tid) tid
          (iv + now)) tid).timers tid).index = 0 ↔
          nth (heap_insert (setElapses (abort_elapsed s tid) tid
            (iv + now)) tid).heap 0 = tid := by
        rw [hidx3]
        constructor
        · intro hz
          have : q = 0 := by omega
          rw [← this]
          exact hqe
        · intro htop
          have : q = 0 := nth_inj hwfI.nodup hq (by omega) (hqe.trans htop.symm)
          rw [this]
          rfl
      simp only [decide_eq_true_eq]
      rw [hq0iff]
      by_cases hsemp : s.heap = []
      · constructor
        · intro _
          exact Or.inl hsemp
        · intro _
          exact hempI (hheap2.trans hsemp)
      · have hlenpos : 0 < s.heap.length := List.length_pos.mpr hsemp
        have hiff2 := hiffI (by rw [hheap2]; exact hlenpos)
        rw [hkey2tid, hkeyAt2 0 hlenpos] at hiff2
        rw [hiff2]
        constructor
        · intro hlt
          right
          have htop : nth (heap_insert (setElapses (abort_elapsed s tid) tid
              (iv + now)) tid).heap 0 = tid := by
            rw [hiff2]
            exact hlt
          have : keyAt (heap_insert (setElapses (abort_elapsed s tid) tid
              (iv + now)) tid) 0 = iv + now := by
            show key _ (nth (heap_insert (setElapses (abort_elapsed s tid) tid
              (iv + now)) tid).heap 0) = _
            rw [htop, hsameI.key_eq]
            exact hkey2tid
          rw [this]
          exact hlt
        · rintro (hemp | hlt)
          · exact absurd hemp hsemp
          · by_cases hx : nth (heap_insert (setElapses (abort_elapsed s tid) tid
                (iv + now)) tid).heap 0 = tid
            · have hk3 : keyAt (heap_insert (setElapses (abort_elapsed s tid) tid
                  (iv + now)) tid) 0 = iv + now := by
                show key _ (nth (heap_insert (setElapses (abort_elapsed s tid) tid
                  (iv + now)) tid).heap 0) = _
                rw [hx, hsameI.key_eq]
                exact hkey2tid
              rw [hk3] at hlt
              exact hlt
            · exfalso
              have hmem0 : nth (heap_insert (setElapses (abort_elapsed s tid) tid
                  (iv + now)) tid).heap 0 ∈
                  (heap_insert (setElapses (abort_elapsed s tid) tid
                    (iv + now)) tid).heap := by
                apply nth_mem
                rw [hlenI, hheap2]
                omega
              rcases (hmemI' _).mp hmem0 with hxs | hxs
              · obtain ⟨w, hw, hwe⟩ := (mem_iff_nth _ _).mp hxs
                have hmin := heapOrd_min s h.order w hw
                have hk3 : keyAt (heap_insert (setElapses (abort_elapsed s tid) tid
                    (iv + now)) tid) 0 = keyAt s w := by
                  show key _ (nth (heap_insert (setElapses (abort_elapsed s tid) tid
                    (iv + now)) tid).heap 0) = _
                  rw [hsameI.key_eq, hkey2ne _ hx, ← hwe]
                  rfl
                rw [hk3] at hlt
                omega
              · exact hx hxs
    · intro h'
      exact absurd h' hact

theorem keyAt_abort_elapsed (s : Timerset) (tid : TimerId) (k : Nat) :
    keyAt (abort_elapsed s tid) k = keyAt s k := by
  unfold keyAt
  rw [abort_elapsed_heap]
  show ((abort_elapsed s tid).timers (nth s.heap k)).elapses = _
  rw [abort_elapsed_elapses]
  rfl

theorem timer_stop_props (s : Timerset) (tid : TimerId) (h : SetInv s) :
    SetInv (timer_stop s tid)
    ∧ ((timer_stop s tid).timers tid).elapses = -1
    ∧ ((timer_stop s tid).timers tid).index = -1
    ∧ tid ∉ (timer_stop s tid).heap
    ∧ ((timer_stop s tid).timers tid).elapsed_event = none
    ∧ (∀ e, (s.timers tid).elapsed_event = some e →
        (timer_stop s tid).output.count e = 0)
    ∧ (∀ x, x ∈ (timer_stop s tid).heap ↔ x ∈ s.heap ∧ x ≠ tid) := by
  unfold timer_stop
  dsimp only
  by_cases hact : 0 < (s.timers tid).elapses
  · rw [if_pos hact]
    have htid : tid ∈ s.heap := (h.mem_iff_elapses tid).mpr (by omega)
    obtain ⟨p, hp, hpe⟩ := (mem_iff_nth _ _).mp htid
    have hidx : (s.timers tid).index = (p : Int) := by
      rw [← hpe]
      exact h.idxOk p hp
    have hidxA : ((setElapses s tid (-1)).timers tid).index = (s.timers tid).index := by
      rw [setElapses_apply, if_pos rfl]
    rw [show ((setElapses s tid (-1)).timers tid).index.toNat = p from by
      rw [hidxA, hidx]; simp]
    have hidxA' : ∀ x, ((setElapses s tid (-1)).timers x).index = (s.timers x).index := by
      intro x
      rw [setElapses_apply]
      by_cases hx : x = tid
      · rw [if_pos hx, hx]
      · rw [if_neg hx]
    have helaA : ∀ x, ((setElapses s tid (-1)).timers x).elapses =
        if x = tid then -1 else (s.timers x).elapses := by
      intro x
      rw [setElapses_apply]
      by_cases hx : x = tid
      · rw [if_pos hx, if_pos hx]
      · rw [if_neg hx, if_neg hx]
    have helevA : ∀ x, ((setElapses s tid (-1)).timers x).elapsed_event =
        (s.timers x).elapsed_event := by
      intro x
      rw [setElapses_apply]
      by_cases hx : x = tid
      · rw [if_pos hx, hx]
      · rw [if_neg hx]
    have hne : ∀ k, k < s.heap.length → k ≠ p → nth s.heap k ≠ tid := by
      intro k hk hkp he
      exact hkp (nth_inj h.nodup hk hp (he.trans hpe.symm))
    have hkeyAtA : ∀ k, k < s.heap.length → k ≠ p →
        keyAt (setElapses s tid (-1)) k = keyAt s k := by
      intro k hk hkp
      show ((setElapses s tid (-1)).timers (nth s.heap k)).elapses = _
      rw [helaA, if_neg (hne k hk hkp)]
      rfl
    have hwfA : HeapWF (setElapses s tid (-1)) := by
      constructor
      · exact h.nodup
      · intro k hk
        show ((setElapses s tid (-1)).timers (nth s.heap k)).index = _
        rw [hidxA']
        exact h.idxOk k hk
    have hEA : EdgesExcept (setElapses s tid (-1)) p := by
      intro j hj0 hjlen hjp hpjp
      have hjlen' : j < s.heap.length := hjlen
      rw [hkeyAtA j hjlen' hjp, hkeyAtA (j / 2) (by omega) hpjp]
      exact h.order j hj0 hjlen'
    have hBA : ChildBound (setElapses s tid (-1)) p := by
      intro j hj0 hjlen hpj hppos
      have hjlen' : j < s.heap.length := hjlen
      rw [hkeyAtA j hjlen' (by omega), hkeyAtA (p / 2) (by omega) (by omega)]
      have e1 : keyAt s (p / 2) ≤ keyAt s p := h.order p hppos hp
      have e2 : keyAt s (j / 2) ≤ keyAt s j := h.order j hj0 hjlen'
      rw [hpj] at e2
      exact le_trans e1 e2
    obtain ⟨hwfD, hordD, hmemD, hsameD, hlenD, hidxD, houtD⟩ :=
      heap_delete_ok (setElapses s tid (-1)) p hp hwfA hEA hBA
    have hnthA : nth (setElapses s tid (-1)).heap p = tid := hpe
    rw [hnthA] at hmemD hidxD
    refine ⟨?_, ?_, ?_, ?_, ?_, ?_, ?_⟩
    · refine ⟨?_, ?_, ?_, ?_, ?_, ?_, ?_⟩
      · rw [abort_elapsed_heap]
        exact hwfD.nodup
      · intro k hk
        rw [abort_elapsed_heap] at hk ⊢
        rw [abort_elapsed_index]
        exact hwfD.idxOk k hk
      · intro x hx
        rw [abort_elapsed_heap] at hx
        rw [abort_elapsed_index]
        by_cases hxt : x = tid
        · rw [hxt]
          exact hidxD
        · have hx1 : x ∉ s.heap := fun hm => hx ((hmemD x).mpr ⟨hm, hxt⟩)
          rw [houtD x hx1, hidxA']
          exact h.idxNeg x hx1
      · intro x hx
        rw [abort_elapsed_heap] at hx
        obtain ⟨hx1, hxt⟩ := (hmemD x).mp hx
        rw [abort_elapsed_elapses, (hsameD.1 x).1, helaA, if_neg hxt]
        exact h.elapsesPos x hx1
      · intro x hx
        rw [abort_elapsed_heap] at hx
        rw [abort_elapsed_elapses, (hsameD.1 x).1, helaA]
        by_cases hxt : x = tid
        · rw [if_pos hxt]
        · rw [if_neg hxt]
          have hx1 : x ∉ s.heap := fun hm => hx ((hmemD x).mpr ⟨hm, hxt⟩)
          exact h.elapsesNeg x hx1
      · intro x hx
        rw [abort_elapsed_heap] at hx
        obtain ⟨hx1, hxt⟩ := (hmemD x).mp hx
        rw [abort_elapsed_elapsed_event, if_neg hxt, (hsameD.1 x).2.2, helevA]
        exact h.elapsedNone x hx1
      · intro j hj0 hjlen
        rw [abort_elapsed_heap] at hjlen
        rw [keyAt_abort_elapsed, keyAt_abort_elapsed]
        exact hordD j hj0 hjlen
    · rw [abort_elapsed_elapses, (hsameD.1 tid).1, helaA, if_pos rfl]
    · rw [abort_elapsed_index]
      exact hidxD
    · rw [abort_elapsed_heap]
      intro hm
      exact ((hmemD tid).mp hm).2 rfl
    · rw [abort_elapsed_elapsed_event, if_pos rfl]
    · intro e he
      rw [h.elapsedNone tid htid] at he
      exact absurd he (by simp)
    · intro x
      rw [abort_elapsed_heap]
      exact hmemD x
  · rw [if_neg hact]
    have htid : tid ∉ s.heap := fun hm => hact (h.elapsesPos tid hm)
    refine ⟨?_, ?_, ?_, ?_, ?_, ?_, ?_⟩
    · refine ⟨?_, ?_, ?_, ?_, ?_, ?_, ?_⟩
      · rw [abort_elapsed_heap]
        exact h.nodup
      · intro k hk
        rw [abort_elapsed_heap] at hk ⊢
        rw [abort_elapsed_index]
        exact h.idxOk k hk
      · intro x hx
        rw [abort_elapsed_heap] at hx
        rw [abort_elapsed_index]
        exact h.idxNeg x hx
      · intro x hx
        rw [abort_elapsed_heap] at hx
        rw [abort_elapsed_elapses]
        exact h.elapsesPos x hx
      · intro x hx
        rw [abort_elapsed_heap] at hx
        rw [abort_elapsed_elapses]
        exact h.elapsesNeg x hx
      · intro x hx
        rw [abort_elapsed_heap] at hx
        rw [abort_elapsed_elapsed_event]
        by_cases hxt : x = tid
        · rw [if_pos hxt]
        · rw [if_neg hxt]
          exact h.elapsedNone x hx
      · intro j hj0 hjlen
        rw [abort_elapsed_heap] at hjlen
        rw [keyAt_abort_elapsed, keyAt_abort_elapsed]
        exact h.order j hj0 hjlen
    · rw [abort_elapsed_elapses]
      exact h.elapsesNeg tid htid
    · rw [abort_elapsed_index]
      exact h.idxNeg tid htid
    · rw [abort_elapsed_heap]
      exact htid
    · rw [abort_elapsed_elapsed_event, if_pos rfl]
    · intro e he
      unfold abort_elapsed
      rw [he]
      dsimp only
      by_cases h0 : 0 < s.output.count e
      · rw [if_pos h0]
        show (s.output.filter fun x => x != e).count e = 0
        rw [List.count_eq_zero]
        intro hmem
        rw [List.mem_filter] at hmem
        simp at hmem
      · rw [if_neg h0]
        show (s.output.filter fun x => x != e).count e = 0
        rw [List.count_eq_zero]
        intro hmem
        rw [List.mem_filter] at hmem
        simp at hmem
    · intro x
      rw [abort_elapsed_heap]
      constructor
      · intro hm
        exact ⟨hm, fun he => htid (he ▸ hm)⟩
      · intro hm
        exact hm.1

theorem elapse_timer_none_effects (s : Timerset) (tid : TimerId)
    (hc : (s.timers tid).event = none) :
    ((elapse_timer s tid).timers tid).elapsed_event = none
    ∧ (elapse_timer s tid).output = s.output := by
  unfold elapse_timer
  rw [hc]
  simp [wap_event_duplicate, setElapsedEvent, list_produce, setElapses, upd_apply]

theorem elapse_timer_some_effects (s : Timerset) (tid : TimerId) (a : EventId)
    (hc : (s.timers tid).event = some a) :
    ((elapse_timer s tid).timers tid).elapsed_event = some s.nextEvent
    ∧ (elapse_timer s tid).output = s.output ++ [s.nextEvent] := by
  unfold elapse_timer
  rw [hc]
  simp [wap_event_duplicate, setElapsedEvent, list_produce, setElapses, upd_apply]

theorem watch_iteration_props (s : Timerset) (now : Int) (h : SetInv s) :
    SetInv (watch_iteration s now).1
    ∧ (s.heap ≠ [] → (s.timers (nth s.heap 0)).elapses ≤ now →
        (watch_iteration s now).2 = WatchAction.elapsed (nth s.heap 0)
        ∧ (∀ x, x ∈ (watch_iteration s now).1.heap ↔ x ∈ s.heap ∧ x ≠ nth s.heap 0)
        ∧ ((watch_iteration s now).1.timers (nth s.heap 0)).elapses = -1
        ∧ ((watch_iteration s now).1.timers (nth s.heap 0)).index = -1
        ∧ (match (s.timers (nth s.heap 0)).event with
            | none =>
              ((watch_iteration s now).1.timers (nth s.heap 0)).elapsed_event = none
              ∧ (watch_iteration s now).1.output = s.output
            | some _ =>
              ((watch_iteration s now).1.timers (nth s.heap 0)).elapsed_event =
                some s.nextEvent
              ∧ (watch_iteration s now).1.output = s.output ++ [s.nextEvent])) := by
  unfold watch_iteration
  dsimp only
  by_cases hemp : s.heap.length = 0
  · rw [if_pos hemp]
    refine ⟨h, ?_⟩
    intro hne _
    exact absurd (List.length_eq_zero.mp hemp) hne
  · rw [if_neg hemp]
    by_cases htim : (s.timers (nth s.heap 0)).elapses ≤ now
    · rw [if_pos htim]
      have hE0 : EdgesExcept s 0 := fun j hj0 hjlen _ _ => h.order j hj0 hjlen
      have hB0 : ChildBound s 0 := fun j _ _ _ h00 => absurd h00 (lt_irrefl 0)
      obtain ⟨hwfD, hordD, hmemD, hsameD, hlenD, hidxD, houtD⟩ :=
        heap_delete_ok s 0 (by omega) h.toWF hE0 hB0
      have htopnot : nth s.heap 0 ∉ (heap_delete s 0).heap := fun hm =>
        ((hmemD _).mp hm).2 rfl
      have hmemne : ∀ x, x ∈ (heap_delete s 0).heap → x ≠ nth s.heap 0 := by
        intro x hx
        exact ((hmemD x).mp hx).2
      have hSet : SetInv (elapse_timer (heap_delete s 0) (nth s.heap 0)) := by
        refine ⟨?_, ?_, ?_, ?_, ?_, ?_, ?_⟩
        · rw [elapse_timer_heap]
          exact hwfD.nodup
        · intro k hk
          rw [elapse_timer_heap] at hk ⊢
          rw [elapse_timer_index]
          exact hwfD.idxOk k hk
        · intro x hx
          rw [elapse_timer_heap] at hx
          rw [elapse_timer_index]
          by_cases hxt : x = nth s.heap 0
          · rw [hxt]
            exact hidxD
          · have hx1 : x ∉ s.heap := fun hm => hx ((hmemD x).mpr ⟨hm, hxt⟩)
            rw [houtD x hx1]
            exact h.idxNeg x hx1
        · intro x hx
          rw [elapse_timer_heap] at hx
          obtain ⟨hx1, hxt⟩ := (hmemD x).mp hx
          rw [elapse_timer_elapses, if_neg hxt, (hsameD.1 x).1]
          exact h.elapsesPos x hx1
        · intro x hx
          rw [elapse_timer_heap] at hx
          rw [elapse_timer_elapses]
          by_cases hxt : x = nth s.heap 0
          · rw [if_pos hxt]
          · rw [if_neg hxt]
            have hx1 : x ∉ s.heap := fun hm => hx ((hmemD x).mpr ⟨hm, hxt⟩)
            rw [(hsameD.1 x).1]
            exact h.elapsesNeg x hx1
        · intro x hx
          rw [elapse_timer_heap] at hx
          obtain ⟨hx1, hxt⟩ := (hmemD x).mp hx
          rw [elapse_timer_elapsed_event_ne _ _ _ hxt, (hsameD.1 x).2.2]
          exact h.elapsedNone x hx1
        · intro j hj0 hjlen
          rw [elapse_timer_heap] at hjlen
          have hk : ∀ k, k < (heap_delete s 0).heap.length →
              keyAt (elapse_timer (heap_delete s 0) (nth s.heap 0)) k =
              keyAt (heap_delete s 0) k := by
            intro k hkk
            unfold keyAt
            rw [elapse_timer_heap]
            show ((elapse_timer (heap_delete s 0) (nth s.heap 0)).timers
              (nth (heap_delete s 0).heap k)).elapses = _
            rw [elapse_timer_elapses, if_neg (hmemne _ (nth_mem _ hkk))]
            rfl
          rw [hk j hjlen, hk (j / 2) (by omega)]
          exact hordD j hj0 hjlen
      refine ⟨hSet, ?_⟩
      intro _ _
      refine ⟨rfl, ?_, ?_, ?_, ?_⟩
      · intro x
        rw [elapse_timer_heap]
        exact hmemD x
      · rw [elapse_timer_elapses, if_pos rfl]
      · rw [elapse_timer_index]
        exact hidxD
      · have hdev : ((heap_delete s 0).timers (nth s.heap 0)).event =
            (s.timers (nth s.heap 0)).event := (hsameD.1 _).2.1
        cases hc : (s.timers (nth s.heap 0)).event with
        | none =>
          have he := elapse_timer_none_effects (heap_delete s 0) (nth s.heap 0)
            (hdev.trans hc)
          exact ⟨he.1, he.2.trans hsameD.2.1⟩
        | some a =>
          have he := elapse_timer_some_effects (heap_delete s 0) (nth s.heap 0) a
            (hdev.trans hc)
          refine ⟨he.1.trans (by rw [hsameD.2.2.1]), ?_⟩
          rw [he.2, hsameD.2.1, hsameD.2.2.1]
    · rw [if_neg htim]
      refine ⟨h, ?_⟩
      intro _ htim'
      exact absurd htim' htim

/-- The invariant the code actually maintains (timers.c lines 40-47 and
313-315/330): the parent of slot `i` is slot `i / 2` on 0-based indices,
and every in-heap timer records its slot in `index`. -/
def codeMinHeap (s : Timerset) : Prop :=
  (∀ i, 0 < i → i < s.heap.length → keyAt s (i / 2) ≤ keyAt s i)
  ∧ (∀ tid ∈ s.heap, 0 ≤ (s.timers tid).index
      ∧ nth s.heap (s.timers tid).index.toNat = tid)

theorem SetInv.toCodeMinHeap {s : Timerset} (h : SetInv s) : codeMinHeap s := by
  constructor
  · intro i h0 hl
    exact h.order i h0 hl
  · intro tid htid
    obtain ⟨p, hp, hpe⟩ := (mem_iff_nth _ _).mp htid
    have hI : (s.timers tid).index = (p : Int) := by
      rw [← hpe]
      exact h.idxOk p hp
    refine ⟨by rw [hI]; omega, ?_⟩
    rw [hI, show ((p : Int)).toNat = p from by simp]
    exact hpe

/-- C1: the claimed `2i+1`/`2i+2` min-heap layout is wrong for this code
(see `C1_counterexample`); the invariant the operations in fact preserve
is `codeMinHeap`: `heap[i/2].elapses ≤ heap[i].elapses` for `1 ≤ i < n`
together with `heap[t.index] == t`, and it is preserved by `timer_start`,
`timer_stop` and the watcher's iteration (top removal included). -/
theorem C1_heap_invariant (s : Timerset) (tid : TimerId) (now iv : Int)
    (ev : Option EventId) (h : SetInv s) (hpos : 0 < iv + now) :
    codeMinHeap s
    ∧ codeMinHeap (timer_start s tid now iv ev).1
    ∧ codeMinHeap (timer_stop s tid)
    ∧ codeMinHeap (watch_iteration s now).1 :=
  ⟨h.toCodeMinHeap,
    ((timer_start_props s tid now iv ev h hpos).1).toCodeMinHeap,
    ((timer_stop_props s tid h).1).toCodeMinHeap,
    ((watch_iteration_props s now h).1).toCodeMinHeap⟩

theorem C1_heap_invariant_witness :
    codeMinHeap (timer_start (timer_create (timerset_create []) 0) 0 7 3 (some 0)).1
    ∧ codeMinHeap (timer_start
        (timer_start (timer_create (timerset_create []) 0) 0 7 3 (some 0)).1
        0 11 4 none).1
    ∧ codeMinHeap (timer_stop
        (timer_start (timer_create (timerset_create []) 0) 0 7 3 (some 0)).1 0)
    ∧ codeMinHeap (watch_iteration
        (timer_start (timer_create (timerset_create []) 0) 0 7 3 (some 0)).1 11).1 :=
  C1_heap_invariant
    (timer_start (timer_create (timerset_create []) 0) 0 7 3 (some 0)).1
    0 11 4 none
    ((timer_start_props (timer_create (timerset_create []) 0) 0 7 3 (some 0)
      (timer_create_inv (timerset_create []) 0 (timerset_create_inv [])
        (List.not_mem_nil 0)) (by decide)).1)
    (by decide)

/-- The per-timer at-rest property claimed by the spec: a nonnegative
`index` and a nonnegative `elapses` each characterise heap membership, and
an outstanding elapse payload means the timer is out of the heap. -/
def timerAtRest (s : Timerset) : Prop :=
  ∀ tid, (0 ≤ (s.timers tid).index ↔ tid ∈ s.heap)
    ∧ (0 ≤ (s.timers tid).elapses ↔ tid ∈ s.heap)
    ∧ ((s.timers tid).elapsed_event ≠ none → (s.timers tid).index = -1)

theorem SetInv.atRest {s : Timerset} (h : SetInv s) : timerAtRest s := by
  intro tid
  refine ⟨(h.mem_iff_idx tid).symm, (h.mem_iff_elapses tid).symm, ?_⟩
  intro hne
  by_cases hm : tid ∈ s.heap
  · exact absurd (h.elapsedNone tid hm) hne
  · exact h.idxNeg tid hm

/-- C5: at rest, `index ≥ 0` iff `elapses ≥ 0` iff the timer is in the
heap, and `elapsed_event ≠ none` implies `index = -1`; the property is
preserved by `timer_create` (of a fresh timer), `timer_start` (of a
future elapse time), `timer_stop`, and the watcher's elapse iteration. -/
theorem C5_rest_invariants (s : Timerset) (tid tnew : TimerId) (now iv : Int)
    (ev : Option EventId) (h : SetInv s) (hnew : tnew ∉ s.heap)
    (hpos : 0 < iv + now) :
    timerAtRest s
    ∧ timerAtRest (timer_create s tnew)
    ∧ timerAtRest (timer_start s tid now iv ev).1
    ∧ timerAtRest (timer_stop s tid)
    ∧ timerAtRest (watch_iteration s now).1 :=
  ⟨h.atRest, (timer_create_inv s tnew h hnew).atRest,
    ((timer_start_props s tid now iv ev h hpos).1).atRest,
    ((timer_stop_props s tid h).1).atRest,
    ((watch_iteration_props s now h).1).atRest⟩

theorem C5_rest_invariants_witness :
    timerAtRest (timer_start (timer_create (timerset_create []) 0) 0 7 3 (some 0)).1
    ∧ timerAtRest (timer_create
        (timer_start (timer_create (timerset_create []) 0) 0 7 3 (some 0)).1 1)
    ∧ timerAtRest (timer_start
        (timer_start (timer_create (timerset_create []) 0) 0 7 3 (some 0)).1
        0 11 4 (some 5)).1
    ∧ timerAtRest (timer_stop
        (timer_start (timer_create (timerset_create []) 0) 0 7 3 (some 0)).1 0)
    ∧ timerAtRest (watch_iteration
        (timer_start (timer_create (timerset_create []) 0) 0 7 3 (some 0)).1 11).1 :=
  C5_rest_invariants
    (timer_start (timer_create (timerset_create []) 0) 0 7 3 (some 0)).1
    0 1 11 4 (some 5)
    ((timer_start_props (timer_create (timerset_create []) 0) 0 7 3 (some 0)
      (timer_create_inv (timerset_create []) 0 (timerset_create_inv [])
        (List.not_mem_nil 0)) (by decide)).1)
    (by simp [timerset_create, timer_create, timer_start, heap_insert,
      heap_adjust, sift_up, sift_down, heap_swap, setIdx, setElapses, setEvent,
      setElapsedEvent, abort_elapsed, wap_event_destroy, upd, nth, key, keyAt])
    (by decide)

/-- C2: after `timer_stop` the timer is fully inactive (`elapses = -1`,
`index = -1`, out of the heap, no outstanding payload) and its queued
elapse payload, if any, is gone from the output queue; `abort_elapsed`
always ends with `elapsed_event = none`, is a no-op when no payload is
outstanding, and otherwise removes every equal entry from the queue and
destroys the payload exactly when at least one entry was removed. -/
theorem C2_timer_stop_spec (s : Timerset) (tid : TimerId) (h : SetInv s)
    (s' : Timerset) (t' : TimerId) :
    ((timer_stop s tid).timers tid).elapses = -1
    ∧ ((timer_stop s tid).timers tid).index = -1
    ∧ tid ∉ (timer_stop s tid).heap
    ∧ ((timer_stop s tid).timers tid).elapsed_event = none
    ∧ (∀ e, (s.timers tid).elapsed_event = some e →
        (timer_stop s tid).output.count e = 0)
    ∧ ((abort_elapsed s' t').timers t').elapsed_event = none
    ∧ ((s'.timers t').elapsed_event = none → abort_elapsed s' t' = s')
    ∧ (∀ e, (s'.timers t').elapsed_event = some e →
        (abort_elapsed s' t').output = s'.output.filter (fun x => x != e)
        ∧ (abort_elapsed s' t').destroyed =
            s'.destroyed ++ (if 0 < s'.output.count e then [e] else [])) := by
  obtain ⟨_, h1, h2, h3, h4, h5, _⟩ := timer_stop_props s tid h
  refine ⟨h1, h2, h3, h4, h5, ?_, ?_, ?_⟩
  · rw [abort_elapsed_elapsed_event, if_pos rfl]
  · intro hn
    unfold abort_elapsed
    rw [hn]
  · intro e he
    unfold abort_elapsed
    rw [he]
    dsimp only
    by_cases h0 : 0 < s'.output.count e
    · rw [if_pos h0, if_pos h0]
      exact ⟨rfl, rfl⟩
    · rw [if_neg h0, if_neg h0]
      refine ⟨rfl, ?_⟩
      show s'.destroyed = s'.destroyed ++ []
      simp

/-- A timer set with one retracted-payload timer, used to exercise
`abort_elapsed` on a queue holding two copies of the payload. -/
def abortDemo : Timerset where
  heap := []
  output := [7, 3, 7]
  timers := fun _ => { elapses := -1, event := none, elapsed_event := some 7, index := -1 }
  nextEvent := 8
  destroyed := []

theorem C2_timer_stop_spec_witness :
    ((timer_stop (timerset_create [9]) 0).timers 0).elapses = -1
    ∧ ((timer_stop (timerset_create [9]) 0).timers 0).index = -1
    ∧ 0 ∉ (timer_stop (timerset_create [9]) 0).heap
    ∧ ((timer_stop (timerset_create [9]) 0).timers 0).elapsed_event = none
    ∧ (∀ e, ((timerset_create [9]).timers 0).elapsed_event = some e →
        (timer_stop (timerset_create [9]) 0).output.count e = 0)
    ∧ ((abort_elapsed abortDemo 0).timers 0).elapsed_event = none
    ∧ ((abortDemo.timers 0).elapsed_event = none → abort_elapsed abortDemo 0 = abortDemo)
    ∧ (∀ e, (abortDemo.timers 0).elapsed_event = some e →
        (abort_elapsed abortDemo 0).output =
          abortDemo.output.filter (fun x => x != e)
        ∧ (abort_elapsed abortDemo 0).destroyed =
            abortDemo.destroyed ++ (if 0 < abortDemo.output.count e then [e] else [])) :=
  C2_timer_stop_spec (timerset_create [9]) 0 (timerset_create_inv [9]) abortDemo 0

/-- C3: `timer_start` sets the elapse time to `now + interval` under the
set mutex; when active the heap membership is unchanged and the event is
replaced exactly when the payload is non-null; when inactive the code
first runs `abort_elapsed`, then assigns `elapses` and inserts at the
bottom (`heap_insert` sifts up); the wakeup is issued iff the heap was
empty or the new top is earlier than the old one, and the trace shows the
wakeup only after the set mutex is released. -/
theorem C3_timer_start_spec (s : Timerset) (tid : TimerId) (now iv : Int)
    (ev : Option EventId) (h : SetInv s) (hpos : 0 < iv + now) :
    ((timer_start s tid now iv ev).1.timers tid).elapses = iv + now
    ∧ (∀ x, x ∈ (timer_start s tid now iv ev).1.heap ↔ x ∈ s.heap ∨ x = tid)
    ∧ (0 < (s.timers tid).elapses →
        ((timer_start s tid now iv ev).1.timers tid).event =
          (match ev with | none => (s.timers tid).event | some e => some e))
    ∧ (¬ 0 < (s.timers tid).elapses →
        (timer_start s tid now iv ev).1 =
          heap_insert (setElapses (abort_elapsed s tid) tid (iv + now)) tid)
    ∧ ((timer_start s tid now iv ev).2 = true ↔
        (s.heap = [] ∨ keyAt (timer_start s tid now iv ev).1 0 < keyAt s 0))
    ∧ timer_start_trace s tid now iv ev =
        [LockEv.lockSet, LockEv.unlockSet] ++
          (if (timer_start s tid now iv ev).2 then [LockEv.wakeCall] else [])
    ∧ pausesUnlocked (timer_start_trace s tid now iv ev) = true := by
  obtain ⟨_, h2, h3, h4, h5⟩ := timer_start_props s tid now iv ev h hpos
  refine ⟨h2, h3, h5, ?_, h4, rfl, ?_⟩
  · intro hin
    unfold timer_start
    dsimp only
    rw [if_neg hin]
  · cases hb : (timer_start s tid now iv ev).2 <;>
      simp [timer_start_trace, hb] <;> decide

theorem C3_timer_start_spec_witness :
    ((timer_start (timer_start (timer_create (timerset_create []) 0) 0 7 3
        (some 0)).1 0 11 4 (some 5)).1.timers 0).elapses = 4 + 11
    ∧ (∀ x, x ∈ (timer_start (timer_start (timer_create (timerset_create []) 0)
        0 7 3 (some 0)).1 0 11 4 (some 5)).1.heap ↔
        x ∈ (timer_start (timer_create (timerset_create []) 0) 0 7 3
          (some 0)).1.heap ∨ x = 0)
    ∧ (0 < (((timer_start (timer_create (timerset_create []) 0) 0 7 3
        (some 0)).1.timers 0)).elapses →
        ((timer_start (timer_start (timer_create (timerset_create []) 0) 0 7 3
          (some 0)).1 0 11 4 (some 5)).1.timers 0).event =
          (match (some 5 : Option EventId) with
            | none => (((timer_start (timer_create (timerset_create []) 0) 0 7 3
                (some 0)).1.timers 0)).event
            | some e => some e))
    ∧ (¬ 0 < (((timer_start (timer_create (timerset_create []) 0) 0 7 3
        (some 0)).1.timers 0)).elapses →
        (timer_start (timer_start (timer_create (timerset_create []) 0) 0 7 3
          (some 0)).1 0 11 4 (some 5)).1 =
          heap_insert (setElapses (abort_elapsed
            (timer_start (timer_create (timerset_create []) 0) 0 7 3 (some 0)).1 0)
            0 (4 + 11)) 0)
    ∧ ((timer_start (timer_start (timer_create (timerset_create []) 0) 0 7 3
        (some 0)).1 0 11 4 (some 5)).2 = true ↔
        ((timer_start (timer_create (timerset_create []) 0) 0 7 3 (some 0)).1.heap = []
          ∨ keyAt (timer_start (timer_start (timer_create (timerset_create []) 0)
              0 7 3 (some 0)).1 0 11 4 (some 5)).1 0 <
            keyAt (timer_start (timer_create (timerset_create []) 0) 0 7 3
              (some 0)).1 0))
    ∧ timer_start_trace (timer_start (timer_create (timerset_create []) 0) 0 7 3
        (some 0)).1 0 11 4 (some 5) =
        [LockEv.lockSet, LockEv.unlockSet] ++
          (if (timer_start (timer_start (timer_create (timerset_create []) 0) 0 7 3
              (some 0)).1 0 11 4 (some 5)).2 then [LockEv.wakeCall] else [])
    ∧ pausesUnlocked (timer_start_trace
        (timer_start (timer_create (timerset_create []) 0) 0 7 3 (some 0)).1
        0 11 4 (some 5)) = true :=
  C3_timer_start_spec
    (timer_start (timer_create (timerset_create []) 0) 0 7 3 (some 0)).1
    0 11 4 (some 5)
    ((timer_start_props (timer_create (timerset_create []) 0) 0 7 3 (some 0)
      (timer_create_inv (timerset_create []) 0 (timerset_create_inv [])
        (List.not_mem_nil 0)) (by decide)).1)
    (by decide)

/-- C4: whenever the heap is non-empty and the top timer has
`elapses ≤ now`, the watcher iteration removes the top timer from the heap
and elapses it: its event is duplicated (a fresh id), the duplicate is
produced on the output queue and stored in `elapsed_event`, and `elapses`
is cleared to `-1`; and no watcher trace holds the set mutex at a sleep. -/
theorem C4_watcher_elapse (s : Timerset) (now : Int) (h : SetInv s)
    (hne : s.heap ≠ []) (htop : (s.timers (nth s.heap 0)).elapses ≤ now) :
    (watch_iteration s now).2 = WatchAction.elapsed (nth s.heap 0)
    ∧ (∀ x, x ∈ (watch_iteration s now).1.heap ↔ x ∈ s.heap ∧ x ≠ nth s.heap 0)
    ∧ ((watch_iteration s now).1.timers (nth s.heap 0)).elapses = -1
    ∧ ((watch_iteration s now).1.timers (nth s.heap 0)).index = -1
    ∧ (match (s.timers (nth s.heap 0)).event with
        | none =>
          ((watch_iteration s now).1.timers (nth s.heap 0)).elapsed_event = none
          ∧ (watch_iteration s now).1.output = s.output
        | some _ =>
          ((watch_iteration s now).1.timers (nth s.heap 0)).elapsed_event =
            some s.nextEvent
          ∧ (watch_iteration s now).1.output = s.output ++ [s.nextEvent])
    ∧ (∀ (s2 : Timerset) (now2 : Int), pausesUnlocked (watch_trace s2 now2) = true) := by
  obtain ⟨_, hprops⟩ := watch_iteration_props s now h
  obtain ⟨ha, hb, hc, hd, he⟩ := hprops hne htop
  refine ⟨ha, hb, hc, hd, he, ?_⟩
  intro s2 now2
  unfold watch_trace
  by_cases h1 : s2.heap.length = 0
  · rw [if_pos h1]
    decide
  · rw [if_neg h1]
    by_cases h2 : (s2.timers (nth s2.heap 0)).elapses ≤ now2
    · rw [if_pos h2]
      decide
    · rw [if_neg h2]
      decide

theorem C4_watcher_elapse_witness :
    (watch_iteration (timer_start (timer_create (timerset_create []) 0) 0 7 3
        (some 0)).1 10).2 = WatchAction.elapsed
      (nth (timer_start (timer_create (timerset_create []) 0) 0 7 3 (some 0)).1.heap 0)
    ∧ (∀ x, x ∈ (watch_iteration (timer_start (timer_create (timerset_create []) 0)
        0 7 3 (some 0)).1 10).1.heap ↔
        x ∈ (timer_start (timer_create (timerset_create []) 0) 0 7 3
          (some 0)).1.heap ∧
        x ≠ nth (timer_start (timer_create (timerset_create []) 0) 0 7 3
          (some 0)).1.heap 0)
    ∧ ((watch_iteration (timer_start (timer_create (timerset_create []) 0) 0 7 3
        (some 0)).1 10).1.timers
        (nth (timer_start (timer_create (timerset_create []) 0) 0 7 3
          (some 0)).1.heap 0)).elapses = -1
    ∧ ((watch_iteration (timer_start (timer_create (timerset_create []) 0) 0 7 3
        (some 0)).1 10).1.timers
        (nth (timer_start (timer_create (timerset_create []) 0) 0 7 3
          (some 0)).1.heap 0)).index = -1
    ∧ (match ((timer_start (timer_create (timerset_create []) 0) 0 7 3
        (some 0)).1.timers
        (nth (timer_start (timer_create (timerset_create []) 0) 0 7 3
          (some 0)).1.heap 0)).event with
        | none =>
          ((watch_iteration (timer_start (timer_create (timerset_create []) 0) 0 7 3
            (some 0)).1 10).1.timers
            (nth (timer_start (timer_create (timerset_create []) 0) 0 7 3
              (some 0)).1.heap 0)).elapsed_event = none
          ∧ (watch_iteration (timer_start (timer_create (timerset_create []) 0) 0 7 3
              (some 0)).1 10).1.output =
            (timer_start (timer_create (timerset_create []) 0) 0 7 3 (some 0)).1.output
        | some _ =>
          ((watch_iteration (timer_start (timer_create (timerset_create []) 0) 0 7 3
            (some 0)).1 10).1.timers
            (nth (timer_start (timer_create (timerset_create []) 0) 0 7 3
              (some 0)).1.heap 0)).elapsed_event =
            some (timer_start (timer_create (timerset_create []) 0) 0 7 3
              (some 0)).1.nextEvent
          ∧ (watch_iteration (timer_start (timer_create (timerset_create []) 0) 0 7 3
              (some 0)).1 10).1.output =
            (timer_start (timer_create (timerset_create []) 0) 0 7 3 (some 0)).1.output
              ++ [(timer_start (timer_create (timerset_create []) 0) 0 7 3
                (some 0)).1.nextEvent])
    ∧ (∀ (s2 : Timerset) (now2 : Int), pausesUnlocked (watch_trace s2 now2) = true) :=
  C4_watcher_elapse
    (timer_start (timer_create (timerset_create []) 0) 0 7 3 (some 0)).1 10
    ((timer_start_props (timer_create (timerset_create []) 0) 0 7 3 (some 0)
      (timer_create_inv (timerset_create []) 0 (timerset_create_inv [])
        (List.not_mem_nil 0)) (by decide)).1)
    (by simp [timerset_create, timer_create, timer_start, heap_insert,
      heap_adjust, sift_up, sift_down, heap_swap, setIdx, setElapses, setEvent,
      setElapsedEvent, abort_elapsed, wap_event_destroy, upd, nth, key, keyAt])
    (by simp [timerset_create, timer_create, timer_start, heap_insert,
      heap_adjust, sift_up, sift_down, heap_swap, setIdx, setElapses, setEvent,
      setElapsedEvent, abort_elapsed, wap_event_destroy, upd, nth, key, keyAt])

end Kannel
